import Mathlib

/-!
# STSKanri backend: timeline reconstruction, feed scan, cache and metrics

A shallow embedding of `backend/main.go`.

Conventions used throughout:

* Go `int64`/`int` values are `Int`; Go `/` on integers truncates toward zero and is
  `Int.tdiv`.  The product `timespan * 60 * 1000` (`timeSpanUnit`), the arithmetic of
  `timeLineApi` on `from` and `to`, and the products of the page cut of `awbApi` are
  wrapped into the `int64` range by `wrapInt64`, as the machine does.  The bucket walk
  of `getAwbStatuses` and `getLatestAwbs` is modelled in exact integers: it agrees with
  the machine as long as the event times, `from` and `to + hourUnit - 1` are inside the
  `int64` range, that is for `to <= 2^63 - 3600000`.
* A `time.Time` built by `time.Unix(ms/1000, 0)` is represented by its Unix second
  count `ms/1000`.
* The document store is external: the decoded `hits` array of a search response is
  an argument of the function that consumes it.
-/

namespace STSKanri

/-! ## Data model -/

/-- The `_source` object of one search hit, with the fields the backend reads.
`update_time` is the value after the `int64(...)` conversion. -/
structure Hit where
  sts_code : String
  is_stocked : Bool
  update_time : Int
  last_updated_user : String
  last_updated_user_id : String
  company_code : String
  company_name : String
  section_code : String
  igs_status : String
deriving DecidableEq, Repr

/-- Go `type Status struct`; `BaseTime` is held as Unix seconds. -/
structure Status where
  Index : Int
  Awbno : String
  BaseTime : Int
  TimespanInMinutes : Int
  Q : Int
  StatusCode : String
  SectionCode : String
  CompanyCode : String
  CompanyName : String
  LastUserName : String
  LastUserId : String
  IsStocked : Bool
  IgsStatus : String
deriving DecidableEq, Repr

/-- `hourUnit := int64(3600000)`. -/
def hourUnit : Int := 3600000

/-- The value an `int64` variable (and an `int` one: the backend is built for 64-bit
targets) holds after an operation whose exact result is `x`: `x` wrapped around into
`-2^63 ... 2^63 - 1`. -/
def wrapInt64 (x : Int) : Int :=
  (x + 9223372036854775808) % 18446744073709551616 - 9223372036854775808

/-- `timeSpanUnit := int64(timespan * 60 * 1000)`: both products are `int` products and
wrap around. -/
def timeSpanUnit (timespan : Int) : Int := wrapInt64 (wrapInt64 (timespan * 60) * 1000)

/-- `hour_quarters := int((hourUnit-1)/timeSpanUnit + 1)`. -/
def hourQuarters (timespan : Int) : Int :=
  Int.tdiv (hourUnit - 1) (timeSpanUnit timespan) + 1

/-- The `Status{... StatusCode: "NA" ...}` literal appended by the three filler loops. -/
def naStatus (statusIdx : Int) (awbno : String) (basetime q timespan : Int) : Status :=
  { Index := statusIdx
    Awbno := awbno
    StatusCode := "NA"
    BaseTime := Int.tdiv basetime 1000
    Q := q
    TimespanInMinutes := timespan
    SectionCode := ""
    CompanyCode := ""
    CompanyName := ""
    LastUserName := ""
    LastUserId := ""
    IsStocked := false
    IgsStatus := "" }

/-- The `Status{... StatusCode: p_sts_code ...}` literal built from the carried
`p_*` fields (held here as the hit they were copied from). -/
def realStatus (statusIdx : Int) (awbno : String) (basetime q timespan : Int) (p : Hit) :
    Status :=
  { Index := statusIdx
    Awbno := awbno
    StatusCode := p.sts_code
    BaseTime := Int.tdiv basetime 1000
    Q := q
    TimespanInMinutes := timespan
    SectionCode := p.section_code
    CompanyCode := p.company_code
    CompanyName := p.company_name
    LastUserName := p.last_updated_user
    LastUserId := p.last_updated_user_id
    IsStocked := p.is_stocked
    IgsStatus := p.igs_status }

/-! ## `getAwbStatuses` -/

/-- The variables a filler loop reads and writes: the result slice, `statusIdx`, and
the bucket cursor (`c_basetime`/`c_q` in the first and last loop, `p_basetime`/`p_q`
in the loop inside the event walk). -/
structure Walk where
  result : List Status
  statusIdx : Int
  basetime : Int
  q : Int
deriving DecidableEq, Repr

/-- The cursor update shared by all loops:
`if (q + 1) < hour_quarters { q++ } else { q = 0; basetime += hourUnit }`. -/
def stepCursor (hour_quarters : Int) (basetime q : Int) : Int × Int :=
  if q + 1 < hour_quarters then (basetime, q + 1) else (basetime + hourUnit, 0)

/-- One `for whitespaces > 0 { ... }` loop, run for `n` iterations (`n` is
`whitespaces` when positive, `0` otherwise).  Each iteration appends an `NA` bucket
at the cursor, increments `statusIdx` and advances the cursor; the three loops of the
source differ only in the order of these independent updates. -/
def fillNA (awbno : String) (timespan hour_quarters : Int) : Nat → Walk → Walk
  | 0, w => w
  | n + 1, w =>
    fillNA awbno timespan hour_quarters n
      { result := w.result ++ [naStatus w.statusIdx awbno w.basetime w.q timespan]
        statusIdx := w.statusIdx + 1
        basetime := (stepCursor hour_quarters w.basetime w.q).1
        q := (stepCursor hour_quarters w.basetime w.q).2 }

/-- The variables live across the `for _, hit := range hits` loop. -/
structure Loop where
  result : List Status
  statusIdx : Int
  p : Hit
  p_basetime : Int
  p_q : Int
  c_basetime : Int
  c_q : Int
deriving DecidableEq, Repr

/-- Body of `for _, hit := range hits` (lines 912-984). -/
def eventStep (awbno : String) (timespan hour_quarters : Int) (s : Loop) (hit : Hit) : Loop :=
  let c_basetime := Int.tdiv hit.update_time hourUnit * hourUnit
  let c_q := Int.tdiv (hit.update_time - c_basetime) (timeSpanUnit timespan)
  if c_basetime ≠ s.p_basetime ∨ c_q ≠ s.p_q then
    let hour_diff := Int.tdiv (c_basetime - s.p_basetime) hourUnit
    let whitespaces := hour_quarters * hour_diff + c_q - s.p_q - 1
    let w := fillNA awbno timespan hour_quarters whitespaces.toNat
      { result := s.result, statusIdx := s.statusIdx, basetime := s.p_basetime, q := s.p_q }
    { result := w.result ++ [realStatus w.statusIdx awbno w.basetime w.q timespan s.p]
      statusIdx := w.statusIdx + 1
      p := hit
      p_basetime := c_basetime
      p_q := c_q
      c_basetime := c_basetime
      c_q := c_q }
  else
    { s with p := hit, p_basetime := c_basetime, p_q := c_q,
             c_basetime := c_basetime, c_q := c_q }

/-- The start cursor `(c_basetime, c_q)` of lines 873-882; the `isUpdate` branch assigns
the value `c_basetime` already has. -/
def startCursor (from_ timespan : Int) (isLatest : Bool) : Int × Int :=
  let c_basetime := Int.tdiv from_ hourUnit * hourUnit
  if isLatest then
    let o_basetime := c_basetime
    let c_basetime := Int.tdiv from_ (timeSpanUnit timespan) * timeSpanUnit timespan
    (c_basetime, Int.tdiv (c_basetime - o_basetime) (timeSpanUnit timespan))
  else
    (c_basetime, 0)

/-- The number `whitespaces` of trailing fillers computed at lines 1007-1015 from the
cursor that follows the last real bucket. -/
def tailWhitespaces (to_ timespan : Int) (isLatest isUpdate : Bool) (c_basetime c_q : Int) :
    Int :=
  let hour_quarters := hourQuarters timespan
  let to_basetime := Int.tdiv (to_ + hourUnit - 1) hourUnit * hourUnit
  let hour_diff := Int.tdiv (to_basetime - c_basetime) hourUnit
  if isLatest || isUpdate then
    let to_basetime := Int.tdiv to_ (timeSpanUnit timespan) * timeSpanUnit timespan
    let hour_diff := Int.tdiv (to_basetime - c_basetime) hourUnit
    let to_q := Int.tdiv (to_ - to_basetime) (timeSpanUnit timespan)
    hour_quarters * hour_diff + to_q - c_q
  else
    hour_quarters * hour_diff - c_q

/-- The state after the leading filler loop (lines 856-910), for a first hit `h0`. -/
def leadWalk (from_ : Int) (awbno : String) (timespan : Int) (isLatest : Bool) (h0 : Hit) :
    Walk :=
  let p_basetime := Int.tdiv h0.update_time hourUnit * hourUnit
  let p_q := Int.tdiv (h0.update_time - p_basetime) (timeSpanUnit timespan)
  let c := startCursor from_ timespan isLatest
  let hour_diff := Int.tdiv (p_basetime - c.1) hourUnit
  let hour_quarters := hourQuarters timespan
  let whitespaces := hour_quarters * hour_diff + p_q - c.2
  fillNA awbno timespan hour_quarters whitespaces.toNat
    { result := [], statusIdx := 0, basetime := c.1, q := c.2 }

/-- The variables at the start of the event walk: the carried fields `p_*` are those
of the first hit `h0`, the result and the cursor `c` are as the leading filler loop
left them. -/
def startLoop (w : Walk) (timespan : Int) (h0 : Hit) : Loop :=
  let p_basetime := Int.tdiv h0.update_time hourUnit * hourUnit
  let p_q := Int.tdiv (h0.update_time - p_basetime) (timeSpanUnit timespan)
  { result := w.result, statusIdx := w.statusIdx, p := h0,
    p_basetime := p_basetime, p_q := p_q, c_basetime := w.basetime, c_q := w.q }

/-- The state after the event walk (lines 856-984). -/
def eventWalk (from_ : Int) (awbno : String) (timespan : Int) (isLatest : Bool)
    (h0 : Hit) (hits : List Hit) : Loop :=
  hits.foldl (eventStep awbno timespan (hourQuarters timespan))
    (startLoop (leadWalk from_ awbno timespan isLatest h0) timespan h0)

/-- Lines 985-1006: the real bucket of the carried event is appended at
`(p_basetime, p_q)` and the cursor `c` steps one bucket forward. -/
def closeWalk (awbno : String) (timespan : Int) (s : Loop) : Walk :=
  let c := stepCursor (hourQuarters timespan) s.c_basetime s.c_q
  { result := s.result ++ [realStatus s.statusIdx awbno s.p_basetime s.p_q timespan s.p]
    statusIdx := s.statusIdx + 1
    basetime := c.1
    q := c.2 }

/-- `getAwbStatuses(from, to, awbno, timespan, isLatest, isUpdate)` as a function of the
hits the store returns for the query (events of `awbno` with `from <= update_time <= to`,
ascending).  `none` is the `nil` slice returned when there is no hit.  The Go code
divides by `timeSpanUnit`, so it is only defined for `timespan ≠ 0`; the one caller,
`statusApi`, passes `10`. -/
def getAwbStatuses (from_ to_ : Int) (awbno : String) (timespan : Int)
    (isLatest isUpdate : Bool) (hits : List Hit) : Option (List Status) :=
  match hits with
  | [] => none
  | h0 :: _ =>
    let w := closeWalk awbno timespan (eventWalk from_ awbno timespan isLatest h0 hits)
    let whitespaces := tailWhitespaces to_ timespan isLatest isUpdate w.basetime w.q
    some (fillNA awbno timespan (hourQuarters timespan) whitespaces.toNat w).result

/-- `statusApi` after parameter parsing: the span is fixed to 10 minutes and
`isUpdate` is only looked at when `islatest` is not `"true"`. -/
def statusApi (from_ to_ : Int) (awbno : String) (islatest isupdate : Bool)
    (hits : List Hit) : Option (List Status) :=
  getAwbStatuses from_ to_ awbno 10 islatest (!islatest && isupdate) hits

/-! ## The predicates the timeline claims are stated with -/

/-- The next-bucket successor of the coordinate of `a` is the coordinate of `b`:
`Q + 1` within the hour, and the next hour (3600 seconds later) with `Q = 0` when
`Q + 1` equals the quarters per hour. -/
def nextBucket (hour_quarters : Int) (a b : Status) : Prop :=
  if a.Q + 1 = hour_quarters then b.BaseTime = a.BaseTime + 3600 ∧ b.Q = 0
  else b.BaseTime = a.BaseTime ∧ b.Q = a.Q + 1

instance (hour_quarters : Int) (a b : Status) : Decidable (nextBucket hour_quarters a b) :=
  inferInstanceAs (Decidable (if a.Q + 1 = hour_quarters
    then b.BaseTime = a.BaseTime + 3600 ∧ b.Q = 0
    else b.BaseTime = a.BaseTime ∧ b.Q = a.Q + 1))

/-- Every bucket's coordinate is the next-bucket successor of the coordinate of the
bucket before it: no bucket is skipped or repeated. -/
def contiguous (hour_quarters : Int) : List Status → Prop
  | [] => True
  | [_] => True
  | a :: b :: rest => nextBucket hour_quarters a b ∧ contiguous hour_quarters (b :: rest)

instance decContiguous (hour_quarters : Int) :
    (l : List Status) → Decidable (contiguous hour_quarters l)
  | [] => isTrue trivial
  | [_] => isTrue trivial
  | a :: b :: rest =>
    have := decContiguous hour_quarters (b :: rest)
    inferInstanceAs
      (Decidable (nextBucket hour_quarters a b ∧ contiguous hour_quarters (b :: rest)))

/-- The buckets carry the indices `0, 1, 2, ...` in output order. -/
def indexedFromZero (l : List Status) : Prop :=
  l.map (fun s => s.Index) = (List.range l.length).map Int.ofNat

instance (l : List Status) : Decidable (indexedFromZero l) :=
  inferInstanceAs (Decidable (l.map (fun s => s.Index) = (List.range l.length).map Int.ofNat))

/-- The number of leading buckets whose status code is `"NA"`. -/
def leadingNA (l : List Status) : Nat :=
  (l.takeWhile (fun s => s.StatusCode == "NA")).length

/-! ## The bucket grid and the invariants of the walk -/

/-- The hour-aligned coordinate `(basetime, q)` is a bucket of the grid. -/
def validBucket (hour_quarters basetime q : Int) : Prop :=
  basetime % hourUnit = 0 ∧ 0 ≤ q ∧ q < hour_quarters

/-- The position of the bucket `(basetime, q)` in the grid: buckets are numbered hour
by hour, `hour_quarters` to the hour. -/
def bucketNo (hour_quarters basetime q : Int) : Int :=
  hour_quarters * (basetime / hourUnit) + q

/-- The hour start of the bucket of time `t`. -/
def hourOf (t : Int) : Int := Int.tdiv t hourUnit * hourUnit

/-- The quarter index of the bucket of time `t`. -/
def quarterOf (timespan t : Int) : Int := Int.tdiv (t - hourOf t) (timeSpanUnit timespan)

/-- A bucket appended at the coordinate `(basetime, q)` is the successor of the last
bucket of `l`, if there is one. -/
def trailsInto (hour_quarters : Int) (l : List Status) (basetime q : Int) : Prop :=
  ∀ last ∈ l.getLast?, ∀ s : Status, s.BaseTime = Int.tdiv basetime 1000 → s.Q = q →
    nextBucket hour_quarters last s

/-- The invariant of the result slice and the cursor that the filler loops and the
event walk maintain. -/
structure WalkOK (hour_quarters : Int) (w : Walk) : Prop where
  idx : w.statusIdx = w.result.length
  indexed : indexedFromZero w.result
  contig : contiguous hour_quarters w.result
  trail : trailsInto hour_quarters w.result w.basetime w.q
  valid : validBucket hour_quarters w.basetime w.q

/-- The invariant of the event walk: the result so far leads into the bucket of the
carried event `p`, which is also where the cursor `c` stands. -/
structure LoopOK (timespan : Int) (s : Loop) : Prop where
  walk : WalkOK (hourQuarters timespan)
    { result := s.result, statusIdx := s.statusIdx, basetime := s.p_basetime, q := s.p_q }
  pb : s.p_basetime = hourOf s.p.update_time
  pq : s.p_q = quarterOf timespan s.p.update_time
  nonneg : 0 ≤ s.p.update_time
  cb : s.c_basetime = s.p_basetime
  cq : s.c_q = s.p_q

/-- The bucket's `BaseTime` is a whole number of hours and its `Q` is a quarter index
of the grid. -/
def alignedBucket (hour_quarters : Int) (s : Status) : Prop :=
  s.BaseTime % 3600 = 0 ∧ 0 ≤ s.Q ∧ s.Q < hour_quarters

/-! ## `readSTSfile`: the scan over the feed rows (lines 1222-1268) -/

/-- Go `unicode.IsSpace`. -/
def isSpace (c : Char) : Bool :=
  let n := c.toNat
  n == 9 || n == 10 || n == 11 || n == 12 || n == 13 || n == 32 || n == 0x85 || n == 0xA0 ||
    n == 0x1680 || (0x2000 ≤ n && n ≤ 0x200A) || n == 0x2028 || n == 0x2029 ||
    n == 0x202F || n == 0x205F || n == 0x3000

/-- Go `strings.TrimSpace`. -/
def TrimSpace (s : String) : String :=
  String.mk ((s.data.dropWhile isSpace).reverse.dropWhile isSpace).reverse

/-- The eight carried variables `prevawb, prevbr, prevsts, prevusr, prevuserid, prevcom,
prevcomcd, prevsec`; the eight slices `awbs, brs, ...` are appended to in lockstep and
are held as one list of these. -/
structure FeedRow where
  awb : String
  br : String
  sts : String
  usr : String
  userid : String
  com : String
  comcd : String
  sec : String
deriving DecidableEq, Repr

/-- The assignments `prevawb = strings.TrimSpace(record[2])`, ...; an index outside the
record panics (`none`). -/
def readRow (record : List String) : Option FeedRow := do
  let awb ← record[2]?
  let br ← record[3]?
  let sts ← record[7]?
  let usr ← record[12]?
  let userid ← record[11]?
  let com ← record[6]?
  let comcd ← record[5]?
  let sec ← record[1]?
  pure { awb := TrimSpace awb, br := TrimSpace br, sts := TrimSpace sts, usr := TrimSpace usr,
         userid := TrimSpace userid, com := TrimSpace com, comcd := TrimSpace comcd,
         sec := TrimSpace sec }

/-- The key the scan compares: `prevawb + "-" + prevbr`. -/
def compositeKey (r : FeedRow) : String := r.awb ++ "-" ++ r.br

/-- The end-of-file sentinel `"\x1a"`. -/
def eofSentinel : String := String.singleton (Char.ofNat 26)

/-- The `for { record, err = r.Read() ... }` loop over the records read before
`io.EOF`; `acc` is the slices built so far. -/
def scanLoop : FeedRow → List FeedRow → List (List String) → Option (List FeedRow)
  | prev, acc, [] => some (acc ++ [prev])
  | prev, acc, record :: rest =>
    match record[0]? with
    | none => none
    | some c0 =>
      if c0 = eofSentinel then scanLoop prev acc rest
      else
        match readRow record with
        | none => none
        | some cur =>
          scanLoop cur (if compositeKey prev ≠ compositeKey cur then acc ++ [prev] else acc) rest

/-- The scan of `readSTSfile` as a function of the records that follow the header
row.  With no such record `record` is `nil` and `record[2]` panics (`none`). -/
def readSTSfileScan : List (List String) → Option (List FeedRow)
  | [] => none
  | first :: rest => (readRow first).bind fun prev => scanLoop prev [] rest

/-- Specification side: the last element of every maximal run of adjacent rows with
equal composite key, in input order. -/
def lastOfRuns : List FeedRow → List FeedRow
  | [] => []
  | [a] => [a]
  | a :: b :: t =>
    if compositeKey a = compositeKey b then lastOfRuns (b :: t) else a :: lastOfRuns (b :: t)

/-- Equal keys are adjacent: a key that differs from its successor does not occur
again later in the list. -/
def keysAdjacent : List String → Bool
  | [] => true
  | a :: t =>
    (match t with
      | [] => true
      | b :: _ => a == b || !t.contains a) && keysAdjacent t

/-! ## The consumer loop of `main` (lines 147-227) and `getDurations` -/

/-- Go `type AwbStatus struct`; `UpdateTime` is held as the argument of `time.Unix`. -/
structure AwbStatus where
  Awbno : String
  UpdateTime : Int
  StatusCode : String
  SectionCode : String
  CompanyCode : String
  CompanyName : String
  LastUserName : String
  LastUserId : String
deriving DecidableEq, Repr

/-- Go `type STSResult struct`; a `nil` slice and a `nil` error are `none`. -/
structure STSResult where
  Result : Option (List AwbStatus)
  Error : Option String
deriving DecidableEq, Repr

/-- A `float64` number of minutes is held exactly, as the number of milliseconds it is
computed from: `dur / float64(muniteUnit)` is represented by the integer `dur`, and
`minutesOf` gives the number of minutes it stands for.  Zero and sums agree in both
readings; `float64` rounding is not modelled. -/
abbrev Minutes := Int

/-- The number of minutes a `Minutes` value stands for: `dur / 60000`. -/
def minutesOf (dur : Minutes) : ℚ := (dur : ℚ) / 60000

/-- Go `type Metrics struct`. -/
structure Metrics where
  SakuAccumMins : Minutes
  SakuAccumCnts : Int
  ShinAccumMins : Minutes
  ShinAccumCnts : Int
deriving DecidableEq, Repr

/-- Go `type DeadorAlive struct`; the millisecond timestamps are held as integers. -/
structure DeadorAlive where
  LastStsUpdated : Int
  LastIgsUpdated : Int
  DeadorAlive : String
deriving DecidableEq, Repr

/-- Go `sts_code < bound` on strings: lexicographic order of the code points, which for
UTF-8 text is the byte-wise order Go uses. -/
def strLt (a b : String) : Bool := decide (a.data < b.data)

/-- The first element from position `idx` on that satisfies `p`, with its index: the
shape of the three `for idx ... { if ... { isOK = true; ...; break } }` loops. -/
def scanFrom (p : Hit → Bool) : List Hit → Nat → Option (Nat × Hit)
  | [], _ => none
  | h :: t, idx => if p h then some (idx, h) else scanFrom p t (idx + 1)

/-- The body of the `for _, awb := range awbs` loop of `getDurations` as a function of
the hits returned for `awb` (its events of the current day, ascending): the value
appended to `result`, `0` or `(endtime - starttime) / float64(muniteUnit)`. -/
def duration (hits : List Hit) (gte lt : String) : Minutes :=
  match scanFrom (fun h => strLt h.sts_code gte) hits 0 with
  | none => 0
  | some (idx, _) =>
    let contidx := idx + 1
    match scanFrom (fun h => !strLt h.sts_code gte) (hits.drop contidx) contidx with
    | none => 0
    | some (startidx, start) =>
      let contidx := startidx + 1
      match scanFrom (fun h => !strLt h.sts_code lt) (hits.drop contidx) contidx with
      | none => 0
      | some (_, end_) =>
        end_.update_time - start.update_time

/-- `getDurations(awbs, gte, lt)`; `hitsOf awb` is the search response for `awb`. -/
def getDurations (hitsOf : String → List Hit) (awbs : List String) (gte lt : String) :
    List Minutes :=
  awbs.map fun awb => duration (hitsOf awb) gte lt

/-- The variables of the cache rebuild loop. -/
structure CacheLoop where
  STS : String → Option AwbStatus
  prevawb : String
  prevstatus : AwbStatus

/-- Body of `for _, status := range ressts.Result` at lines 159-165. -/
def cacheStep (s : CacheLoop) (status : AwbStatus) : CacheLoop :=
  { STS := if s.prevawb ≠ status.Awbno then Function.update s.STS s.prevawb (some s.prevstatus)
           else s.STS
    prevawb := status.Awbno
    prevstatus := status }

/-- Lines 152-167 for a non-nil `Result`: every key is deleted, then the map is refilled. -/
def rebuildCache (Result : List AwbStatus) : String → Option AwbStatus :=
  match Result with
  | [] => fun _ => none
  | r0 :: _ =>
    let s := Result.foldl cacheStep { STS := fun _ => none, prevawb := r0.Awbno, prevstatus := r0 }
    Function.update s.STS s.prevawb (some s.prevstatus)

/-- The `survayAwbs` list built at lines 177-187 (bound `"70"`) and 202-212 (bound `"72"`). -/
def survey (BlackList : String → Bool) (bound : String) (Result : List AwbStatus) :
    List String :=
  (Result.filter fun status => !BlackList status.Awbno && !strLt status.StatusCode bound).map
    fun status => status.Awbno

/-- `for _, dur := range durs { if dur != 0 { cnt++; mins += dur } }`. -/
def accumulate (durs : List Minutes) (mins : Minutes) (cnts : Int) : Minutes × Int :=
  durs.foldl (fun acc dur => if dur ≠ 0 then (acc.1 + dur, acc.2 + 1) else acc) (mins, cnts)

/-- `for _, awb := range survayAwbs { BlackList[awb] = true }`. -/
def markSeen (BlackList : String → Bool) (survayAwbs : List String) : String → Bool :=
  survayAwbs.foldl (fun bl awb => Function.update bl awb true) BlackList

/-- The state owned by the consumer goroutine. -/
structure Consumer where
  STS : String → Option AwbStatus
  SakuBlackList : String → Bool
  ShinBlackList : String → Bool
  Metrics : Metrics
  DeadorAlive : DeadorAlive

/-- One iteration of the consumer loop for the received `ressts`; `now` is
`time.Now().UnixMilli()` and `hitsOf` the store's answer to the per-identifier query
of `getDurations` during this iteration.  `none` is the process exit of `log.Fatalf`. -/
def consumerStep (now : Int) (hitsOf : String → List Hit) (s : Consumer) (ressts : STSResult) :
    Option Consumer :=
  let cacheAndHealth : Option ((String → Option AwbStatus) × DeadorAlive) :=
    match ressts.Result with
    | some Result => some (rebuildCache Result, { s.DeadorAlive with LastStsUpdated := now })
    | none =>
      match ressts.Error with
      | some _ => none
      | none => some (s.STS, { s.DeadorAlive with LastIgsUpdated := now })
  cacheAndHealth.map fun ch =>
    let Result := ressts.Result.getD []
    let survayAwbs := survey s.SakuBlackList "70" Result
    let saku := accumulate (getDurations hitsOf survayAwbs "50" "70")
      s.Metrics.SakuAccumMins s.Metrics.SakuAccumCnts
    let SakuBlackList := markSeen s.SakuBlackList survayAwbs
    let survayAwbs := survey s.ShinBlackList "72" Result
    let shin := accumulate (getDurations hitsOf survayAwbs "70" "72")
      s.Metrics.ShinAccumMins s.Metrics.ShinAccumCnts
    let ShinBlackList := markSeen s.ShinBlackList survayAwbs
    { STS := ch.1
      SakuBlackList := SakuBlackList
      ShinBlackList := ShinBlackList
      Metrics := { SakuAccumMins := saku.1, SakuAccumCnts := saku.2,
                   ShinAccumMins := shin.1, ShinAccumCnts := shin.2 }
      DeadorAlive := ch.2 }

/-- The state `main` starts the consumer loop with (`now` is the start time). -/
def initConsumer (now : Int) : Consumer :=
  { STS := fun _ => none
    SakuBlackList := fun _ => false
    ShinBlackList := fun _ => false
    Metrics := { SakuAccumMins := 0, SakuAccumCnts := 0, ShinAccumMins := 0, ShinAccumCnts := 0 }
    DeadorAlive := { LastStsUpdated := now, LastIgsUpdated := now, DeadorAlive := "Fine" } }

/-- The row a record with at least 13 columns is read as (`readRow_eq_some`). -/
def rowOf (record : List String) : FeedRow :=
  { awb := TrimSpace (record.getD 2 ""), br := TrimSpace (record.getD 3 ""),
    sts := TrimSpace (record.getD 7 ""), usr := TrimSpace (record.getD 12 ""),
    userid := TrimSpace (record.getD 11 ""), com := TrimSpace (record.getD 6 ""),
    comcd := TrimSpace (record.getD 5 ""), sec := TrimSpace (record.getD 1 "") }

/-- Specification side: `runs` is the decomposition of `l` into its maximal runs of
adjacent rows with equal composite key.  The runs concatenate to `l`, none is empty,
all rows of a run have the same key, and the key changes from the end of each run to
the start of the next. -/
def maximalRuns (l : List FeedRow) (runs : List (List FeedRow)) : Prop :=
  runs.flatten = l ∧
  (∀ run ∈ runs, run ≠ [] ∧ ∀ x ∈ run, ∀ y ∈ run, compositeKey x = compositeKey y) ∧
  List.Chain' (fun r1 r2 => ∀ x ∈ r1.getLast?, ∀ y ∈ r2.head?, compositeKey x ≠ compositeKey y)
    runs

/-- A 13-column record with the given identifier, branch sequence and status code,
used for concrete inputs. -/
def feedRecord (awb br sts : String) : List String :=
  ["", "sec", awb, br, "", "comcd", "com", sts, "", "", "", "userid", "usr"]

/-- A cache record with the given identifier and status code, used for concrete inputs. -/
def cachedAt (awbno sts : String) : AwbStatus :=
  { Awbno := awbno, UpdateTime := 0, StatusCode := sts, SectionCode := "", CompanyCode := "",
    CompanyName := "", LastUserName := "", LastUserId := "" }

/-- The map the cache rebuild loop has written so far, with the pending
`prevawb`/`prevstatus` entry flushed. -/
def cacheView (s : CacheLoop) : String → Option AwbStatus :=
  Function.update s.STS s.prevawb (some s.prevstatus)

/-- An event at time `t` with status code `sts`, used for concrete inputs. -/
def eventAt (t : Int) (sts : String) : Hit :=
  { sts_code := sts, is_stocked := false, update_time := t, last_updated_user := "user",
    last_updated_user_id := "id", company_code := "cc", company_name := "cn",
    section_code := "sec", igs_status := "-1" }

/-! ## HTTP handlers: parameters and answers -/

/-- What a handler does with a request: `c.JSON(http.StatusOK, body)`,
`c.JSON(http.StatusBadRequest, ...)`, or a run-time panic (an index or slice bound out
of range) before any answer is written. -/
inductive HttpAnswer (α : Type) where
  | ok (body : α)
  | badRequest
  | panicked
deriving DecidableEq, Repr

/-- The value of a string of decimal digits, `none` when a character is not a digit. -/
def parseDigits : List Char → Nat → Option Nat
  | [], acc => some acc
  | c :: cs, acc =>
    if 48 ≤ c.toNat ∧ c.toNat ≤ 57 then parseDigits cs (acc * 10 + (c.toNat - 48)) else none

/-- Go `strconv.Atoi` / `strconv.ParseInt(s, 10, 64)`: an optional sign and at least
one decimal digit, within the `int64` range; `none` is a non-nil error. -/
def Atoi (s : String) : Option Int :=
  let body (cs : List Char) (neg : Bool) : Option Int :=
    if cs = [] then none
    else (parseDigits cs 0).bind fun n =>
      let v : Int := if neg then -(n : Int) else (n : Int)
      if -9223372036854775808 ≤ v ∧ v ≤ 9223372036854775807 then some v else none
  match s.data with
  | [] => none
  | c :: cs =>
    if c.toNat = 45 then body cs true
    else if c.toNat = 43 then body cs false
    else body (c :: cs) false

/-- Go `s[lo:hi]` on a slice: the elements `lo, ..., hi-1`, or a panic (`none`) when the
bounds are not `0 <= lo <= hi <= len`.  (Go allows `hi` up to the capacity; where the
handlers slice, `hi` has been clamped to the length before.) -/
def goSlice {α : Type} (l : List α) (lo hi : Int) : Option (List α) :=
  if 0 ≤ lo ∧ lo ≤ hi ∧ hi ≤ (l.length : Int) then some ((l.drop lo.toNat).take (hi - lo).toNat)
  else none

/-! ## `deadoraliveApi` (lines 326-339) -/

/-- `deadoraliveApi`: the body of the 200 answer.  `now1`, `now2`, `now3` are the
values of the successive `time.Now().UnixMilli()` reads. -/
def deadoraliveApi (now1 now2 now3 : Int) (dead : DeadorAlive) : DeadorAlive :=
  let duration := now1 - dead.LastIgsUpdated
  let duration := if now2 - dead.LastStsUpdated > duration then now3 - dead.LastStsUpdated
    else duration
  { LastStsUpdated := dead.LastStsUpdated
    LastIgsUpdated := dead.LastIgsUpdated
    DeadorAlive := if duration > 10 * 60 * 1000 then "Dead" else "Fine" }

/-! ## `timeLineApi` (lines 564-608) -/

/-- Go `type Timeline struct`; `Time` is held as Unix seconds. -/
structure Timeline where
  Time : Int
  Index : Int
deriving DecidableEq, Repr

/-- The loop `for ttlSecs > 0 { ... }` of `timeLineApi`, run for `n` iterations;
`c_time += timeSpanUnit` wraps around. -/
def timeLineLoop (timeSpanUnit : Int) : Nat → Int → Int → List Timeline → List Timeline
  | 0, _, _, result => result
  | n + 1, c_time, idx, result =>
    timeLineLoop timeSpanUnit n (wrapInt64 (c_time + timeSpanUnit)) (idx + 1)
      (result ++ [{ Time := Int.tdiv c_time 1000, Index := idx }])

/-- `timeLineApi` as a function of the query parameters `from`, `to`, `timespan` and
`islatest`.  The `span` parsed from `timespan` is declared inside the `if` statement
that validates it; the `span` that `timeSpanUnit` is computed from is the outer
variable, which stays `10`.  The sums and differences of `int64` values wrap around
(`to_i64 + hourUnit - 1` is evaluated left to right); a quotient times its divisor
(`x / d * d`) is never larger in size than `x`, and the counts computed from `interval`
are far smaller than `interval`, so these are exact. -/
def timeLineApi (from_ to_ span_str islatest : String) : HttpAnswer (List Timeline) :=
  let span : Int := 10
  match Atoi span_str with
  | none => .badRequest
  | some span' =>
    if span' < 1 then .badRequest
    else
      let timeSpanUnit : Int := wrapInt64 (wrapInt64 (span * 60) * 1000)
      match Atoi from_ with
      | none => .badRequest
      | some from_i64 =>
        match Atoi to_ with
        | none => .badRequest
        | some to_i64 =>
          let isLatest : Bool := islatest == "true"
          let startTime :=
            if isLatest then Int.tdiv from_i64 timeSpanUnit * timeSpanUnit
            else Int.tdiv from_i64 hourUnit * hourUnit
          let endtime :=
            if isLatest then
              Int.tdiv (wrapInt64 (wrapInt64 (to_i64 + timeSpanUnit) - 1)) timeSpanUnit *
                timeSpanUnit
            else Int.tdiv (wrapInt64 (wrapInt64 (to_i64 + hourUnit) - 1)) hourUnit * hourUnit
          let interval := wrapInt64 (endtime - startTime)
          let quarters := Int.tdiv (hourUnit - 1) timeSpanUnit + 1
          let hours := Int.tdiv interval hourUnit
          let resi := interval - hours * hourUnit
          let ttlSecs := quarters * hours + Int.tdiv (resi + timeSpanUnit - 1) timeSpanUnit
          .ok (timeLineLoop timeSpanUnit ttlSecs.toNat startTime 0 [])

/-! ## `awbApi`: filters and pagination (lines 469-561) -/

/-- Go `type AWBResponce struct`. -/
structure AWBResponce where
  TtlAwbs : Int
  Awbno : List String
deriving DecidableEq, Repr

/-- The condition under which lines 469-491 keep the record `v`: the `user` and `sts`
parameters that are not empty must equal the record's user name and status code. -/
def keptByFilter (user sts : String) (v : AwbStatus) : Bool :=
  if user ≠ "" ∧ sts = "" then v.LastUserName == user
  else if user = "" ∧ sts ≠ "" then v.StatusCode == sts
  else if user ≠ "" ∧ sts ≠ "" then v.StatusCode == sts && v.LastUserName == user
  else true

/-- The `blacklist` map built at lines 504-526 from the latest statuses. -/
def updateBlacklist (user sts : String) (laststss : List Status) : String → Bool :=
  laststss.foldl (fun (bl : String → Bool) (awb : Status) =>
    Function.update bl awb.Awbno
      (if user ≠ "" ∧ sts = "" then awb.LastUserName == user
       else if user = "" ∧ sts ≠ "" then awb.StatusCode == sts
       else if user ≠ "" ∧ sts ≠ "" then awb.StatusCode == sts && awb.LastUserName == user
       else true)) (fun _ => false)

/-- The records left after lines 469-535: the `user`/`sts` filter, then, when
`isupdate=true`, the removal of the identifiers black-listed by `laststss`, the answer
of `getLatestAwbs` (`[]` when `lastupdated` is not a number). -/
def filteredValues (values : List AwbStatus) (user sts isupdate : String)
    (laststss : List Status) : List AwbStatus :=
  let values := values.filter (keptByFilter user sts)
  if isupdate = "true" then
    values.filter fun v => !updateBlacklist user sts laststss v.Awbno
  else values

/-- Lines 537-561: the identifiers and their count, then the page cut.  The products
`page * par` and `(page + 1) * par` are taken in `int`, 64 bits wide, and wrap
around. -/
def paginate (Awbno : List String) (page par : String) : HttpAnswer AWBResponce :=
  let result : AWBResponce := { TtlAwbs := Awbno.length, Awbno := Awbno }
  if page ≠ "" ∧ par ≠ "" then
    match Atoi page with
    | none => .ok result
    | some page =>
      match Atoi par with
      | none => .ok result
      | some par =>
        let from_ := wrapInt64 (page * par)
        let to_ := wrapInt64 (wrapInt64 (page + 1) * par)
        if from_ > (Awbno.length : Int) - 1 then .badRequest
        else
          let to_ := if to_ > (Awbno.length : Int) then (Awbno.length : Int) else to_
          match goSlice Awbno from_ to_ with
          | none => .panicked
          | some page_ => .ok { result with Awbno := page_ }
  else .ok result

/-- `awbApi` from line 469 on, as a function of `values`, the cached records in the
order the sorting stage (lines 399-467) leaves them, and of the query parameters. -/
def awbApi (values : List AwbStatus) (user sts isupdate : String) (laststss : List Status)
    (page par : String) : HttpAnswer AWBResponce :=
  paginate ((filteredValues values user sts isupdate laststss).map fun v => v.Awbno) page par

/-! ## `readIgsFile`: the cross-reference store (lines 1432-1477) -/

/-- The loop over the files of one kind: every file is split at `"\r\n"` (each file is
given as its list of pieces), empty pieces are skipped and the others are trimmed. -/
def gatherLines (files : List (List String)) : List String :=
  files.foldl (fun acc lines => acc ++ (lines.filter (fun line => line ≠ "")).map TrimSpace) []

/-- The loop `for i, igsSts := range igsStss` from index `i` on. -/
def pairLoop (awbnos : List String) :
    Nat → List String → (String → Option String) → (String → Option String)
  | _, [], igsMap => igsMap
  | i, igsSts :: rest, igsMap =>
    if (i : Int) > (awbnos.length : Int) - 1 then pairLoop awbnos (i + 1) rest igsMap
    else
      match awbnos[i]? with
      | some awbno => pairLoop awbnos (i + 1) rest (Function.update igsMap awbno (some igsSts))
      | none => igsMap

/-- The cross-reference map after `readIgsFile`, for the identifier files and the
outcome files found (each given as its `"\r\n"` pieces).  A key the Go map does not
hold is `none`. -/
def readIgsFile (igsMap : String → Option String) (blnofiles igsfiles : List (List String)) :
    String → Option String :=
  if blnofiles.length < 1 then igsMap
  else if igsfiles.length < 1 then igsMap
  else pairLoop (gatherLines blnofiles) 0 (gatherLines igsfiles) igsMap

/-! ## `readSTSfile`: the documents and cache records of a cycle (lines 1270-1352) -/

/-- One document of the bulk body: the `_index` of its `create` action and the values
interpolated into its JSON text. -/
structure StoreDoc where
  _index : String
  awb_no : String
  update_time : Int
  sts_code : String
  last_updated_user : String
  last_updated_user_id : String
  company_name : String
  company_code : String
  section_code : String
  is_stocked : String
  igs_status : String
deriving DecidableEq, Repr

/-- Go `igsMap[key]`: the held value, or `""` for a key the map does not hold. -/
def mapLookup (igsMap : String → Option String) (key : String) : String :=
  (igsMap key).getD ""

/-- The document built for one merged record at lines 1273-1291. -/
def storeDoc (es_sts_idx : String) (igsMap : String → Option String) (update_time : Int)
    (r : FeedRow) : StoreDoc :=
  let awb := r.awb
  let oriawb := awb
  let awb := if r.br ≠ "0" then awb ++ ("-" ++ r.br) else awb
  let igs_status := mapLookup igsMap oriawb
  let igs_status := if mapLookup igsMap oriawb = "" then "-1" else igs_status
  { _index := es_sts_idx
    awb_no := awb
    update_time := update_time
    sts_code := r.sts
    last_updated_user := r.usr
    last_updated_user_id := r.userid
    company_name := r.com
    company_code := r.comcd
    section_code := r.sec
    is_stocked := "false"
    igs_status := igs_status }

/-- The cache record built for one merged record at lines 1337-1352. -/
def awbStatusOf (update_time : Int) (r : FeedRow) : AwbStatus :=
  { Awbno := if r.br ≠ "0" then r.awb ++ ("-" ++ r.br) else r.awb
    UpdateTime := update_time
    StatusCode := r.sts
    SectionCode := r.sec
    CompanyCode := r.com
    CompanyName := r.comcd
    LastUserName := r.usr
    LastUserId := r.userid }

/-! ## The index name (lines 690 and 1290) -/

/-- The civil date `(year, month, day)` of a day count since 1970-01-01 (proleptic
Gregorian calendar), as Go `time` computes it. -/
def civilFromDays (z : Int) : Int × Int × Int :=
  let z := z + 719468
  let era := z / 146097
  let doe := z - era * 146097
  let yoe := (doe - doe / 1460 + doe / 36524 - doe / 146096) / 365
  let y := yoe + era * 400
  let doy := doe - (365 * yoe + yoe / 4 - yoe / 100)
  let mp := (5 * doy + 2) / 153
  let d := doy - (153 * mp + 2) / 5 + 1
  let m := if mp < 10 then mp + 3 else mp - 9
  (if m ≤ 2 then y + 1 else y, m, d)

/-- The last `width` decimal digits of `n`, zero-padded. -/
def padDigits : Nat → Nat → List Char
  | 0, _ => []
  | width + 1, n => padDigits width (n / 10) ++ [Char.ofNat (48 + n % 10)]

/-- Go `t.Format("20060102")` for the time `ms` (Unix milliseconds) in a zone
`zoneOffset` milliseconds east of UTC, for years 0 to 9999. -/
def formatDay (zoneOffset ms : Int) : String :=
  let ymd := civilFromDays ((ms + zoneOffset) / 86400000)
  String.mk (padDigits 4 ymd.1.toNat ++ padDigits 2 ymd.2.1.toNat ++ padDigits 2 ymd.2.2.toNat)

/-- The global `es_sts_idx` as `Init` assigns it at line 690, at process start. -/
def initIndexName (zoneOffset startNow : Int) : String :=
  "sts_index_" ++ formatDay zoneOffset startNow

/-- The documents one ingestion cycle hands to the bulk requests, for the merged
records `rows` and the cycle's ingestion timestamp `update_time`; `es_sts_idx` is the
global set by `Init`, the only assignment to it. -/
def cycleDocs (es_sts_idx : String) (igsMap : String → Option String) (update_time : Int)
    (rows : List FeedRow) : List StoreDoc :=
  rows.map (storeDoc es_sts_idx igsMap update_time)

/-! ## `Init`: pruning of old indices (lines 652-688) -/

/-- The name built at line 657,
`"sts_index_" + time.Now().AddDate(0, 0, minus*-1).Format("20060102")` (as a string). -/
def prunedName (zoneOffset now minus : Int) : String :=
  "sts_index_" ++ formatDay zoneOffset (now - minus * 86400000)

/-- What the pruning loop has done: the indices a delete request was sent for, in
order, and whether `Init` returned the error of a request. -/
structure Pruned where
  deleted : List String
  failed : Bool
deriving DecidableEq, Repr

/-- The loop `for minus := 1; minus < deleteFrom+1; minus++` from `minus` on, with `n`
iterations left.  `now minus` is the clock read in the iteration, `existsStatus name`
the status code answered to the `IndicesExistsRequest` (`none` for a transport error)
and `deleteFails name` whether the `IndicesDeleteRequest` returns an error. -/
def pruneLoop (zoneOffset : Int) (now : Int → Int) (existsStatus : String → Option Int)
    (deleteFails : String → Bool) : Nat → Int → List String → Pruned
  | 0, _, deleted => { deleted := deleted, failed := false }
  | n + 1, minus, deleted =>
    let name := prunedName zoneOffset (now minus) minus
    match existsStatus name with
    | none => { deleted := deleted, failed := true }
    | some code =>
      if code = 200 then
        if deleteFails name then { deleted := deleted ++ [name], failed := true }
        else pruneLoop zoneOffset now existsStatus deleteFails n (minus + 1) (deleted ++ [name])
      else pruneLoop zoneOffset now existsStatus deleteFails n (minus + 1) deleted

/-- `Init` up to line 688 and its call of `GetSettings` at line 727.  `deleteIndiciesfrom`
is the package variable of that name as `Init` finds it; `setting` is the value the
settings file gives for `DeleteIndiciesfrom`, which `GetSettings` stores into the
variable (line 1120), the only assignment to it.  The result is the pruning done and the
variable once `Init` has reached line 727. -/
def Init (deleteIndiciesfrom setting : String) (zoneOffset : Int) (now : Int → Int)
    (existsStatus : String → Option Int) (deleteFails : String → Bool) : Pruned × String :=
  let deleteFrom : Int :=
    match Atoi deleteIndiciesfrom with
    | some n => n
    | none => 3
  (pruneLoop zoneOffset now existsStatus deleteFails deleteFrom.toNat 1 [], setting)

/-- Process start: `main` calls `Init` first (line 124), when the package variable
`deleteIndiciesfrom` still holds the zero value `""`. -/
def startInit (setting : String) (zoneOffset : Int) (now : Int → Int)
    (existsStatus : String → Option Int) (deleteFails : String → Bool) : Pruned × String :=
  Init "" setting zoneOffset now existsStatus deleteFails

/-! ## Lock acquisition (lines 1201-1217, 1356-1372, 1402-1418) -/

/-- What the acquisition does, in order: a call of `os.Link` with its outcome, the
one-second sleep, and the forced `os.Remove` of the lock path. -/
inductive LockEvent where
  | link (ok : Bool)
  | sleep
  | remove
deriving DecidableEq, Repr

/-- The `for { err := os.Link(...) ... }` loop with counter `cntr`, run over the
outcomes of the successive `os.Link` calls (`true` is a `nil` error).  The trace ends
where the loop breaks, or where the given outcomes end. -/
def lockLoop : Int → List Bool → List LockEvent
  | _, [] => []
  | cntr, ok :: rest =>
    if ok then [.link true]
    else
      let cntr := cntr + 1
      if cntr > 30 then .link false :: .sleep :: .remove :: lockLoop cntr rest
      else .link false :: .sleep :: lockLoop cntr rest

/-- The whole acquisition: the first `os.Link` in the `if` statement, then the loop
when that call failed. -/
def acquireLock : List Bool → List LockEvent
  | [] => []
  | ok :: rest => if ok then [.link true] else .link false :: lockLoop 0 rest

/-! ## `readSTSfile`: the bulk requests of a cycle (lines 1272-1335) -/

/-- `maxUpdateSTS := 10`. -/
def maxUpdateSTS : Nat := 10

/-- The answer to one bulk request, `res, err := breq.Do(...)`: a transport error, or
a response with its HTTP status code. -/
inductive BulkAnswer where
  | failed (err : String)
  | status (code : Int)
deriving DecidableEq, Repr

/-- Where the batching stands after a request: it goes on (`done`); the error of the
request has been sent on the result channel as `STSResult{Result: nil, Error: err}`; or
`log.Fatalf` has ended the process after a 400 answer.  A run is followed up to the
first error outcome it sends: the consumer loop is its receiver (see `consumerStep`). -/
inductive BulkEnd where
  | done
  | errorSent (ressts : STSResult)
  | fatal
deriving DecidableEq, Repr

/-- The body of the `func() { res, err := breq.Do(...) ... }()` blocks at lines
1298-1311 and 1321-1334, for the answer the request gets. -/
def sendBulk (answer : BulkAnswer) : BulkEnd :=
  match answer with
  | .failed err => .errorSent { Result := none, Error := some err }
  | .status code => if code = 400 then .fatal else .done

/-- The loop `for i := 0; i < len(awbs); i++` from index `i` on and the `if bbody_str
!= ""` block after it.  `bbody` holds the documents whose text `bbody_str` holds (every
document adds two non-empty lines, so `bbody_str != ""` is `bbody ≠ []`), `issued` the
bodies of the requests made so far, and `answer k` is the answer to request number `k`. -/
def bulkLoop (answer : Nat → BulkAnswer) :
    Nat → List StoreDoc → List StoreDoc → List (List StoreDoc) → List (List StoreDoc) × BulkEnd
  | _, bbody, [], issued =>
    if bbody ≠ [] then (issued ++ [bbody], sendBulk (answer issued.length))
    else (issued, .done)
  | i, bbody, doc :: rest, issued =>
    let bbody := bbody ++ [doc]
    if i % maxUpdateSTS = maxUpdateSTS - 1 then
      match sendBulk (answer issued.length) with
      | .done => bulkLoop answer (i + 1) [] rest (issued ++ [bbody])
      | e => (issued ++ [bbody], e)
    else bulkLoop answer (i + 1) bbody rest issued

/-- The bulk requests of one cycle for the documents `docs`, and how the batching ends. -/
def bulkRequests (answer : Nat → BulkAnswer) (docs : List StoreDoc) :
    List (List StoreDoc) × BulkEnd :=
  bulkLoop answer 0 [] docs []

/-! ## `readSTSfile`: one status-feed cycle with its lock held (lines 1218-1354) -/

/-- How the cycle body ends: it reaches line 1354 and goes on to the worklist part, it
panics, or the process exits (`log.Fatalf`, here or in the consumer loop that receives
an error outcome). -/
inductive CycleEnd where
  | returned
  | panicked
  | exited
deriving DecidableEq, Repr

/-- What one cycle body did: the outcomes sent on the result channel, the bulk requests
made, and whether `os.Remove(stslockfile)` was executed. -/
structure CycleRun where
  sent : List STSResult
  requests : List (List StoreDoc)
  lockRemoved : Bool
  ending : CycleEnd
deriving DecidableEq, Repr

/-- Lines 1218-1354 of `readSTSfile`, entered with the lock acquired.  `feed` is the
error of `os.Open(stsFilePath)`, or the records the reader yields after the header row.
When the open fails the error outcome is sent at line 1220 and there is no `return`:
the function goes on with the `nil` file (whose reads yield no record, so that
`record[2]` at line 1225 is out of range), while the consumer that received the
outcome ends the process.  The result sent at line 1353 carries the function's `err`
variable, which the scan loop left at `io.EOF`. -/
def readSTSfileBody (es_sts_idx : String) (igsMap : String → Option String) (update_time : Int)
    (answer : Nat → BulkAnswer) (feed : Except String (List (List String))) : CycleRun :=
  match feed with
  | .error err =>
    { sent := [{ Result := none, Error := some err }], requests := [], lockRemoved := false,
      ending := .exited }
  | .ok records =>
    match readSTSfileScan records with
    | none => { sent := [], requests := [], lockRemoved := false, ending := .panicked }
    | some rows =>
      match bulkRequests answer (cycleDocs es_sts_idx igsMap update_time rows) with
      | (requests, .done) =>
        { sent := [{ Result := some (rows.map (awbStatusOf update_time)), Error := some "EOF" }],
          requests := requests, lockRemoved := true, ending := .returned }
      | (requests, .errorSent ressts) =>
        { sent := [ressts], requests := requests, lockRemoved := false, ending := .exited }
      | (requests, .fatal) =>
        { sent := [], requests := requests, lockRemoved := false, ending := .exited }

/-- The instant, in Unix milliseconds, of the `time.Time` an `AwbStatus` holds:
`UpdateTime` is the `sec` of `time.Unix(sec, 0)`. -/
def instantMillis (s : AwbStatus) : Int := s.UpdateTime * 1000

/-- The consumer loop over the outcomes it receives one after the other, each with the
clock and the store answers of its iteration; `none` once `log.Fatalf` has ended the
process. -/
def consumerRun : Consumer → List (Int × (String → List Hit) × STSResult) → Option Consumer
  | s, [] => some s
  | s, step :: rest =>
    (consumerStep step.1 step.2.1 s step.2.2).bind fun s' => consumerRun s' rest

/-- A document with the given identifier, used for concrete inputs. -/
def docOf (awb : String) : StoreDoc :=
  storeDoc "sts_index_20241104" (fun _ => none) 1730678400000 (rowOf (feedRecord awb "0" "75"))

/-! ## `stslistApi` (lines 365-377) -/

/-- The keys of `stsTable` after `for _, value := range *awbs { stsTable[value.StatusCode]
= true }`, each once, for the cached records `values` in the order the loop visits
them. -/
def stsTable (values : List AwbStatus) : List String :=
  values.foldl (fun tbl value => if value.StatusCode ∈ tbl then tbl else tbl ++ [value.StatusCode])
    []

/-- `sort.SliceStable(s, func(i, j int) bool { return s[i] < s[j] })`: the stable sort
into ascending order, computed by insertion. -/
def sortStable (s : List String) : List String :=
  s.insertionSort fun a b => a.data ≤ b.data

/-- `stslistApi`: the `StatusCode` list of the answer.  `values` is the cached records
in the order `range *awbs` visits them and `rangeOrder` the order in which `range
stsTable` visits the keys of the table (Go leaves both orders unspecified). -/
def stslistApi (values : List AwbStatus) (rangeOrder : List String → List String) :
    List String :=
  sortStable (rangeOrder (stsTable values))

/-! ## The worklist part and the cross-reference cycle with their locks held -/

/-- Lines 1373-1396 of `readSTSfile`, entered with the worklist lock acquired.  `opened`
is the error of `excelize.OpenFile(sts75FilePath)`, or `()` when the file opens.  The
error outcome is sent at line 1382 with no `return` after it; the run is followed up to
that send, whose receiver ends the process. -/
def worklistBody (opened : Except String Unit) : CycleRun :=
  match opened with
  | .error err =>
    { sent := [{ Result := none, Error := some err }], requests := [], lockRemoved := false,
      ending := .exited }
  | .ok _ => { sent := [], requests := [], lockRemoved := true, ending := .returned }

/-- The `ioutil.ReadFile` calls of one loop over the files found: the pieces of every
file, or the error of the first read that fails. -/
def readAll : List (Except String (List String)) → Except String (List (List String))
  | [] => .ok []
  | .error err :: _ => .error err
  | .ok pieces :: rest =>
    match readAll rest with
    | .error err => .error err
    | .ok files => .ok (pieces :: files)

/-- Lines 1419-1484 of `readIgsFile`, entered with the lock acquired.  `blno` and `igs`
are what `findMatchedFiles` returns for the identifier files and the outcome files: its
error, or the files found, each with the error of its `ioutil.ReadFile` or its `"\r\n"`
pieces.  The run is followed up to the first error outcome it sends (lines 1425, 1436,
1449, 1461, none followed by a `return`), whose receiver ends the process.  The result
is the run and the cross-reference map after it. -/
def readIgsFileBody (igsMap : String → Option String)
    (blno igs : Except String (List (Except String (List String)))) :
    CycleRun × (String → Option String) :=
  let tick : STSResult := { Result := none, Error := none }
  let failed (err : String) : CycleRun × (String → Option String) :=
    ({ sent := [tick, { Result := none, Error := some err }], requests := [],
       lockRemoved := false, ending := .exited }, igsMap)
  let returned (m : String → Option String) : CycleRun × (String → Option String) :=
    ({ sent := [tick], requests := [], lockRemoved := true, ending := .returned }, m)
  match blno with
  | .error err => failed err
  | .ok blnofiles =>
    if blnofiles.length < 1 then returned igsMap
    else
      match readAll blnofiles with
      | .error err => failed err
      | .ok blnoPieces =>
        match igs with
        | .error err => failed err
        | .ok igsfiles =>
          if igsfiles.length < 1 then returned igsMap
          else
            match readAll igsfiles with
            | .error err => failed err
            | .ok igsPieces => returned (readIgsFile igsMap blnoPieces igsPieces)

/-! ## `getLatestAwbs` (lines 772-812) -/

/-- The loop `for idx, a := range aggs` from index `idx` on.  Each element of `aggs` is
one terms bucket of the aggregation: its `key` and the `_source` objects of its
`latest` top hits.  A bucket without a hit is skipped; its index is not reused. -/
def latestLoop (timespan : Int) : Int → List (String × List Hit) → List Status
  | _, [] => []
  | idx, (_, []) :: rest => latestLoop timespan (idx + 1) rest
  | idx, (awb, source :: _) :: rest =>
    let basetime := Int.tdiv source.update_time hourUnit * hourUnit
    let q := Int.tdiv (source.update_time - basetime) (timeSpanUnit timespan)
    { Index := idx
      Awbno := awb
      StatusCode := source.sts_code
      BaseTime := Int.tdiv basetime 1000
      Q := q
      TimespanInMinutes := timespan
      SectionCode := source.section_code
      CompanyCode := source.company_code
      CompanyName := source.company_name
      LastUserName := source.last_updated_user
      LastUserId := source.last_updated_user_id
      IsStocked := source.is_stocked
      IgsStatus := source.igs_status } :: latestLoop timespan (idx + 1) rest

/-- `getLatestAwbs(from, to, timespan)` as a function of the terms buckets the store
answers the aggregation query with. -/
def getLatestAwbs (timespan : Int) (aggs : List (String × List Hit)) : List Status :=
  latestLoop timespan 0 aggs

/-- The list `l`, built up to the cursor `(basetime, q)`, starts at the bucket with
`BaseTime = B` and `Q = Q0`: its first bucket has this coordinate, and while it is
empty the cursor stands there. -/
def startsAt (B Q0 : Int) (l : List Status) (basetime q : Int) : Prop :=
  (l = [] → Int.tdiv basetime 1000 = B ∧ q = Q0) ∧ ∀ x ∈ l.head?, x.BaseTime = B ∧ x.Q = Q0

/-! ## The shared cache map during a rebuild (lines 152-167) and its readers -/

/-- The loop `for k := range STS { delete(STS, k) }` for the keys in the order the loop
visits them: the value of the map after each `delete`. -/
def deleteStates (STS : String → Option AwbStatus) :
    List String → List (String → Option AwbStatus)
  | [] => []
  | k :: ks => Function.update STS k none :: deleteStates (Function.update STS k none) ks

/-- The map the deletion loop leaves. -/
def deleteAll (STS : String → Option AwbStatus) (keys : List String) :
    String → Option AwbStatus :=
  keys.foldl (fun m k => Function.update m k none) STS

/-- Lines 159-166 from the loop state `s` on: the value of the map after each
assignment `STS[prevawb] = prevstatus`, the last one being that of line 166. -/
def refillStates : CacheLoop → List AwbStatus → List (String → Option AwbStatus)
  | s, [] => [Function.update s.STS s.prevawb (some s.prevstatus)]
  | s, status :: rest =>
    if s.prevawb ≠ status.Awbno then
      (cacheStep s status).STS :: refillStates (cacheStep s status) rest
    else refillStates (cacheStep s status) rest

/-- The values the map `STS` takes, one after the other, while the consumer loop
executes lines 152-167 for a non-nil `Result`: the map it starts from, the map after
each `delete` and the map after each assignment.  `keys` is the keys of the map in the
order `range` visits them.  The map is the one object the handlers read: `main` passes
`&STS` to `apiFactory` (lines 140-142), the handlers range over `*awbs`, and neither
side takes a lock; a handler that runs between two writes of the rebuild finds the map
in the state reached by then. -/
def rebuildStates (STS : String → Option AwbStatus) (keys : List String)
    (Result : List AwbStatus) : List (String → Option AwbStatus) :=
  STS :: (deleteStates STS keys ++
    match Result with
    | [] => []
    | r0 :: _ =>
      refillStates { STS := deleteAll STS keys, prevawb := r0.Awbno, prevstatus := r0 } Result)

/-- The records `for _, value := range *awbs` visits when the map is in the state `m`
and its keys are visited in the order they have in `keys`. -/
def valuesOf (m : String → Option AwbStatus) (keys : List String) : List AwbStatus :=
  keys.filterMap m

/-! # Theorems -/

/-! ## Timeline reconstruction -/

theorem hourQuarters_ten : hourQuarters 10 = 6 := by decide

/-- C1, evaluated in latest mode.  For `from = 1200000` (20 minutes past the hour),
`to = 3600000` and one event at `3000000` (bucket `(0, 5)`), the indices are
`0, 1, 2, 3`, but the three leading fillers carry the span-aligned time `1200` s as
`BaseTime` with `Q = 2, 3, 4`, and the real bucket that follows has `BaseTime = 0`,
`Q = 5`: it is not the successor of the filler before it. -/
theorem getAwbStatuses_latest_not_contiguous :
    ∃ l, getAwbStatuses 1200000 3600000 "X" 10 true false [eventAt 3000000 "60"] = some l ∧
      l = [naStatus 0 "X" 1200000 2 10, naStatus 1 "X" 1200000 3 10,
           naStatus 2 "X" 1200000 4 10, realStatus 3 "X" 0 5 10 (eventAt 3000000 "60")] ∧
      indexedFromZero l ∧ ¬ contiguous (hourQuarters 10) l :=
  ⟨_, rfl, by decide, by decide, by decide⟩

/-- C2, evaluated in default mode.  For events at `0` (status `"50"`, bucket `(0, 0)`)
and `1800000` (status `"70"`, bucket `(0, 3)`) the fillers of the gap are emitted at
`Q = 0` and `Q = 1`, and the real bucket holding `"50"` is emitted at `Q = 2`, the
bucket just before the later event, not at the earlier event's own bucket `Q = 0`. -/
theorem getAwbStatuses_gap_displaces_earlier_status :
    getAwbStatuses 0 3600000 "X" 10 false false [eventAt 0 "50", eventAt 1800000 "70"] =
      some [naStatus 0 "X" 0 0 10, naStatus 1 "X" 0 1 10,
            realStatus 2 "X" 0 2 10 (eventAt 0 "50"),
            realStatus 3 "X" 0 3 10 (eventAt 1800000 "70"),
            naStatus 4 "X" 0 4 10, naStatus 5 "X" 0 5 10] := by
  decide

/-- C3, evaluated in latest mode.  For `from = 1200000` (span-aligned, 20 minutes past
the hour) and a first event at `4200000` (bucket `(3600000, 1)`) there are five
span-wide buckets from the start boundary up to the first event's bucket, and the
result starts with the real bucket: no leading filler is emitted. -/
theorem getAwbStatuses_latest_leading_fillers_missing :
    ∃ l, getAwbStatuses 1200000 7200000 "X" 10 true false [eventAt 4200000 "60"] = some l ∧
      l.head? = some (realStatus 0 "X" 3600000 1 10 (eventAt 4200000 "60")) ∧
      leadingNA l = 0 ∧
      ((Int.tdiv 4200000 (timeSpanUnit 10) - Int.tdiv 1200000 (timeSpanUnit 10)).toNat = 5) :=
  ⟨_, rfl, by decide, by decide, by decide⟩

/-- C4, evaluated in latest mode.  For `to = 2700000` (45 minutes past the hour) and a
single event at `300000` (bucket `(0, 0)`) the buckets `Q = 1, ..., 4` lie between the
last event's bucket and `to` rounded up to the span (`3000000`), and the result is the
real bucket alone: no trailing filler is emitted. -/
theorem getAwbStatuses_latest_trailing_fillers_missing :
    getAwbStatuses 0 2700000 "X" 10 true false [eventAt 300000 "60"] =
        some [realStatus 0 "X" 0 0 10 (eventAt 300000 "60")] ∧
      Int.tdiv (2700000 + timeSpanUnit 10 - 1) (timeSpanUnit 10) * timeSpanUnit 10 = 3000000 := by
  decide

/-- C5 as stated fails: for `H = 0` the result does not have three buckets. -/
theorem getAwbStatuses_single_event_not_three_buckets :
    ¬ ∃ l, getAwbStatuses 0 (0 + 2 * timeSpanUnit 10) "X" 10 false false [eventAt 0 "60"] = some l ∧
      l.length = 3 := by
  decide

/-- C5, amended.  For every hour-aligned `H ≥ 0`, `from = H`, `to = H + 2 * span` with
the span of 10 minutes, default mode and a single event at time `H`, the result is
exactly six buckets: the real bucket with the event's fields at index 0, `Q = 0`,
followed by `NA` buckets at indices 1 to 5 with `Q = 1, ..., 5`, all in the hour `H`
(default mode pads to the end of the hour). -/
theorem getAwbStatuses_single_event_at_from (H : Int) (hH : 0 ≤ H) (hal : H % 3600000 = 0)
    (awbno : String) (h : Hit) (ht : h.update_time = H) :
    getAwbStatuses H (H + 2 * timeSpanUnit 10) awbno 10 false false [h] =
      some [realStatus 0 awbno H 0 10 h,
            naStatus 1 awbno H 1 10, naStatus 2 awbno H 2 10,
            naStatus 3 awbno H 3 10, naStatus 4 awbno H 4 10,
            naStatus 5 awbno H 5 10] := by
  have h1 : Int.tdiv H 3600000 * 3600000 = H := by
    rw [Int.tdiv_eq_ediv hH (by decide)]; omega
  have h2 : Int.tdiv (H + 2 * 600000 + 3600000 - 1) 3600000 * 3600000
      = H + 3600000 := by
    rw [Int.tdiv_eq_ediv (by omega) (by decide)]; omega
  have h3 : Int.tdiv (H + 3600000 - H) 3600000 = 1 := by
    rw [add_sub_cancel_left]; decide
  have h4 : Int.tdiv (H - H) 600000 = 0 := by rw [sub_self]; decide
  have hten : timeSpanUnit 10 = 600000 := by decide
  simp only [getAwbStatuses, closeWalk, eventWalk, startLoop, leadWalk, startCursor,
    tailWhitespaces, hourQuarters_ten, hourUnit, hten, ht, h1, h2, h3, h4, List.foldl,
    eventStep, stepCursor]
  simp [fillNA, stepCursor, hourUnit, h3, h4]

/-- The scenario of C5 at `H = 7200000` with status `"60"`. -/
theorem getAwbStatuses_single_event_at_from_witness :
    getAwbStatuses 7200000 (7200000 + 2 * timeSpanUnit 10) "X" 10 false false
        [eventAt 7200000 "60"] =
      some [realStatus 0 "X" 7200000 0 10 (eventAt 7200000 "60"),
            naStatus 1 "X" 7200000 1 10, naStatus 2 "X" 7200000 2 10,
            naStatus 3 "X" 7200000 3 10, naStatus 4 "X" 7200000 4 10,
            naStatus 5 "X" 7200000 5 10] :=
  getAwbStatuses_single_event_at_from 7200000 (by decide) (by decide) "X"
    (eventAt 7200000 "60") rfl

/-! ### The walk in default and update mode -/

theorem wrapInt64_of_range (x : Int) (h1 : -9223372036854775808 ≤ x)
    (h2 : x ≤ 9223372036854775807) : wrapInt64 x = x := by
  unfold wrapInt64; omega

theorem timeSpanUnit_eq (timespan : Int) (h1 : 0 ≤ timespan)
    (h2 : timespan ≤ 153722867280912) : timeSpanUnit timespan = timespan * 60000 := by
  unfold timeSpanUnit wrapInt64; omega

theorem timeSpanUnit_pos (timespan : Int) (h : 0 < timespan) (hb : timespan ≤ 153722867280912) :
    0 < timeSpanUnit timespan := by
  rw [timeSpanUnit_eq timespan (le_of_lt h) hb]; omega

theorem timeSpanUnit_ten : timeSpanUnit 10 = 600000 := by decide

theorem hourOf_eq (t : Int) (ht : 0 ≤ t) : hourOf t = t / 3600000 * 3600000 := by
  unfold hourOf hourUnit
  rw [Int.tdiv_eq_ediv ht (by decide)]

theorem quarterOf_eq (timespan t : Int) (hs : 0 < timeSpanUnit timespan) (ht : 0 ≤ t) :
    quarterOf timespan t = (t % 3600000) / timeSpanUnit timespan := by
  unfold quarterOf
  rw [hourOf_eq t ht, Int.tdiv_eq_ediv (by omega) (le_of_lt hs)]
  congr 1
  omega

theorem hourQuarters_eq (timespan : Int) (hs : 0 < timeSpanUnit timespan) :
    hourQuarters timespan = 3599999 / timeSpanUnit timespan + 1 := by
  unfold hourQuarters hourUnit
  rw [Int.tdiv_eq_ediv (by decide) (le_of_lt hs)]
  rfl

theorem hourQuarters_pos (timespan : Int) (hs : 0 < timeSpanUnit timespan) : 0 < hourQuarters timespan := by
  rw [hourQuarters_eq timespan hs]
  have := Int.ediv_nonneg (a := 3599999) (b := timeSpanUnit timespan) (by decide)
    (le_of_lt hs)
  omega

theorem validBucket_of_time (timespan t : Int) (hs : 0 < timeSpanUnit timespan) (ht : 0 ≤ t) :
    validBucket (hourQuarters timespan) (hourOf t) (quarterOf timespan t) := by
  have hS := hs
  refine ⟨?_, ?_, ?_⟩
  · rw [hourOf_eq t ht]; unfold hourUnit; omega
  · rw [quarterOf_eq timespan t hs ht]
    exact Int.ediv_nonneg (by omega) (le_of_lt hS)
  · rw [quarterOf_eq timespan t hs ht, hourQuarters_eq timespan hs]
    have : t % 3600000 / timeSpanUnit timespan ≤ 3599999 / timeSpanUnit timespan :=
      Int.ediv_le_ediv hS (by omega)
    omega

theorem bucketNo_of_time (timespan t : Int) (hs : 0 < timeSpanUnit timespan) (ht : 0 ≤ t) :
    bucketNo (hourQuarters timespan) (hourOf t) (quarterOf timespan t) =
      hourQuarters timespan * (t / 3600000) + (t % 3600000) / timeSpanUnit timespan := by
  unfold bucketNo
  rw [quarterOf_eq timespan t hs ht, hourOf_eq t ht]
  unfold hourUnit
  rw [Int.mul_ediv_cancel _ (by decide)]

theorem bucketNo_mono (timespan t1 t2 : Int) (hs : 0 < timeSpanUnit timespan) (h1 : 0 ≤ t1) (h12 : t1 ≤ t2) :
    bucketNo (hourQuarters timespan) (hourOf t1) (quarterOf timespan t1) ≤
      bucketNo (hourQuarters timespan) (hourOf t2) (quarterOf timespan t2) := by
  have hS := hs
  rw [bucketNo_of_time timespan t1 hs h1, bucketNo_of_time timespan t2 hs (by omega)]
  have hQ := hourQuarters_eq timespan hs
  have hk : t1 / 3600000 ≤ t2 / 3600000 := Int.ediv_le_ediv (by decide) h12
  have hq1 : t1 % 3600000 / timeSpanUnit timespan ≤ 3599999 / timeSpanUnit timespan :=
    Int.ediv_le_ediv hS (by omega)
  have hq2 : 0 ≤ t2 % 3600000 / timeSpanUnit timespan :=
    Int.ediv_nonneg (by omega) (le_of_lt hS)
  rcases eq_or_lt_of_le hk with hk' | hk'
  · rw [← hk']
    have : t1 % 3600000 ≤ t2 % 3600000 := by omega
    have := Int.ediv_le_ediv hS this
    omega
  · have hmul : hourQuarters timespan * (t1 / 3600000 + 1) ≤
        hourQuarters timespan * (t2 / 3600000) :=
      Int.mul_le_mul_of_nonneg_left (by omega) (le_of_lt (hourQuarters_pos timespan hs))
    rw [Int.mul_add, Int.mul_one] at hmul
    omega

theorem bucket_unique (hq b q b2 q2 : Int) (h1 : validBucket hq b q) (h2 : validBucket hq b2 q2)
    (h : bucketNo hq b q = bucketNo hq b2 q2) : b = b2 ∧ q = q2 := by
  obtain ⟨hb, hq0, hq1⟩ := h1
  obtain ⟨hb2, hq20, hq21⟩ := h2
  unfold bucketNo at h
  unfold hourUnit at hb hb2 h
  have hpos : 0 < hq := by omega
  have e1 : (q + hq * (b / 3600000)) / hq = b / 3600000 := by
    rw [Int.add_mul_ediv_left _ _ (by omega), Int.ediv_eq_zero_of_lt hq0 hq1]; omega
  have e2 : (q2 + hq * (b2 / 3600000)) / hq = b2 / 3600000 := by
    rw [Int.add_mul_ediv_left _ _ (by omega), Int.ediv_eq_zero_of_lt hq20 hq21]; omega
  have hk : b / 3600000 = b2 / 3600000 := by
    rw [← e1, ← e2]
    congr 1
    omega
  constructor
  · omega
  · rw [hk] at h; omega

theorem stepCursor_lt (hq b q : Int) (h : q + 1 < hq) : stepCursor hq b q = (b, q + 1) := by
  unfold stepCursor; rw [if_pos h]

theorem stepCursor_ge (hq b q : Int) (h : ¬ q + 1 < hq) :
    stepCursor hq b q = (b + 3600000, 0) := by
  unfold stepCursor hourUnit; rw [if_neg h]

theorem stepCursor_spec (hq b q : Int) (h : validBucket hq b q) :
    validBucket hq (stepCursor hq b q).1 (stepCursor hq b q).2 ∧
    bucketNo hq (stepCursor hq b q).1 (stepCursor hq b q).2 = bucketNo hq b q + 1 ∧
    (if q + 1 = hq then
        Int.tdiv (stepCursor hq b q).1 1000 = Int.tdiv b 1000 + 3600 ∧ (stepCursor hq b q).2 = 0
      else Int.tdiv (stepCursor hq b q).1 1000 = Int.tdiv b 1000 ∧
        (stepCursor hq b q).2 = q + 1) := by
  obtain ⟨hb, hq0, hq1⟩ := h
  unfold hourUnit at hb
  by_cases hlt : q + 1 < hq
  · have hne : q + 1 ≠ hq := by omega
    rw [stepCursor_lt hq b q hlt, if_neg hne]
    refine ⟨⟨hb, by omega, hlt⟩, ?_, rfl, rfl⟩
    show hq * (b / hourUnit) + (q + 1) = hq * (b / hourUnit) + q + 1
    omega
  · have heq : q + 1 = hq := by omega
    rw [stepCursor_ge hq b q hlt, if_pos heq]
    refine ⟨⟨?_, le_refl _, by omega⟩, ?_, ?_, rfl⟩
    · unfold hourUnit; omega
    · unfold bucketNo hourUnit
      have : (b + 3600000) / 3600000 = b / 3600000 + 1 := by omega
      show hq * ((b + 3600000) / 3600000) + 0 = hq * (b / 3600000) + q + 1
      rw [this, Int.mul_add, Int.mul_one]; omega
    · obtain ⟨k, hk⟩ : ∃ k, b = 1000 * k := ⟨b / 1000, by omega⟩
      show Int.tdiv (b + 3600000) 1000 = Int.tdiv b 1000 + 3600
      have : b + 3600000 = 1000 * (k + 3600) := by rw [hk]; ring
      rw [this, hk, Int.mul_tdiv_cancel_left _ (by decide),
        Int.mul_tdiv_cancel_left _ (by decide)]

theorem contiguous_append (hq : Int) (s : Status) (l : List Status) :
    contiguous hq l → (∀ last ∈ l.getLast?, nextBucket hq last s) →
      contiguous hq (l ++ [s]) := by
  induction l with
  | nil => intro _ _; trivial
  | cons a t ih =>
    cases t with
    | nil =>
      intro _ h
      exact ⟨h a rfl, trivial⟩
    | cons b t =>
      intro hc h
      refine ⟨hc.1, ih hc.2 ?_⟩
      intro last hlast
      apply h
      rw [List.getLast?_cons_cons]
      exact hlast

theorem indexedFromZero_append (s : Status) (l : List Status) (h : indexedFromZero l)
    (hs : s.Index = l.length) : indexedFromZero (l ++ [s]) := by
  unfold indexedFromZero at h ⊢
  rw [List.map_append, List.length_append, List.length_singleton, List.range_succ,
    List.map_append, h]
  simp [hs]

theorem walk_push (hq : Int) (w : Walk) (s : Status) (hw : WalkOK hq w)
    (hI : s.Index = w.statusIdx) (hB : s.BaseTime = Int.tdiv w.basetime 1000) (hQ : s.Q = w.q) :
    WalkOK hq { result := w.result ++ [s], statusIdx := w.statusIdx + 1,
                basetime := (stepCursor hq w.basetime w.q).1,
                q := (stepCursor hq w.basetime w.q).2 } := by
  obtain ⟨hv, _, hstep⟩ := stepCursor_spec hq w.basetime w.q hw.valid
  refine ⟨?_, ?_, ?_, ?_, hv⟩
  · show w.statusIdx + 1 = ((w.result ++ [s]).length : Int)
    rw [List.length_append, List.length_singleton, hw.idx]; simp
  · exact indexedFromZero_append s w.result hw.indexed (by rw [hI, hw.idx])
  · exact contiguous_append hq s w.result hw.contig (fun last hl => hw.trail last hl s hB hQ)
  · intro last hl s2 hB2 hQ2
    simp only [List.getLast?_append, List.getLast?_singleton, Option.or_some,
      Option.mem_def, Option.some.injEq] at hl
    subst hl
    unfold nextBucket
    rw [hB2, hQ2, hB, hQ]
    exact hstep

theorem fillNA_ok (awbno : String) (timespan hq : Int) (n : Nat) :
    ∀ w, WalkOK hq w →
      WalkOK hq (fillNA awbno timespan hq n w) ∧
      bucketNo hq (fillNA awbno timespan hq n w).basetime (fillNA awbno timespan hq n w).q =
        bucketNo hq w.basetime w.q + n ∧
      (fillNA awbno timespan hq n w).result.length = w.result.length + n := by
  induction n with
  | zero => intro w hw; exact ⟨hw, by simp [fillNA], by simp [fillNA]⟩
  | succ n ih =>
    intro w hw
    have hpush := walk_push hq w (naStatus w.statusIdx awbno w.basetime w.q timespan) hw
      rfl rfl rfl
    obtain ⟨h1, h2, h3⟩ := ih _ hpush
    obtain ⟨_, hno, _⟩ := stepCursor_spec hq w.basetime w.q hw.valid
    refine ⟨h1, ?_, ?_⟩
    · show bucketNo hq (fillNA awbno timespan hq n _).basetime (fillNA awbno timespan hq n _).q = _
      rw [h2, hno]; push_cast; ring
    · show (fillNA awbno timespan hq n _).result.length = _
      rw [h3, List.length_append, List.length_singleton]; omega

theorem tdiv_hourOf_sub (t1 t2 : Int) (h1 : 0 ≤ t1) (h2 : 0 ≤ t2) :
    Int.tdiv (hourOf t2 - hourOf t1) hourUnit = hourOf t2 / hourUnit - hourOf t1 / hourUnit := by
  rw [hourOf_eq t1 h1, hourOf_eq t2 h2]
  unfold hourUnit
  rw [Int.mul_ediv_cancel _ (by decide), Int.mul_ediv_cancel _ (by decide), ← Int.sub_mul,
    Int.mul_tdiv_cancel _ (by decide)]

theorem eventStep_p (awbno : String) (timespan hq : Int) (s : Loop) (hit : Hit) :
    (eventStep awbno timespan hq s hit).p = hit := by
  unfold eventStep
  simp only []
  split <;> rfl

theorem eventStep_of_ne (awbno : String) (timespan hq : Int) (s : Loop) (hit : Hit)
    (hdiff : hourOf hit.update_time ≠ s.p_basetime ∨ quarterOf timespan hit.update_time ≠ s.p_q)
    (w : Walk)
    (hw : w = fillNA awbno timespan hq
      (hq * Int.tdiv (hourOf hit.update_time - s.p_basetime) hourUnit +
        quarterOf timespan hit.update_time - s.p_q - 1).toNat
      { result := s.result, statusIdx := s.statusIdx, basetime := s.p_basetime, q := s.p_q }) :
    eventStep awbno timespan hq s hit =
      { result := w.result ++ [realStatus w.statusIdx awbno w.basetime w.q timespan s.p]
        statusIdx := w.statusIdx + 1
        p := hit
        p_basetime := hourOf hit.update_time
        p_q := quarterOf timespan hit.update_time
        c_basetime := hourOf hit.update_time
        c_q := quarterOf timespan hit.update_time } := by
  rw [hw]
  unfold eventStep
  simp only []
  exact if_pos hdiff

theorem eventStep_of_eq (awbno : String) (timespan hq : Int) (s : Loop) (hit : Hit)
    (hsame : ¬ (hourOf hit.update_time ≠ s.p_basetime ∨
      quarterOf timespan hit.update_time ≠ s.p_q)) :
    eventStep awbno timespan hq s hit =
      { result := s.result
        statusIdx := s.statusIdx
        p := hit
        p_basetime := hourOf hit.update_time
        p_q := quarterOf timespan hit.update_time
        c_basetime := hourOf hit.update_time
        c_q := quarterOf timespan hit.update_time } := by
  unfold eventStep
  simp only []
  exact if_neg hsame

theorem eventStep_ok (awbno : String) (timespan : Int) (hs : 0 < timeSpanUnit timespan) (s : Loop)
    (hit : Hit) (hok : LoopOK timespan s) (hle : s.p.update_time ≤ hit.update_time) :
    LoopOK timespan (eventStep awbno timespan (hourQuarters timespan) s hit) := by
  have hnn : 0 ≤ hit.update_time := le_trans hok.nonneg hle
  have hvc := validBucket_of_time timespan hit.update_time hs hnn
  have hvp := validBucket_of_time timespan s.p.update_time hs hok.nonneg
  have hmono := bucketNo_mono timespan _ _ hs hok.nonneg hle
  by_cases hdiff : hourOf hit.update_time ≠ s.p_basetime ∨
      quarterOf timespan hit.update_time ≠ s.p_q
  · -- the bucket changes: fillers, then the real bucket
    have hne : bucketNo (hourQuarters timespan) (hourOf s.p.update_time)
        (quarterOf timespan s.p.update_time) ≠
        bucketNo (hourQuarters timespan) (hourOf hit.update_time)
          (quarterOf timespan hit.update_time) := by
      intro heq
      obtain ⟨e1, e2⟩ := bucket_unique _ _ _ _ _ hvp hvc heq
      rcases hdiff with h | h
      · exact h (by rw [hok.pb, e1])
      · exact h (by rw [hok.pq, e2])
    have hws : (hourQuarters timespan *
          Int.tdiv (hourOf hit.update_time - s.p_basetime) hourUnit +
          quarterOf timespan hit.update_time - s.p_q - 1) =
        bucketNo (hourQuarters timespan) (hourOf hit.update_time)
          (quarterOf timespan hit.update_time) -
        bucketNo (hourQuarters timespan) (hourOf s.p.update_time)
          (quarterOf timespan s.p.update_time) - 1 := by
      rw [hok.pb, hok.pq, tdiv_hourOf_sub _ _ hok.nonneg hnn]
      unfold bucketNo
      ring
    have hn : ((hourQuarters timespan *
          Int.tdiv (hourOf hit.update_time - s.p_basetime) hourUnit +
          quarterOf timespan hit.update_time - s.p_q - 1).toNat : Int) =
        bucketNo (hourQuarters timespan) (hourOf hit.update_time)
          (quarterOf timespan hit.update_time) -
        bucketNo (hourQuarters timespan) (hourOf s.p.update_time)
          (quarterOf timespan s.p.update_time) - 1 := by
      rw [Int.toNat_of_nonneg (by rw [hws]; omega), hws]
    rw [eventStep_of_ne awbno timespan _ s hit hdiff _ rfl]
    generalize (hourQuarters timespan *
          Int.tdiv (hourOf hit.update_time - s.p_basetime) hourUnit +
          quarterOf timespan hit.update_time - s.p_q - 1).toNat = n at hn ⊢
    obtain ⟨wok, wno, _⟩ := fillNA_ok awbno timespan (hourQuarters timespan) n _ hok.walk
    rw [hn] at wno
    generalize fillNA awbno timespan (hourQuarters timespan) n
      { result := s.result, statusIdx := s.statusIdx, basetime := s.p_basetime, q := s.p_q }
      = w at wok wno ⊢
    have hpush := walk_push (hourQuarters timespan) w
      (realStatus w.statusIdx awbno w.basetime w.q timespan s.p) wok rfl rfl rfl
    obtain ⟨hv2, hno2, _⟩ := stepCursor_spec (hourQuarters timespan) _ _ wok.valid
    have hcur : bucketNo (hourQuarters timespan)
        (stepCursor (hourQuarters timespan) w.basetime w.q).1
        (stepCursor (hourQuarters timespan) w.basetime w.q).2 =
        bucketNo (hourQuarters timespan) (hourOf hit.update_time)
          (quarterOf timespan hit.update_time) := by
      rw [hno2, wno]
      show bucketNo (hourQuarters timespan) s.p_basetime s.p_q + _ + 1 = _
      rw [hok.pb, hok.pq]
      ring
    obtain ⟨e1, e2⟩ := bucket_unique _ _ _ _ _ hv2 hvc hcur
    rw [e1, e2] at hpush
    exact ⟨hpush, rfl, rfl, hnn, rfl, rfl⟩
  · -- same bucket: only the carried fields change
    have hsame : hourOf hit.update_time = s.p_basetime ∧
        quarterOf timespan hit.update_time = s.p_q := by
      constructor
      · by_contra h; exact hdiff (Or.inl h)
      · by_contra h; exact hdiff (Or.inr h)
    rw [eventStep_of_eq awbno timespan _ s hit hdiff]
    refine ⟨?_, rfl, rfl, hnn, rfl, rfl⟩
    have hw := hok.walk
    rw [← hsame.1, ← hsame.2] at hw
    exact hw

theorem eventFold_ok (awbno : String) (timespan : Int) (hs : 0 < timeSpanUnit timespan) (hits : List Hit) :
    ∀ s, LoopOK timespan s →
      List.Chain (fun a b : Hit => a.update_time ≤ b.update_time) s.p hits →
      LoopOK timespan (hits.foldl (eventStep awbno timespan (hourQuarters timespan)) s) := by
  induction hits with
  | nil => intro s hok _; exact hok
  | cons h t ih =>
    intro s hok hch
    rw [List.chain_cons] at hch
    rw [List.foldl_cons]
    apply ih _ (eventStep_ok awbno timespan hs s h hok hch.1)
    rw [eventStep_p]
    exact hch.2

theorem leadWalk_ok (from_ : Int) (awbno : String) (timespan : Int) (h0 : Hit)
    (hs : 0 < timeSpanUnit timespan) (hfrom : 0 ≤ from_) (hle : from_ ≤ h0.update_time) :
    WalkOK (hourQuarters timespan) (leadWalk from_ awbno timespan false h0) ∧
    (leadWalk from_ awbno timespan false h0).basetime = hourOf h0.update_time ∧
    (leadWalk from_ awbno timespan false h0).q = quarterOf timespan h0.update_time := by
  have hnn : 0 ≤ h0.update_time := le_trans hfrom hle
  have hvp := validBucket_of_time timespan h0.update_time hs hnn
  have hvf := validBucket_of_time timespan from_ hs hfrom
  have hmono := bucketNo_mono timespan _ _ hs hfrom hle
  have hq := hourQuarters_pos timespan hs
  have hv0 : validBucket (hourQuarters timespan) (hourOf from_) 0 := ⟨hvf.1, le_refl _, hq⟩
  have hw0 : WalkOK (hourQuarters timespan)
      { result := [], statusIdx := 0, basetime := hourOf from_, q := 0 } :=
    ⟨rfl, rfl, trivial, fun last hl => by simp at hl, hv0⟩
  have hlow : bucketNo (hourQuarters timespan) (hourOf from_) 0 ≤
      bucketNo (hourQuarters timespan) (hourOf from_) (quarterOf timespan from_) := by
    unfold bucketNo; have := hvf.2.1; omega
  have hws : hourQuarters timespan * Int.tdiv (hourOf h0.update_time - hourOf from_) hourUnit +
      quarterOf timespan h0.update_time - 0 =
      bucketNo (hourQuarters timespan) (hourOf h0.update_time)
        (quarterOf timespan h0.update_time) -
      bucketNo (hourQuarters timespan) (hourOf from_) 0 := by
    rw [tdiv_hourOf_sub _ _ hfrom hnn]
    unfold bucketNo
    ring
  have hn : ((hourQuarters timespan *
      Int.tdiv (hourOf h0.update_time - hourOf from_) hourUnit +
      quarterOf timespan h0.update_time - 0).toNat : Int) =
      bucketNo (hourQuarters timespan) (hourOf h0.update_time)
        (quarterOf timespan h0.update_time) -
      bucketNo (hourQuarters timespan) (hourOf from_) 0 := by
    rw [Int.toNat_of_nonneg (by rw [hws]; omega), hws]
  have hlead : leadWalk from_ awbno timespan false h0 =
      fillNA awbno timespan (hourQuarters timespan)
        (hourQuarters timespan * Int.tdiv (hourOf h0.update_time - hourOf from_) hourUnit +
          quarterOf timespan h0.update_time - 0).toNat
        { result := [], statusIdx := 0, basetime := hourOf from_, q := 0 } := rfl
  rw [hlead]
  generalize (hourQuarters timespan *
      Int.tdiv (hourOf h0.update_time - hourOf from_) hourUnit +
      quarterOf timespan h0.update_time - 0).toNat = n at hn ⊢
  obtain ⟨wok, wno, _⟩ := fillNA_ok awbno timespan (hourQuarters timespan) n _ hw0
  rw [hn] at wno
  generalize fillNA awbno timespan (hourQuarters timespan) n
    { result := [], statusIdx := 0, basetime := hourOf from_, q := 0 } = w at wok wno ⊢
  have hcur : bucketNo (hourQuarters timespan) w.basetime w.q =
      bucketNo (hourQuarters timespan) (hourOf h0.update_time)
        (quarterOf timespan h0.update_time) := by
    rw [wno]
    show bucketNo (hourQuarters timespan) (hourOf from_) 0 + _ = _
    ring
  obtain ⟨e1, e2⟩ := bucket_unique _ _ _ _ _ wok.valid hvp hcur
  exact ⟨wok, e1, e2⟩

theorem eventWalk_ok (from_ : Int) (awbno : String) (timespan : Int) (h0 : Hit)
    (rest : List Hit) (hs : 0 < timeSpanUnit timespan) (hfrom : 0 ≤ from_) (hle : from_ ≤ h0.update_time)
    (hsorted : List.Chain (fun a b : Hit => a.update_time ≤ b.update_time) h0 rest) :
    LoopOK timespan (eventWalk from_ awbno timespan false h0 (h0 :: rest)) := by
  obtain ⟨wok, e1, e2⟩ := leadWalk_ok from_ awbno timespan h0 hs hfrom hle
  unfold eventWalk
  apply eventFold_ok awbno timespan hs
  · refine ⟨?_, rfl, rfl, le_trans hfrom hle, e1, e2⟩
    have : (leadWalk from_ awbno timespan false h0) =
        { result := (leadWalk from_ awbno timespan false h0).result,
          statusIdx := (leadWalk from_ awbno timespan false h0).statusIdx,
          basetime := hourOf h0.update_time, q := quarterOf timespan h0.update_time } := by
      rw [← e1, ← e2]
    rw [this] at wok
    exact wok
  · exact List.Chain.cons (le_refl _) hsorted

theorem closeWalk_ok (awbno : String) (timespan : Int) (s : Loop) (hok : LoopOK timespan s) :
    WalkOK (hourQuarters timespan) (closeWalk awbno timespan s) := by
  have hpush := walk_push (hourQuarters timespan) _
    (realStatus s.statusIdx awbno s.p_basetime s.p_q timespan s.p) hok.walk rfl rfl rfl
  unfold closeWalk
  simp only [] at hpush ⊢
  rw [hok.cb, hok.cq]
  exact hpush

/-- In default and update mode (`isLatest = false`), for every span with a positive
`timeSpanUnit`, every `from >= 0` and every non-empty time-ascending list of events
starting at or after `from`, the buckets returned carry the indices `0, 1, 2, ...` and each
bucket's coordinate is the successor of the one before it. -/
theorem getAwbStatuses_contiguous_of_not_latest (from_ to_ : Int) (awbno : String)
    (timespan : Int) (isUpdate : Bool) (h0 : Hit) (rest : List Hit)
    (hs : 0 < timeSpanUnit timespan) (hfrom : 0 ≤ from_) (hle : from_ ≤ h0.update_time)
    (hsorted : List.Chain (fun a b : Hit => a.update_time ≤ b.update_time) h0 rest) :
    ∃ l, getAwbStatuses from_ to_ awbno timespan false isUpdate (h0 :: rest) = some l ∧
      indexedFromZero l ∧ contiguous (hourQuarters timespan) l := by
  have hok := closeWalk_ok awbno timespan _
    (eventWalk_ok from_ awbno timespan h0 rest hs hfrom hle hsorted)
  obtain ⟨wok, _, _⟩ := fillNA_ok awbno timespan (hourQuarters timespan)
    (tailWhitespaces to_ timespan false isUpdate
      (closeWalk awbno timespan (eventWalk from_ awbno timespan false h0 (h0 :: rest))).basetime
      (closeWalk awbno timespan (eventWalk from_ awbno timespan false h0 (h0 :: rest))).q).toNat
    _ hok
  exact ⟨_, rfl, wok.indexed, wok.contig⟩

theorem fillNA_result (awbno : String) (timespan hq : Int) (n : Nat) :
    ∀ w, ∃ extra, (fillNA awbno timespan hq n w).result = w.result ++ extra ∧
      extra.length = n ∧ ∀ x ∈ extra, x.StatusCode = "NA" := by
  induction n with
  | zero => intro w; exact ⟨[], by simp [fillNA], rfl, by simp⟩
  | succ n ih =>
    intro w
    obtain ⟨extra, h1, h2, h3⟩ := ih
      { result := w.result ++ [naStatus w.statusIdx awbno w.basetime w.q timespan]
        statusIdx := w.statusIdx + 1
        basetime := (stepCursor hq w.basetime w.q).1
        q := (stepCursor hq w.basetime w.q).2 }
    refine ⟨naStatus w.statusIdx awbno w.basetime w.q timespan :: extra, ?_, ?_, ?_⟩
    · show (fillNA awbno timespan hq n _).result = _
      rw [h1]; simp
    · simp [h2]
    · intro x hx
      rcases List.mem_cons.1 hx with h | h
      · rw [h]; rfl
      · exact h3 x h

theorem eventStep_result (awbno : String) (timespan hq : Int) (s : Loop) (hit : Hit) :
    ∃ extra, (eventStep awbno timespan hq s hit).result = s.result ++ extra := by
  by_cases hdiff : hourOf hit.update_time ≠ s.p_basetime ∨
      quarterOf timespan hit.update_time ≠ s.p_q
  · rw [eventStep_of_ne awbno timespan hq s hit hdiff _ rfl]
    obtain ⟨extra, h1, _, _⟩ := fillNA_result awbno timespan hq
      (hq * Int.tdiv (hourOf hit.update_time - s.p_basetime) hourUnit +
        quarterOf timespan hit.update_time - s.p_q - 1).toNat
      { result := s.result, statusIdx := s.statusIdx, basetime := s.p_basetime, q := s.p_q }
    simp only [] at h1 ⊢
    rw [h1, List.append_assoc]
    exact ⟨_, rfl⟩
  · rw [eventStep_of_eq awbno timespan hq s hit hdiff]
    exact ⟨[], by simp⟩

theorem eventFold_result (awbno : String) (timespan hq : Int) (hits : List Hit) :
    ∀ s, ∃ extra, (hits.foldl (eventStep awbno timespan hq) s).result = s.result ++ extra := by
  induction hits with
  | nil => intro s; exact ⟨[], by simp⟩
  | cons h t ih =>
    intro s
    obtain ⟨e1, h1⟩ := eventStep_result awbno timespan hq s h
    obtain ⟨e2, h2⟩ := ih (eventStep awbno timespan hq s h)
    exact ⟨e1 ++ e2, by rw [List.foldl_cons, h2, h1, List.append_assoc]⟩

theorem eventFold_p (awbno : String) (timespan hq : Int) (hits : List Hit) :
    ∀ s, some (hits.foldl (eventStep awbno timespan hq) s).p = (s.p :: hits).getLast? := by
  induction hits with
  | nil => intro s; rfl
  | cons h t ih =>
    intro s
    rw [List.foldl_cons, ih, List.getLast?_cons_cons, eventStep_p]

theorem tdiv_sub_of_aligned (a b : Int) (ha : a % hourUnit = 0) (hb : b % hourUnit = 0) :
    Int.tdiv (a - b) hourUnit = a / hourUnit - b / hourUnit := by
  unfold hourUnit at *
  obtain ⟨ka, hka⟩ : ∃ k, a = k * 3600000 := ⟨a / 3600000, by omega⟩
  obtain ⟨kb, hkb⟩ : ∃ k, b = k * 3600000 := ⟨b / 3600000, by omega⟩
  rw [hka, hkb, Int.mul_ediv_cancel _ (by decide), Int.mul_ediv_cancel _ (by decide),
    ← Int.sub_mul, Int.mul_tdiv_cancel _ (by decide)]

/-- In default and update mode the fillers emitted before the event walk are one `NA`
bucket for every grid bucket from the hour of `from` up to, not including, the first
event's bucket, and they are the head of the returned list. -/
theorem getAwbStatuses_leading_of_not_latest (from_ to_ : Int) (awbno : String)
    (timespan : Int) (isUpdate : Bool) (h0 : Hit) (rest : List Hit)
    (hs : 0 < timeSpanUnit timespan) (hfrom : 0 ≤ from_) (hle : from_ ≤ h0.update_time) :
    ∃ lead post, getAwbStatuses from_ to_ awbno timespan false isUpdate (h0 :: rest) =
        some (lead ++ post) ∧
      lead = (leadWalk from_ awbno timespan false h0).result ∧
      (∀ x ∈ lead, x.StatusCode = "NA") ∧
      (lead.length : Int) =
        bucketNo (hourQuarters timespan) (hourOf h0.update_time)
          (quarterOf timespan h0.update_time) -
        bucketNo (hourQuarters timespan) (hourOf from_) 0 := by
  have hnn : 0 ≤ h0.update_time := le_trans hfrom hle
  have hvf := validBucket_of_time timespan from_ hs hfrom
  have hmono := bucketNo_mono timespan _ _ hs hfrom hle
  have hlow : bucketNo (hourQuarters timespan) (hourOf from_) 0 ≤
      bucketNo (hourQuarters timespan) (hourOf from_) (quarterOf timespan from_) := by
    unfold bucketNo; have := hvf.2.1; omega
  have hws : hourQuarters timespan * Int.tdiv (hourOf h0.update_time - hourOf from_) hourUnit +
      quarterOf timespan h0.update_time - 0 =
      bucketNo (hourQuarters timespan) (hourOf h0.update_time)
        (quarterOf timespan h0.update_time) -
      bucketNo (hourQuarters timespan) (hourOf from_) 0 := by
    rw [tdiv_hourOf_sub _ _ hfrom hnn]
    unfold bucketNo
    ring
  obtain ⟨lead, hl1, hl2, hl3⟩ := fillNA_result awbno timespan (hourQuarters timespan)
    (hourQuarters timespan * Int.tdiv (hourOf h0.update_time - hourOf from_) hourUnit +
      quarterOf timespan h0.update_time - 0).toNat
    { result := [], statusIdx := 0, basetime := hourOf from_, q := 0 }
  have hlead : (leadWalk from_ awbno timespan false h0).result = lead := by
    rw [← List.nil_append lead]; exact hl1
  obtain ⟨e1, he1⟩ := eventFold_result awbno timespan (hourQuarters timespan) (h0 :: rest)
    (startLoop (leadWalk from_ awbno timespan false h0) timespan h0)
  have hwalk : (eventWalk from_ awbno timespan false h0 (h0 :: rest)).result = lead ++ e1 := by
    rw [← hlead]; exact he1
  obtain ⟨e2, he2, _, _⟩ := fillNA_result awbno timespan (hourQuarters timespan)
    (tailWhitespaces to_ timespan false isUpdate
      (closeWalk awbno timespan (eventWalk from_ awbno timespan false h0 (h0 :: rest))).basetime
      (closeWalk awbno timespan (eventWalk from_ awbno timespan false h0 (h0 :: rest))).q).toNat
    (closeWalk awbno timespan (eventWalk from_ awbno timespan false h0 (h0 :: rest)))
  have hclose : (closeWalk awbno timespan
      (eventWalk from_ awbno timespan false h0 (h0 :: rest))).result =
      lead ++ (e1 ++ [realStatus
        (eventWalk from_ awbno timespan false h0 (h0 :: rest)).statusIdx awbno
        (eventWalk from_ awbno timespan false h0 (h0 :: rest)).p_basetime
        (eventWalk from_ awbno timespan false h0 (h0 :: rest)).p_q timespan
        (eventWalk from_ awbno timespan false h0 (h0 :: rest)).p]) := by
    show (eventWalk from_ awbno timespan false h0 (h0 :: rest)).result ++ [_] = _
    rw [hwalk, List.append_assoc]
  rw [hclose, List.append_assoc] at he2
  refine ⟨lead, _, congrArg some he2, hlead.symm, hl3, ?_⟩
  rw [hl2, Int.toNat_of_nonneg (by rw [hws]; omega), hws]

/-- In default mode the buckets returned end with the real bucket of the last event,
at that event's own coordinate, followed by one `NA` bucket for every grid bucket after
it up to, not including, `to` rounded up to the hour. -/
theorem getAwbStatuses_trailing_default (from_ to_ : Int) (awbno : String)
    (timespan : Int) (h0 last : Hit) (rest : List Hit)
    (hs : 0 < timeSpanUnit timespan) (hfrom : 0 ≤ from_) (hle : from_ ≤ h0.update_time)
    (hsorted : List.Chain (fun a b : Hit => a.update_time ≤ b.update_time) h0 rest)
    (hlast : (h0 :: rest).getLast? = some last) :
    ∃ pre fill, getAwbStatuses from_ to_ awbno timespan false false (h0 :: rest) =
        some (pre ++ fill) ∧
      pre.getLast? = some (realStatus ((pre.length : Int) - 1) awbno (hourOf last.update_time)
        (quarterOf timespan last.update_time) timespan last) ∧
      (∀ x ∈ fill, x.StatusCode = "NA") ∧
      fill.length =
        (bucketNo (hourQuarters timespan)
            (Int.tdiv (to_ + hourUnit - 1) hourUnit * hourUnit) 0 -
          (bucketNo (hourQuarters timespan) (hourOf last.update_time)
            (quarterOf timespan last.update_time) + 1)).toNat := by
  have hok := eventWalk_ok from_ awbno timespan h0 rest hs hfrom hle hsorted
  have hcl := closeWalk_ok awbno timespan _ hok
  have hp : (eventWalk from_ awbno timespan false h0 (h0 :: rest)).p = last := by
    have := eventFold_p awbno timespan (hourQuarters timespan) (h0 :: rest)
      (startLoop (leadWalk from_ awbno timespan false h0) timespan h0)
    have hl : (h0 :: h0 :: rest).getLast? = some last := by
      rw [List.getLast?_cons_cons]; exact hlast
    exact Option.some.inj (this.trans hl)
  obtain ⟨fill, hf1, hf2, hf3⟩ := fillNA_result awbno timespan (hourQuarters timespan)
    (tailWhitespaces to_ timespan false false
      (closeWalk awbno timespan (eventWalk from_ awbno timespan false h0 (h0 :: rest))).basetime
      (closeWalk awbno timespan (eventWalk from_ awbno timespan false h0 (h0 :: rest))).q).toNat
    (closeWalk awbno timespan (eventWalk from_ awbno timespan false h0 (h0 :: rest)))
  refine ⟨_, fill, congrArg some hf1, ?_, hf3, ?_⟩
  · have hidx : (eventWalk from_ awbno timespan false h0 (h0 :: rest)).statusIdx =
        ((eventWalk from_ awbno timespan false h0 (h0 :: rest)).result.length : Int) :=
      hok.walk.idx
    have hlen : ((closeWalk awbno timespan
        (eventWalk from_ awbno timespan false h0 (h0 :: rest))).result.length : Int) - 1 =
        (eventWalk from_ awbno timespan false h0 (h0 :: rest)).statusIdx := by
      show (((eventWalk from_ awbno timespan false h0 (h0 :: rest)).result ++ [_]).length : Int)
        - 1 = _
      rw [List.length_append, List.length_singleton, hidx]
      push_cast
      ring
    rw [hlen]
    show ((eventWalk from_ awbno timespan false h0 (h0 :: rest)).result ++ [_]).getLast? = _
    rw [List.getLast?_append, List.getLast?_singleton, Option.or_some, hok.pb, hok.pq, hp]
  · rw [hf2]
    congr 1
    obtain ⟨_, hno, _⟩ := stepCursor_spec (hourQuarters timespan) _ _ hok.walk.valid
    simp only [] at hno
    have hcur : bucketNo (hourQuarters timespan)
        (closeWalk awbno timespan (eventWalk from_ awbno timespan false h0 (h0 :: rest))).basetime
        (closeWalk awbno timespan (eventWalk from_ awbno timespan false h0 (h0 :: rest))).q =
        bucketNo (hourQuarters timespan) (hourOf last.update_time)
          (quarterOf timespan last.update_time) + 1 := by
      show bucketNo (hourQuarters timespan)
        (stepCursor (hourQuarters timespan) _ _).1 (stepCursor (hourQuarters timespan) _ _).2 = _
      rw [hok.cb, hok.cq, hno, hok.pb, hok.pq, hp]
    rw [← hcur]
    unfold tailWhitespaces
    simp only [Bool.or_self, Bool.false_eq_true, if_false]
    rw [tdiv_sub_of_aligned _ _ (by unfold hourUnit; omega) hcl.valid.1]
    unfold bucketNo
    ring

/-! ## The feed scan -/

theorem getElem?_eq_some_getD {α : Type} (l : List α) (i : Nat) (d : α) (h : i < l.length) :
    l[i]? = some (l.getD i d) := by
  simp [List.getD_eq_getElem?_getD, List.getElem?_eq_getElem h]

theorem readRow_eq_some (record : List String) (h : 13 ≤ record.length) :
    readRow record = some (rowOf record) := by
  simp only [readRow, rowOf,
    getElem?_eq_some_getD record 1 "" (by omega), getElem?_eq_some_getD record 2 "" (by omega),
    getElem?_eq_some_getD record 3 "" (by omega), getElem?_eq_some_getD record 5 "" (by omega),
    getElem?_eq_some_getD record 6 "" (by omega), getElem?_eq_some_getD record 7 "" (by omega),
    getElem?_eq_some_getD record 11 "" (by omega), getElem?_eq_some_getD record 12 "" (by omega)]
  rfl

theorem scanLoop_eq (rest : List (List String)) :
    ∀ (prev : FeedRow) (acc : List FeedRow),
      (∀ r ∈ rest, 13 ≤ r.length ∧ r[0]? ≠ some eofSentinel) →
      scanLoop prev acc rest = some (acc ++ lastOfRuns (prev :: rest.map rowOf)) := by
  induction rest with
  | nil => intro prev acc _; simp [scanLoop, lastOfRuns]
  | cons record rest ih =>
    intro prev acc hwf
    have hrec := hwf record (List.mem_cons_self _ _)
    have hrest : ∀ r ∈ rest, 13 ≤ r.length ∧ r[0]? ≠ some eofSentinel :=
      fun r hr => hwf r (List.mem_cons_of_mem _ hr)
    have h0 : record[0]? = some (record.getD 0 "") :=
      getElem?_eq_some_getD record 0 "" (by omega)
    have hne : record.getD 0 "" ≠ eofSentinel := by
      intro hc; apply hrec.2; rw [h0, hc]
    simp only [scanLoop, h0, hne, if_false, readRow_eq_some record hrec.1, List.map_cons]
    rw [ih _ _ hrest]
    by_cases hk : compositeKey prev = compositeKey (rowOf record)
    · simp [lastOfRuns, hk]
    · simp [lastOfRuns, hk]

theorem readSTSfileScan_eq (first : List String) (rest : List (List String))
    (hwf : ∀ r ∈ first :: rest, 13 ≤ r.length ∧ r[0]? ≠ some eofSentinel) :
    readSTSfileScan (first :: rest) = some (lastOfRuns ((first :: rest).map rowOf)) := by
  have h1 := (hwf first (List.mem_cons_self _ _)).1
  simp only [readSTSfileScan, readRow_eq_some first h1, Option.some_bind]
  rw [scanLoop_eq rest _ _ (fun r hr => hwf r (List.mem_cons_of_mem _ hr))]
  simp

theorem getLast?_cons_of_ne_nil {α : Type} (a : α) (r : List α) (h : r ≠ []) :
    (a :: r).getLast? = r.getLast? := by
  cases r with
  | nil => exact absurd rfl h
  | cons b t => simp [List.getLast?_cons_cons]

theorem exists_maximalRuns (t : List FeedRow) :
    ∀ a : FeedRow, ∃ r rs, maximalRuns (a :: t) (r :: rs) ∧ r.head? = some a ∧
      lastOfRuns (a :: t) = (r :: rs).filterMap List.getLast? := by
  induction t with
  | nil =>
    intro a
    refine ⟨[a], [], ⟨by simp, ?_, by simp⟩, rfl, by simp [lastOfRuns]⟩
    intro run hrun
    simp only [List.mem_singleton] at hrun
    subst hrun
    refine ⟨by simp, ?_⟩
    intro x hx y hy
    simp only [List.mem_singleton] at hx hy
    rw [hx, hy]
  | cons b t ih =>
    intro a
    obtain ⟨r, rs, ⟨hflat, hruns, hchain⟩, hhead, hlast⟩ := ih b
    have hr := hruns r (List.mem_cons_self _ _)
    have hb : b ∈ r := by
      cases r with
      | nil => exact absurd rfl hr.1
      | cons c r' => simp only [List.head?_cons, Option.some.injEq] at hhead; simp [hhead]
    by_cases hk : compositeKey a = compositeKey b
    · refine ⟨a :: r, rs, ⟨?_, ?_, ?_⟩, rfl, ?_⟩
      · simp only [List.flatten_cons, List.cons_append] at hflat ⊢
        rw [hflat]
      · intro run hrun
        rcases List.mem_cons.1 hrun with h | h
        · subst h
          refine ⟨by simp, ?_⟩
          have key_eq : ∀ x ∈ a :: r, compositeKey x = compositeKey b := by
            intro x hx
            rcases List.mem_cons.1 hx with h | h
            · rw [h, hk]
            · exact hr.2 x h b hb
          intro x hx y hy
          rw [key_eq x hx, key_eq y hy]
        · exact hruns run (List.mem_cons_of_mem _ h)
      · cases rs with
        | nil => simp
        | cons r2 rs2 =>
          rw [List.chain'_cons] at hchain ⊢
          refine ⟨?_, hchain.2⟩
          rw [getLast?_cons_of_ne_nil a r hr.1]
          exact hchain.1
      · simp only [lastOfRuns, hk, if_true, List.filterMap_cons, getLast?_cons_of_ne_nil a r hr.1]
        simpa only [List.filterMap_cons] using hlast
    · refine ⟨[a], r :: rs, ⟨?_, ?_, ?_⟩, rfl, ?_⟩
      · simp only [List.flatten_cons, List.singleton_append] at hflat ⊢
        rw [hflat]
      · intro run hrun
        rcases List.mem_cons.1 hrun with h | h
        · subst h
          refine ⟨by simp, ?_⟩
          intro x hx y hy
          simp only [List.mem_singleton] at hx hy
          rw [hx, hy]
        · exact hruns run h
      · rw [List.chain'_cons]
        refine ⟨?_, hchain⟩
        intro x hx y hy
        simp only [List.getLast?_singleton, Option.mem_def, Option.some.injEq] at hx
        rw [hhead] at hy
        simp only [Option.mem_def, Option.some.injEq] at hy
        rw [← hx, ← hy]
        exact hk
      · simp only [lastOfRuns, hk, if_false, hlast]
        simp

theorem filterMap_getLast?_length {α : Type} (runs : List (List α)) (h : ∀ run ∈ runs, run ≠ []) :
    (runs.filterMap List.getLast?).length = runs.length := by
  induction runs with
  | nil => rfl
  | cons r rs ih =>
    have hr := h r (List.mem_cons_self _ _)
    cases r with
    | nil => exact absurd rfl hr
    | cons a t =>
      have : (a :: t).getLast? = some ((a :: t).getLast (by simp)) := List.getLast?_eq_getLast _ _
      rw [List.filterMap_cons, this]
      simp only [List.length_cons]
      rw [ih (fun run hrun => h run (List.mem_cons_of_mem _ hrun))]

theorem keysAdjacent_tail (a : String) (t : List String) (h : keysAdjacent (a :: t) = true) :
    keysAdjacent t = true := by
  simp only [keysAdjacent, Bool.and_eq_true] at h
  exact h.2

theorem keysAdjacent_head (a b : String) (t : List String)
    (h : keysAdjacent (a :: b :: t) = true) (hne : a ≠ b) : a ∉ b :: t := by
  simp only [keysAdjacent, Bool.and_eq_true, Bool.or_eq_true, beq_iff_eq] at h
  rcases h.1 with h1 | h1
  · exact absurd h1 hne
  · simpa using h1

theorem mem_lastOfRuns (l : List FeedRow) : ∀ r, r ∈ lastOfRuns l → r ∈ l := by
  induction l with
  | nil => intro r h; simp [lastOfRuns] at h
  | cons a t ih =>
    cases t with
    | nil => intro r h; simpa [lastOfRuns] using h
    | cons b t =>
      intro r h
      by_cases hk : compositeKey a = compositeKey b
      · simp only [lastOfRuns, hk, if_true] at h
        exact List.mem_cons_of_mem _ (ih r h)
      · simp only [lastOfRuns, hk, if_false, List.mem_cons] at h
        rcases h with h | h
        · rw [h]; exact List.mem_cons_self _ _
        · exact List.mem_cons_of_mem _ (ih r (by simpa using h))

theorem key_mem_lastOfRuns (l : List FeedRow) :
    ∀ k, k ∈ (lastOfRuns l).map compositeKey ↔ k ∈ l.map compositeKey := by
  induction l with
  | nil => intro k; simp [lastOfRuns]
  | cons a t ih =>
    cases t with
    | nil => intro k; simp [lastOfRuns]
    | cons b t =>
      intro k
      by_cases hk : compositeKey a = compositeKey b
      · simp only [lastOfRuns, hk, if_true]
        rw [ih k]
        simp only [List.map_cons, List.mem_cons]
        constructor
        · intro h; exact Or.inr h
        · rintro (h | h)
          · exact Or.inl (h.trans hk)
          · exact h
      · simp only [lastOfRuns, hk, if_false, List.map_cons, List.mem_cons]
        have := ih k
        simp only [List.map_cons, List.mem_cons] at this
        rw [this]

theorem lastOfRuns_adjacent (l : List FeedRow) :
    keysAdjacent (l.map compositeKey) = true →
      ((lastOfRuns l).map compositeKey).Nodup ∧
      ∀ r ∈ lastOfRuns l,
        l.reverse.find? (fun x => compositeKey x == compositeKey r) = some r := by
  induction l with
  | nil => intro _; simp [lastOfRuns]
  | cons a t ih =>
    cases t with
    | nil => intro _; simp [lastOfRuns]
    | cons b t =>
      intro hadj
      have hadj' : keysAdjacent ((b :: t).map compositeKey) = true :=
        keysAdjacent_tail _ _ hadj
      obtain ⟨hnd, hlast⟩ := ih hadj'
      by_cases hk : compositeKey a = compositeKey b
      · simp only [lastOfRuns, hk, if_true]
        refine ⟨hnd, ?_⟩
        intro r hr
        rw [List.reverse_cons, List.find?_append, hlast r hr]
        rfl
      · have hnot : compositeKey a ∉ (b :: t).map compositeKey :=
          keysAdjacent_head _ _ _ hadj hk
        simp only [lastOfRuns, hk, if_false]
        refine ⟨?_, ?_⟩
        · rw [List.map_cons, List.nodup_cons]
          refine ⟨?_, hnd⟩
          intro hmem
          exact hnot ((key_mem_lastOfRuns (b :: t) _).1 hmem)
        · intro r hr
          rcases List.mem_cons.1 hr with h | h
          · subst h
            have hnone : (b :: t).reverse.find? (fun x => compositeKey x == compositeKey r)
                = none := by
              rw [List.find?_eq_none]
              intro x hx hxk
              apply hnot
              rw [← beq_iff_eq.1 hxk]
              exact List.mem_map_of_mem _ (List.mem_reverse.1 hx)
            rw [List.reverse_cons, List.find?_append, hnone]
            simp
          · rw [List.reverse_cons, List.find?_append, hlast r h]
            rfl

/-- C6 as stated fails when a key reappears after a different key: the rows with keys
`100-0`, `200-0`, `100-0` give three records, two of them with key `100-0`.  (And with
no data row at all the scan indexes a `nil` record and produces no record list.) -/
theorem readSTSfileScan_repeated_key_not_collapsed :
    (∃ out, readSTSfileScan [feedRecord "100" "0" "50", feedRecord "200" "0" "60",
        feedRecord "100" "0" "70"] = some out ∧
      out = [rowOf (feedRecord "100" "0" "50"), rowOf (feedRecord "200" "0" "60"),
             rowOf (feedRecord "100" "0" "70")] ∧
      (out.filter (fun r => compositeKey r == "100-0")).length = 2) ∧
    readSTSfileScan [] = none :=
  ⟨⟨_, rfl, by decide, by decide⟩, rfl⟩

/-- C6, amended.  For every non-empty sequence of data rows with at least 13 columns
and no end-of-file sentinel in which rows with equal composite key are adjacent, the
scan returns a record list with exactly one record per distinct composite key (the keys
of the records are pairwise distinct and are exactly the keys of the rows), and each
record is the last row with its key. -/
theorem readSTSfileScan_one_record_per_key (first : List String) (rest : List (List String))
    (hwf : ∀ r ∈ first :: rest, 13 ≤ r.length ∧ r[0]? ≠ some eofSentinel)
    (hadj : keysAdjacent (((first :: rest).map rowOf).map compositeKey) = true) :
    ∃ out, readSTSfileScan (first :: rest) = some out ∧
      (out.map compositeKey).Nodup ∧
      (∀ k, k ∈ out.map compositeKey ↔ k ∈ ((first :: rest).map rowOf).map compositeKey) ∧
      ∀ r ∈ out, ((first :: rest).map rowOf).reverse.find?
        (fun x => compositeKey x == compositeKey r) = some r := by
  obtain ⟨hnd, hlast⟩ := lastOfRuns_adjacent _ hadj
  exact ⟨_, readSTSfileScan_eq first rest hwf, hnd, key_mem_lastOfRuns _, hlast⟩

/-- The scenario of C6: two rows with key `100-0` and status `50`, `70`. -/
theorem readSTSfileScan_one_record_per_key_witness :
    (∀ r ∈ [feedRecord "100" "0" "50", feedRecord "100" "0" "70"],
        13 ≤ r.length ∧ r[0]? ≠ some eofSentinel) ∧
    keysAdjacent (([feedRecord "100" "0" "50", feedRecord "100" "0" "70"].map rowOf).map
        compositeKey) = true ∧
    readSTSfileScan [feedRecord "100" "0" "50", feedRecord "100" "0" "70"] =
        some [rowOf (feedRecord "100" "0" "70")] ∧
    ∃ out, readSTSfileScan [feedRecord "100" "0" "50", feedRecord "100" "0" "70"] = some out ∧
      (out.map compositeKey).Nodup ∧
      (∀ k, k ∈ out.map compositeKey ↔
        k ∈ ([feedRecord "100" "0" "50", feedRecord "100" "0" "70"].map rowOf).map
          compositeKey) ∧
      ∀ r ∈ out, ([feedRecord "100" "0" "50", feedRecord "100" "0" "70"].map rowOf).reverse.find?
        (fun x => compositeKey x == compositeKey r) = some r :=
  ⟨by decide, by decide, by decide,
    readSTSfileScan_one_record_per_key (feedRecord "100" "0" "50") [feedRecord "100" "0" "70"]
      (by decide) (by decide)⟩

/-- C7.  For every non-empty sequence of data rows with at least 13 columns and no
end-of-file sentinel, the scan returns, in input order, the last row of each maximal
run of adjacent rows with equal composite key; the output has one record per run. -/
theorem readSTSfileScan_last_of_each_run (first : List String) (rest : List (List String))
    (hwf : ∀ r ∈ first :: rest, 13 ≤ r.length ∧ r[0]? ≠ some eofSentinel) :
    ∃ runs : List (List FeedRow),
      maximalRuns ((first :: rest).map rowOf) runs ∧
      readSTSfileScan (first :: rest) = some (runs.filterMap List.getLast?) ∧
      (runs.filterMap List.getLast?).length = runs.length := by
  obtain ⟨r, rs, hmax, _, hlast⟩ := exists_maximalRuns (rest.map rowOf) (rowOf first)
  refine ⟨r :: rs, hmax, ?_, filterMap_getLast?_length _ (fun run hrun => (hmax.2.1 run hrun).1)⟩
  rw [readSTSfileScan_eq first rest hwf, List.map_cons, hlast]

/-- Three rows in two runs: keys `100-0`, `100-0`, `200-1`. -/
theorem readSTSfileScan_last_of_each_run_witness :
    (∀ r ∈ [feedRecord "100" "0" "50", feedRecord "100" "0" "70", feedRecord "200" "1" "72"],
        13 ≤ r.length ∧ r[0]? ≠ some eofSentinel) ∧
    readSTSfileScan [feedRecord "100" "0" "50", feedRecord "100" "0" "70",
        feedRecord "200" "1" "72"] =
      some [rowOf (feedRecord "100" "0" "70"), rowOf (feedRecord "200" "1" "72")] ∧
    ∃ runs : List (List FeedRow),
      maximalRuns ([feedRecord "100" "0" "50", feedRecord "100" "0" "70",
        feedRecord "200" "1" "72"].map rowOf) runs ∧
      readSTSfileScan [feedRecord "100" "0" "50", feedRecord "100" "0" "70",
        feedRecord "200" "1" "72"] = some (runs.filterMap List.getLast?) ∧
      (runs.filterMap List.getLast?).length = runs.length :=
  ⟨by decide, by decide,
    readSTSfileScan_last_of_each_run (feedRecord "100" "0" "50")
      [feedRecord "100" "0" "70", feedRecord "200" "1" "72"] (by decide)⟩

/-! ## The cache rebuild -/

theorem cacheView_cacheStep (s : CacheLoop) (x : AwbStatus) :
    cacheView (cacheStep s x) = Function.update (cacheView s) x.Awbno (some x) := by
  unfold cacheView cacheStep
  by_cases h : s.prevawb = x.Awbno
  · simp only [h, ne_eq, not_true_eq_false, if_false, Function.update_idem]
  · simp only [ne_eq, h, not_false_eq_true, if_true]

theorem cacheView_foldl (l : List AwbStatus) :
    ∀ s : CacheLoop, cacheView (l.foldl cacheStep s) =
      l.foldl (fun (m : String → Option AwbStatus) (x : AwbStatus) =>
        Function.update m x.Awbno (some x)) (cacheView s) := by
  induction l with
  | nil => intro s; rfl
  | cons x t ih => intro s; rw [List.foldl_cons, ih, cacheView_cacheStep, List.foldl_cons]

theorem foldl_update_apply (l : List AwbStatus) :
    ∀ (m : String → Option AwbStatus) (k : String),
      l.foldl (fun (m : String → Option AwbStatus) (x : AwbStatus) =>
        Function.update m x.Awbno (some x)) m k =
        (l.reverse.find? (fun r => r.Awbno == k)).or (m k) := by
  induction l with
  | nil => intro m k; simp
  | cons x t ih =>
    intro m k
    rw [List.foldl_cons, ih, List.reverse_cons, List.find?_append]
    cases hf : List.find? (fun r => r.Awbno == k) t.reverse with
    | some r => simp
    | none =>
      by_cases hk : x.Awbno = k
      · subst hk; simp
      · have hk' : k ≠ x.Awbno := fun h => hk h.symm
        simp [hk, Function.update_noteq hk']

theorem rebuildCache_apply (R : List AwbStatus) (k : String) :
    rebuildCache R k = R.reverse.find? (fun r => r.Awbno == k) := by
  cases R with
  | nil => rfl
  | cons r0 rs =>
    have h := cacheView_foldl (r0 :: rs)
      { STS := fun _ => none, prevawb := r0.Awbno, prevstatus := r0 }
    unfold cacheView at h
    simp only [rebuildCache]
    rw [h, foldl_update_apply]
    cases hf : List.find? (fun r => r.Awbno == k) (r0 :: rs).reverse with
    | some r => simp
    | none =>
      rw [List.find?_eq_none] at hf
      have := hf r0 (by simp)
      have hk : k ≠ r0.Awbno := by
        intro h; apply this; simp [h]
      simp [Function.update_noteq hk]

/-- C8.  After the consumer loop has processed a result with a non-nil record list
`R`, whatever the cache held before, the keys of the cache are exactly the identifiers
occurring in `R`, each key maps to the last record of `R` with that identifier, and an
empty `R` leaves the cache empty. -/
theorem consumerStep_rebuilds_cache (now : Int) (hitsOf : String → List Hit) (s : Consumer)
    (R : List AwbStatus) (err : Option String) :
    ∃ s', consumerStep now hitsOf s { Result := some R, Error := err } = some s' ∧
      (∀ k, (s'.STS k).isSome ↔ k ∈ R.map (fun r => r.Awbno)) ∧
      (∀ k, s'.STS k = R.reverse.find? (fun r => r.Awbno == k)) ∧
      (R = [] → ∀ k, s'.STS k = none) := by
  refine ⟨_, rfl, ?_, ?_, ?_⟩
  · intro k
    show (rebuildCache R k).isSome ↔ _
    rw [rebuildCache_apply, List.find?_isSome]
    simp only [List.mem_reverse, beq_iff_eq, List.mem_map]
  · intro k
    show rebuildCache R k = _
    exact rebuildCache_apply R k
  · intro hR k
    show rebuildCache R k = _
    rw [hR]; rfl

/-! ## Metrics -/

/-- C9, evaluated.  One result whose record list carries the identifier `A` twice with
status `"70"` raises `SakuAccumCnts` from 0 to 2: the seen set is consulted for both
records before `A` is added to it. -/
theorem consumerStep_counts_repeated_identifier_twice :
    (consumerStep 0 (fun _ => [eventAt 0 "40", eventAt 60000 "50", eventAt 180000 "70"])
        (initConsumer 0)
        { Result := some [cachedAt "A" "70", cachedAt "A" "70"], Error := none }).map
      (fun s => (s.Metrics.SakuAccumCnts, s.Metrics.SakuAccumMins)) = some (2, 240000) := by
  decide

theorem scanFrom_append (p : Hit → Bool) (A : List Hit) (h : Hit) (B : List Hit) :
    ∀ i, (∀ x ∈ A, p x = false) → p h = true →
      scanFrom p (A ++ h :: B) i = some (i + A.length, h) := by
  induction A with
  | nil => intro i _ hh; simp [scanFrom, hh]
  | cons a A ih =>
    intro i hA hh
    have ha : p a = false := hA a (List.mem_cons_self _ _)
    show (if p a then some (i, a) else scanFrom p (A ++ h :: B) (i + 1)) = _
    rw [ha, if_neg (by simp), ih (i + 1) (fun x hx => hA x (List.mem_cons_of_mem _ hx)) hh]
    simp only [List.length_cons]
    congr 2
    omega

theorem scanFrom_eq_some (p : Hit → Bool) (l : List Hit) :
    ∀ i j h, scanFrom p l i = some (j, h) →
      ∃ A B, l = A ++ h :: B ∧ (∀ x ∈ A, p x = false) ∧ p h = true ∧ j = i + A.length := by
  induction l with
  | nil => intro i j h hs; simp [scanFrom] at hs
  | cons a t ih =>
    intro i j h hs
    by_cases ha : p a = true
    · simp only [scanFrom, ha, if_true, Option.some.injEq, Prod.mk.injEq] at hs
      refine ⟨[], t, ?_, by simp, ?_, ?_⟩
      · rw [← hs.2]; rfl
      · rw [← hs.2]; exact ha
      · simp [hs.1]
    · simp only [scanFrom, ha, if_false] at hs
      obtain ⟨A, B, hl, hA, hh, hj⟩ := ih (i + 1) j h hs
      refine ⟨a :: A, B, by rw [hl]; rfl, ?_, hh, ?_⟩
      · intro x hx
        rcases List.mem_cons.1 hx with hxa | hxA
        · rw [hxa]; simp [ha]
        · exact hA x hxA
      · simp only [List.length_cons]; omega

theorem drop_append_cons {α : Type} (A : List α) (h : α) (B : List α) :
    (A ++ h :: B).drop (A.length + 1) = B := by
  induction A with
  | nil => rfl
  | cons a A ih => simp [ih]

theorem duration_of_crossings (A : List Hit) (b : Hit) (B : List Hit) (s : Hit) (C : List Hit)
    (e : Hit) (D : List Hit) (gte lt : String)
    (hA : ∀ x ∈ A, strLt x.sts_code gte = false) (hb : strLt b.sts_code gte = true)
    (hB : ∀ x ∈ B, strLt x.sts_code gte = true) (hs : strLt s.sts_code gte = false)
    (hC : ∀ x ∈ C, strLt x.sts_code lt = true) (he : strLt e.sts_code lt = false) :
    duration (A ++ b :: (B ++ s :: (C ++ e :: D))) gte lt = e.update_time - s.update_time := by
  have h1 := scanFrom_append (fun h => strLt h.sts_code gte) A b (B ++ s :: (C ++ e :: D)) 0
    hA hb
  have h2 := scanFrom_append (fun h => !strLt h.sts_code gte) B s (C ++ e :: D)
    (0 + A.length + 1) (fun x hx => by simp [hB x hx]) (by simp [hs])
  have h3 := scanFrom_append (fun h => !strLt h.sts_code lt) C e D
    (0 + A.length + 1 + B.length + 1) (fun x hx => by simp [hC x hx]) (by simp [he])
  have d1 : (A ++ b :: (B ++ s :: (C ++ e :: D))).drop (0 + A.length + 1)
      = B ++ s :: (C ++ e :: D) := by
    rw [Nat.zero_add]; exact drop_append_cons A b _
  have d2 : (A ++ b :: (B ++ s :: (C ++ e :: D))).drop (0 + A.length + 1 + B.length + 1)
      = C ++ e :: D := by
    have : 0 + A.length + 1 + B.length + 1 = (A.length + 1) + (B.length + 1) := by omega
    rw [this, ← List.drop_drop, drop_append_cons A b, drop_append_cons B s]
  simp only [duration, h1, d1, h2, d2, h3]

theorem duration_eq_zero_of_no_crossings (hits : List Hit) (gte lt : String)
    (hno : ¬ ∃ A b B s C e D, hits = A ++ b :: (B ++ s :: (C ++ e :: D)) ∧
      (∀ x ∈ A, strLt x.sts_code gte = false) ∧ strLt b.sts_code gte = true ∧
      (∀ x ∈ B, strLt x.sts_code gte = true) ∧ strLt s.sts_code gte = false ∧
      (∀ x ∈ C, strLt x.sts_code lt = true) ∧ strLt e.sts_code lt = false) :
    duration hits gte lt = 0 := by
  unfold duration
  cases h1 : scanFrom (fun h => strLt h.sts_code gte) hits 0 with
  | none => rfl
  | some r1 =>
    obtain ⟨idx, b⟩ := r1
    obtain ⟨A, R1, hl1, hA, hb, hidx⟩ := scanFrom_eq_some _ _ _ _ _ h1
    have d1 : hits.drop (idx + 1) = R1 := by
      rw [hl1, hidx, Nat.zero_add]; exact drop_append_cons A b R1
    simp only [d1]
    cases h2 : scanFrom (fun h => !strLt h.sts_code gte) R1 (idx + 1) with
    | none => rfl
    | some r2 =>
      obtain ⟨startidx, s⟩ := r2
      obtain ⟨B, R2, hl2, hB, hs, hsi⟩ := scanFrom_eq_some _ _ _ _ _ h2
      have d2 : hits.drop (startidx + 1) = R2 := by
        have : startidx + 1 = (A.length + 1) + (B.length + 1) := by omega
        rw [this, ← List.drop_drop, hl1, drop_append_cons A b, hl2, drop_append_cons B s]
      simp only [d2]
      cases h3 : scanFrom (fun h => !strLt h.sts_code lt) R2 (startidx + 1) with
      | none => rfl
      | some r3 =>
        obtain ⟨endidx, e⟩ := r3
        obtain ⟨C, D, hl3, hC, he, _⟩ := scanFrom_eq_some _ _ _ _ _ h3
        exfalso
        apply hno
        refine ⟨A, b, B, s, C, e, D, ?_, hA, hb, ?_, ?_, ?_, ?_⟩
        · rw [hl1, hl2, hl3]
        · intro x hx; simpa using hB x hx
        · simpa using hs
        · intro x hx; simpa using hC x hx
        · simpa using he

/-- C10 as stated fails: for the events `"50"` at 0 and `"70"` at 60000 the first
event is `>= "50"` and the later one `>= "70"`, one minute apart, and `getDurations`
reports 0, because no event below `"50"` precedes them. -/
theorem getDurations_zero_without_event_below_lower :
    ∃ d, getDurations (fun _ => [eventAt 0 "50", eventAt 60000 "70"]) ["A"] "50" "70" = [d] ∧
      d = 0 ∧ minutesOf d ≠ (((60000 - 0 : Int)) : ℚ) / 60000 := by
  refine ⟨0, by decide, rfl, ?_⟩
  norm_num [minutesOf]

/-- C10, amended.  `getDurations` reports one value per identifier, in order.  For an
identifier whose hit list (time-ascending events of the day) contains an event with
status `< lower`, after the first such event an event with status `>= lower`, and
after the first of those an event with status `>= upper`, the value is
(time of that first event `>= upper` - time of that first event `>= lower`) / 60000
minutes; when these three events do not all exist the value is 0. -/
theorem getDurations_reports_crossing (hitsOf : String → List Hit) (awbs : List String)
    (gte lt : String) :
    getDurations hitsOf awbs gte lt = awbs.map (fun awb => duration (hitsOf awb) gte lt) ∧
    (∀ hits A b B s C e D, hits = A ++ b :: (B ++ s :: (C ++ e :: D)) →
      (∀ x ∈ A, strLt x.sts_code gte = false) → strLt b.sts_code gte = true →
      (∀ x ∈ B, strLt x.sts_code gte = true) → strLt s.sts_code gte = false →
      (∀ x ∈ C, strLt x.sts_code lt = true) → strLt e.sts_code lt = false →
      duration hits gte lt = e.update_time - s.update_time ∧
      minutesOf (duration hits gte lt) = ((e.update_time - s.update_time : Int) : ℚ) / 60000) ∧
    (∀ hits, (¬ ∃ A b B s C e D, hits = A ++ b :: (B ++ s :: (C ++ e :: D)) ∧
      (∀ x ∈ A, strLt x.sts_code gte = false) ∧ strLt b.sts_code gte = true ∧
      (∀ x ∈ B, strLt x.sts_code gte = true) ∧ strLt s.sts_code gte = false ∧
      (∀ x ∈ C, strLt x.sts_code lt = true) ∧ strLt e.sts_code lt = false) →
      duration hits gte lt = 0) := by
  refine ⟨rfl, ?_, ?_⟩
  · intro hits A b B s C e D hh hA hb hB hs hC he
    have hd := duration_of_crossings A b B s C e D gte lt hA hb hB hs hC he
    rw [hh, hd]
    exact ⟨rfl, rfl⟩
  · intro hits hno
    exact duration_eq_zero_of_no_crossings hits gte lt hno

/-- The events `"40"` at 0, `"50"` at 60000, `"70"` at 180000 give two minutes. -/
theorem getDurations_reports_crossing_witness :
    getDurations (fun _ => [eventAt 0 "40", eventAt 60000 "50", eventAt 180000 "70"]) ["A"]
        "50" "70" = [120000] ∧
    minutesOf (duration [eventAt 0 "40", eventAt 60000 "50", eventAt 180000 "70"] "50" "70")
      = (((180000 - 60000 : Int)) : ℚ) / 60000 :=
  ⟨by decide,
    ((getDurations_reports_crossing (fun _ => []) [] "50" "70").2.1
      [eventAt 0 "40", eventAt 60000 "50", eventAt 180000 "70"]
      [] (eventAt 0 "40") [] (eventAt 60000 "50") [] (eventAt 180000 "70") [] rfl
      (by decide) (by decide) (by decide) (by decide) (by decide) (by decide)).2⟩

/-! ## Health -/

theorem deadoraliveApi_status (now sts igs : Int) (status : String) :
    (deadoraliveApi now now now
        { LastStsUpdated := sts, LastIgsUpdated := igs, DeadorAlive := status }).DeadorAlive =
      if 600000 < now - min sts igs then "Dead" else "Fine" := by
  unfold deadoraliveApi
  simp only []
  rcases min_choice sts igs with h | h
  · have hle : sts ≤ igs := by rw [← h]; exact min_le_right _ _
    rw [h]
    by_cases h1 : now - sts > now - igs
    · rw [if_pos h1]
      by_cases h2 : now - sts > 10 * 60 * 1000
      · rw [if_pos h2, if_pos (by omega)]
      · rw [if_neg h2, if_neg (by omega)]
    · rw [if_neg h1]
      by_cases h2 : now - igs > 10 * 60 * 1000
      · rw [if_pos h2, if_pos (by omega)]
      · rw [if_neg h2, if_neg (by omega)]
  · have hle : igs ≤ sts := by rw [← h]; exact min_le_left _ _
    rw [h]
    by_cases h1 : now - sts > now - igs
    · rw [if_pos h1]
      by_cases h2 : now - sts > 10 * 60 * 1000
      · rw [if_pos h2, if_pos (by omega)]
      · rw [if_neg h2, if_neg (by omega)]
    · rw [if_neg h1]
      by_cases h2 : now - igs > 10 * 60 * 1000
      · rw [if_pos h2, if_pos (by omega)]
      · rw [if_neg h2, if_neg (by omega)]

/-- C11.  For every `now`, `LastStsUpdated` and `LastIgsUpdated` (the three clock reads
of one request taken as the same instant `now`), `deadoraliveApi` reports `Dead` if and
only if the older of the two timestamps lies more than 600000 ms before `now`, and
`Fine` otherwise; `LastStsUpdated = T`, `LastIgsUpdated = T - 11 min` at `now = T` gives
`Dead`, and both one minute before `now` gives `Fine`. -/
theorem deadoraliveApi_dead_iff (now sts igs : Int) (status : String) :
    ((deadoraliveApi now now now
        { LastStsUpdated := sts, LastIgsUpdated := igs, DeadorAlive := status }).DeadorAlive
        = "Dead" ↔ 600000 < now - min sts igs) ∧
    ((deadoraliveApi now now now
        { LastStsUpdated := sts, LastIgsUpdated := igs, DeadorAlive := status }).DeadorAlive
        = "Fine" ↔ ¬ 600000 < now - min sts igs) ∧
    (deadoraliveApi now now now
        { LastStsUpdated := now, LastIgsUpdated := now - 11 * 60000,
          DeadorAlive := status }).DeadorAlive = "Dead" ∧
    (deadoraliveApi now now now
        { LastStsUpdated := now - 60000, LastIgsUpdated := now - 60000,
          DeadorAlive := status }).DeadorAlive = "Fine" := by
  have hne : ("Dead" : String) ≠ "Fine" := by decide
  have hne2 : ("Fine" : String) ≠ "Dead" := by decide
  refine ⟨?_, ?_, ?_, ?_⟩
  · rw [deadoraliveApi_status]
    by_cases h : 600000 < now - min sts igs
    · rw [if_pos h]; exact ⟨fun _ => h, fun _ => rfl⟩
    · rw [if_neg h]; exact ⟨fun e => absurd e hne2, fun e => absurd e h⟩
  · rw [deadoraliveApi_status]
    by_cases h : 600000 < now - min sts igs
    · rw [if_pos h]; exact ⟨fun e => absurd e hne, fun e => absurd h e⟩
    · rw [if_neg h]; exact ⟨fun _ => h, fun _ => rfl⟩
  · rw [deadoraliveApi_status, if_pos]
    rw [min_eq_right (by omega)]; omega
  · rw [deadoraliveApi_status, if_neg]
    rw [min_self]; omega

/-! ## Documents and cache records of a cycle -/

/-- C14.  For every merged record, the identifier written to the store document and
the identifier of the cache record are the same string: the bare identifier when the
branch sequence is exactly `"0"`, and identifier + `"-"` + branch for every other
branch value. -/
theorem identifier_branch_suffix (es_sts_idx : String) (igsMap : String → Option String)
    (update_time : Int) (r : FeedRow) :
    (storeDoc es_sts_idx igsMap update_time r).awb_no =
        (if r.br = "0" then r.awb else r.awb ++ "-" ++ r.br) ∧
    (awbStatusOf update_time r).Awbno =
        (if r.br = "0" then r.awb else r.awb ++ "-" ++ r.br) := by
  unfold storeDoc awbStatusOf
  simp only []
  by_cases h : r.br = "0"
  · simp [h]
  · simp [h, String.append_assoc]

/-- C17 as stated fails for a key held with the empty string.  An outcome line made of
blanks is trimmed to `""` and stored under its identifier; the identifier is then a
key of the map and the document still gets `"-1"`. -/
theorem storeDoc_igs_status_empty_value :
    (readIgsFile (fun _ => none) [["A"]] [["  "]] "A" = some "") ∧
    (storeDoc "sts_index_20241104" (readIgsFile (fun _ => none) [["A"]] [["  "]]) 0
        (rowOf (feedRecord "A" "0" "75"))).igs_status = "-1" := by
  decide

/-- C17, amended.  For every merged record, the `igs_status` written to the store is
the value held in the cross-reference map under the record's bare identifier whenever
that identifier is a key of the map with a non-empty value, and is `"-1"` when the
identifier is absent from the map or held with the empty string. -/
theorem storeDoc_igs_status (es_sts_idx : String) (igsMap : String → Option String)
    (update_time : Int) (r : FeedRow) :
    (storeDoc es_sts_idx igsMap update_time r).igs_status =
      match igsMap r.awb with
      | some v => if v = "" then "-1" else v
      | none => "-1" := by
  unfold storeDoc mapLookup
  simp only []
  cases h : igsMap r.awb with
  | none => simp
  | some v =>
    by_cases hv : v = ""
    · simp [hv]
    · simp [hv]

/-! ## The cross-reference store -/

theorem pairLoop_eq_foldl_zip (awbnos : List String) (igsStss : List String) :
    ∀ (i : Nat) (igsMap : String → Option String),
      pairLoop awbnos i igsStss igsMap =
        ((awbnos.drop i).zip igsStss).foldl
          (fun (m : String → Option String) (p : String × String) =>
            Function.update m p.1 (some p.2)) igsMap := by
  induction igsStss with
  | nil => intro i igsMap; simp [pairLoop]
  | cons o rest ih =>
    intro i igsMap
    by_cases hi : (i : Int) > (awbnos.length : Int) - 1
    · have hlen : awbnos.length ≤ i := by omega
      simp only [pairLoop, hi, if_true]
      rw [ih, List.drop_eq_nil_of_le hlen, List.drop_eq_nil_of_le (by omega)]
      simp
    · have hlt : i < awbnos.length := by omega
      simp only [pairLoop, hi, if_false, List.getElem?_eq_getElem hlt]
      rw [ih, List.drop_eq_getElem_cons hlt, List.zip_cons_cons, List.foldl_cons]

theorem foldl_update_isSome (l : List (String × String)) :
    ∀ (m : String → Option String) (k : String), (m k).isSome →
      (l.foldl (fun (m : String → Option String) (p : String × String) =>
        Function.update m p.1 (some p.2)) m k).isSome := by
  induction l with
  | nil => intro m k h; exact h
  | cons p t ih =>
    intro m k h
    rw [List.foldl_cons]
    apply ih
    by_cases hk : k = p.1
    · subst hk; simp
    · rw [Function.update_noteq hk]; exact h

/-- C16.  For every prior store `M` and every identifier files and outcome files of a
cycle, with `A` and `O` the identifier and outcome lists gathered from them, the store
after `readIgsFile` is `M` overwritten in order with `A[i] -> O[i]` for the positions
both lists have; entries of the longer list beyond the shorter one are ignored, and
no key of `M` is removed. -/
theorem readIgsFile_pairs_by_position (M : String → Option String)
    (blnofiles igsfiles : List (List String)) :
    readIgsFile M blnofiles igsfiles =
      ((gatherLines blnofiles).zip (gatherLines igsfiles)).foldl
        (fun (m : String → Option String) (p : String × String) =>
          Function.update m p.1 (some p.2)) M ∧
    ((gatherLines blnofiles).zip (gatherLines igsfiles)).length =
      min (gatherLines blnofiles).length (gatherLines igsfiles).length ∧
    ∀ k, (M k).isSome → (readIgsFile M blnofiles igsfiles k).isSome := by
  have h1 : readIgsFile M blnofiles igsfiles =
      ((gatherLines blnofiles).zip (gatherLines igsfiles)).foldl
        (fun (m : String → Option String) (p : String × String) =>
          Function.update m p.1 (some p.2)) M := by
    unfold readIgsFile
    by_cases hb : blnofiles.length < 1
    · have : blnofiles = [] := List.length_eq_zero.1 (by omega)
      rw [if_pos hb, this]
      simp [gatherLines]
    · rw [if_neg hb]
      by_cases hi : igsfiles.length < 1
      · have : igsfiles = [] := List.length_eq_zero.1 (by omega)
        rw [if_pos hi, this]
        simp [gatherLines]
      · rw [if_neg hi, pairLoop_eq_foldl_zip, List.drop_zero]
  refine ⟨h1, List.length_zip _ _, ?_⟩
  intro k hk
  rw [h1]
  exact foldl_update_isSome _ M k hk

/-! ## The index name -/

/-- C20 as stated fails: a process started on 2024-11-04 (UTC) whose cycle runs at an
ingestion timestamp on 2024-11-05 still writes to `sts_index_20241104`. -/
theorem cycleDocs_index_not_of_cycle_day :
    (cycleDocs (initIndexName 0 1730678400000) (fun _ => none) (1730678400000 + 86400000)
        [rowOf (feedRecord "A" "0" "75")]).map (fun d => d._index) = ["sts_index_20241104"] ∧
    "sts_index_" ++ formatDay 0 (1730678400000 + 86400000) = "sts_index_20241105" := by
  decide

/-- C20, amended.  Every ingestion cycle writes its records to the index named
`sts_index_YYYYMMDD` for the calendar day on which the process started (the day `Init`
ran), whatever the cycle's ingestion timestamp: a cycle on the start day targets that
day's index, and a cycle that runs after midnight targets the same index as the cycles
of the day before. -/
theorem cycleDocs_index_of_start_day (zoneOffset startNow : Int)
    (igsMap : String → Option String) (update_time : Int) (rows : List FeedRow) :
    (∀ d ∈ cycleDocs (initIndexName zoneOffset startNow) igsMap update_time rows,
      d._index = "sts_index_" ++ formatDay zoneOffset startNow) ∧
    (formatDay zoneOffset update_time = formatDay zoneOffset startNow →
      ∀ d ∈ cycleDocs (initIndexName zoneOffset startNow) igsMap update_time rows,
        d._index = "sts_index_" ++ formatDay zoneOffset update_time) := by
  have h : ∀ d ∈ cycleDocs (initIndexName zoneOffset startNow) igsMap update_time rows,
      d._index = "sts_index_" ++ formatDay zoneOffset startNow := by
    intro d hd
    unfold cycleDocs at hd
    obtain ⟨r, _, hr⟩ := List.mem_map.1 hd
    rw [← hr]
    rfl
  refine ⟨h, ?_⟩
  intro heq d hd
  rw [heq]
  exact h d hd

/-! ## The timeline calendar -/

theorem timeLineLoop_eq (u : Int) (hu : 0 ≤ u) (n : Nat) :
    ∀ (c idx : Int) (acc : List Timeline), -9223372036854775808 ≤ c →
      c + u * (n : Int) ≤ 9223372036854775807 →
      timeLineLoop u n c idx acc =
        acc ++ (List.range n).map
          (fun (i : Nat) => ({ Time := Int.tdiv (c + u * (i : Int)) 1000, Index := idx + (i : Int) } : Timeline)) := by
  induction n with
  | zero => intro c idx acc _ _; simp [timeLineLoop]
  | succ n ih =>
    intro c idx acc hc hn
    have hun : 0 ≤ u * (n : Int) := mul_nonneg hu (Int.ofNat_nonneg n)
    have hn' : c + u + u * (n : Int) ≤ 9223372036854775807 := by
      have e : c + u * ((n + 1 : Nat) : Int) = c + u + u * (n : Int) := by push_cast; ring
      rw [e] at hn
      exact hn
    have hw : wrapInt64 (c + u) = c + u :=
      wrapInt64_of_range _ (by omega) (by omega)
    rw [timeLineLoop, hw, ih (c + u) (idx + 1) _ (by omega) hn', List.range_succ_eq_map,
      List.map_cons, List.map_map, List.append_assoc, List.singleton_append]
    congr 2
    · simp
    · apply List.map_congr_left
      intro i _
      simp only [Function.comp, Nat.succ_eq_add_one]
      push_cast
      have e1 : c + u + u * (i : Int) = c + u * ((i : Int) + 1) := by ring
      have e2 : idx + 1 + (i : Int) = idx + ((i : Int) + 1) := by ring
      rw [e1, e2]

theorem timeLineApi_default (fs ts ss isl : String) (f t sp : Int)
    (hf : Atoi fs = some f) (ht : Atoi ts = some t) (hs : Atoi ss = some sp) (hsp : 1 ≤ sp)
    (h0 : 0 ≤ f) (hft : f ≤ t) (htb : t ≤ 9223372036851175808) (hisl : isl ≠ "true") :
    timeLineApi fs ts ss isl =
      .ok ((List.range (6 * ((t + 3599999) / 3600000 - f / 3600000)).toNat).map
        (fun (i : Nat) =>
          ({ Time := f / 3600000 * 3600 + 600 * (i : Int), Index := (i : Int) } : Timeline))) := by
  have hb : (isl == "true") = false := by simpa using hisl
  have hunit : wrapInt64 (wrapInt64 (10 * 60) * 1000) = 600000 := by decide
  have hstart : Int.tdiv f 3600000 * 3600000 = f / 3600000 * 3600000 := by
    rw [Int.tdiv_eq_ediv h0 (by decide)]
  have hwrap : wrapInt64 (wrapInt64 (t + 3600000) - 1) = t + 3599999 := by
    unfold wrapInt64; omega
  have hend : Int.tdiv (t + 3599999) 3600000 * 3600000 = (t + 3599999) / 3600000 * 3600000 := by
    rw [Int.tdiv_eq_ediv (by omega) (by decide)]
  have hint : wrapInt64 ((t + 3599999) / 3600000 * 3600000 - f / 3600000 * 3600000) =
      (t + 3599999) / 3600000 * 3600000 - f / 3600000 * 3600000 :=
    wrapInt64_of_range _ (by omega) (by omega)
  have hhours : Int.tdiv ((t + 3599999) / 3600000 * 3600000 - f / 3600000 * 3600000) 3600000 =
      (t + 3599999) / 3600000 - f / 3600000 := by
    rw [← Int.sub_mul, Int.mul_tdiv_cancel _ (by decide)]
  have hq : Int.tdiv (3600000 - 1) 600000 + 1 = 6 := by decide
  have hres : Int.tdiv ((t + 3599999) / 3600000 * 3600000 - f / 3600000 * 3600000 -
      ((t + 3599999) / 3600000 - f / 3600000) * 3600000 + 600000 - 1) 600000
      = 0 := by
    have : (t + 3599999) / 3600000 * 3600000 - f / 3600000 * 3600000 -
      ((t + 3599999) / 3600000 - f / 3600000) * 3600000 + 600000 - 1 = 599999 := by ring
    rw [this]; decide
  unfold timeLineApi
  simp only [hs, hf, ht, hb, hourUnit, if_neg (not_lt.2 hsp), Bool.false_eq_true, if_false,
    hunit, hstart, hwrap, hend, hint, hhours, hq, hres, Int.add_zero]
  have hcount : f / 3600000 * 3600000 +
      600000 * (((6 * ((t + 3599999) / 3600000 - f / 3600000)).toNat : Nat) : Int) ≤
      9223372036854775807 := by
    rw [Int.toNat_of_nonneg (by omega)]
    omega
  rw [timeLineLoop_eq 600000 (by decide) _ _ _ _ (by omega) hcount, List.nil_append]
  congr 1
  apply List.map_congr_left
  intro i _
  congr 1
  · have : f / 3600000 * 3600000 + 600000 * (i : Int) =
        1000 * (f / 3600000 * 3600 + 600 * i) := by ring
    rw [this, Int.mul_tdiv_cancel_left _ (by decide)]
  · simp

/-- C12 as stated fails for a `to` near the top of the `int64` range: with `from=0`,
`to=9223372036854775807` (both accepted by `ParseInt`), `timespan=10` and no
`islatest`, `to + hourUnit - 1` wraps around to a negative number, the entry count is
not positive and the answer is 200 with no entry, where six entries per covered hour
would be 15372286728096 entries. -/
theorem timeLineApi_wraps_for_large_to :
    Atoi "0" = some 0 ∧ Atoi "9223372036854775807" = some 9223372036854775807 ∧
    Atoi "10" = some 10 ∧ (0 : Int) ≤ 9223372036854775807 ∧
    timeLineApi "0" "9223372036854775807" "10" "" = .ok [] ∧
    (6 * (((9223372036854775807 : Int) + 3599999) / 3600000 - 0 / 3600000)).toNat =
      15372286728096 := by
  decide

/-- C12, amended.  For every `0 <= from <= to` with `to <= 9223372036851175808`
(`2^63 - 3600000`, so that `to + hourUnit - 1` does not wrap around), `timespan=10` and
no `islatest`, `timeLineApi` answers 200 with one entry per 10-minute bucket from `from`
rounded down to the hour up to, not including, `to` rounded up to the hour: six entries
per covered hour, entry `i` carrying index `i` and the time `start + i * 10 minutes` (in
seconds, `start / 1000 + 600 * i`). -/
theorem timeLineApi_ten_minutes (fs ts ss isl : String) (f t : Int)
    (hf : Atoi fs = some f) (ht : Atoi ts = some t) (hs : Atoi ss = some 10)
    (h0 : 0 ≤ f) (hft : f ≤ t) (htb : t ≤ 9223372036851175808) (hisl : isl ≠ "true") :
    timeLineApi fs ts ss isl =
      .ok ((List.range (6 * ((t + 3599999) / 3600000 - f / 3600000)).toNat).map
        (fun (i : Nat) =>
          ({ Time := f / 3600000 * 3600 + 600 * (i : Int), Index := (i : Int) } : Timeline))) :=
  timeLineApi_default fs ts ss isl f t 10 hf ht hs (by decide) h0 hft htb hisl

/-- The scenario of C12: `from=0`, `to=3600000`, `timespan=10` gives exactly six
entries. -/
theorem timeLineApi_ten_minutes_witness :
    timeLineApi "0" "3600000" "10" "" =
      .ok [{ Time := 0, Index := 0 }, { Time := 600, Index := 1 }, { Time := 1200, Index := 2 },
           { Time := 1800, Index := 3 }, { Time := 2400, Index := 4 },
           { Time := 3000, Index := 5 }] :=
  (timeLineApi_ten_minutes "0" "3600000" "10" "" 0 3600000 (by decide) (by decide) (by decide)
    (by decide) (by decide) (by decide) (by decide)).trans (by decide)

/-- C13, evaluated.  With `timespan=5` the entries are 600 seconds (10 minutes) apart,
not 5 minutes; with `timespan=15`, `islatest=true` and `from=900000` (a multiple of 15
minutes) the first entry is at 600 seconds, `from` rounded down to a multiple of 10
minutes. -/
theorem timeLineApi_ignores_timespan :
    timeLineApi "0" "3600000" "5" "" =
      .ok [{ Time := 0, Index := 0 }, { Time := 600, Index := 1 }, { Time := 1200, Index := 2 },
           { Time := 1800, Index := 3 }, { Time := 2400, Index := 4 },
           { Time := 3000, Index := 5 }] ∧
    timeLineApi "900000" "3600000" "15" "true" =
      .ok [{ Time := 600, Index := 0 }, { Time := 1200, Index := 1 }, { Time := 1800, Index := 2 },
           { Time := 2400, Index := 3 }, { Time := 3000, Index := 4 }] := by
  decide

/-! ## Pagination of the identifier list -/

theorem filteredValues_eq_nil (values : List AwbStatus) (user sts isupdate : String)
    (laststss : List Status) (hnone : ∀ v ∈ values, keptByFilter user sts v = false) :
    filteredValues values user sts isupdate laststss = [] := by
  have h : values.filter (keptByFilter user sts) = [] := by
    rw [List.filter_eq_nil_iff]
    intro v hv
    rw [hnone v hv]
    simp
  unfold filteredValues
  simp only [h]
  split <;> rfl

/-- C18 as stated fails when page and par are supplied: with a `user` filter that
matches no cached record, `page=0` and `par=10`, the answer is 400. -/
theorem awbApi_empty_filter_with_page_is_400 :
    awbApi [cachedAt "A" "70"] "nobody" "" "" [] "0" "10" = .badRequest := by
  decide

/-- C18, amended.  For every cache and every user/sts filter that keeps no cached
record, `awbApi` answers 200 with an empty identifier list and ttl 0 when page and par
are not both supplied, or when one of them is not a number; when both are supplied as
numbers with `0 <= page * par <= 9223372036854775807` (a product that does not wrap
around, e.g. `page=0`, `par=10`) it answers 400. -/
theorem awbApi_empty_filter (values : List AwbStatus) (user sts isupdate : String)
    (laststss : List Status) (page par : String)
    (hnone : ∀ v ∈ values, keptByFilter user sts v = false) :
    ((page = "" ∨ par = "" ∨ Atoi page = none ∨ Atoi par = none) →
      awbApi values user sts isupdate laststss page par =
        .ok { TtlAwbs := 0, Awbno := [] }) ∧
    (∀ p q, page ≠ "" → par ≠ "" → Atoi page = some p → Atoi par = some q → 0 ≤ p * q →
      p * q ≤ 9223372036854775807 →
      awbApi values user sts isupdate laststss page par = .badRequest) := by
  have hnil := filteredValues_eq_nil values user sts isupdate laststss hnone
  unfold awbApi
  rw [hnil]
  constructor
  · intro h
    unfold paginate
    by_cases hsup : page ≠ "" ∧ par ≠ ""
    · rw [if_pos hsup]
      rcases h with h | h | h | h
      · exact absurd h hsup.1
      · exact absurd h hsup.2
      · simp [h]
      · cases hp : Atoi page with
        | none => simp
        | some p => simp [h]
    · rw [if_neg hsup]
      simp
  · intro p q hp hq hap haq hpq hmax
    have hw : wrapInt64 (p * q) = p * q := wrapInt64_of_range _ (by omega) hmax
    unfold paginate
    rw [if_pos ⟨hp, hq⟩]
    simp only [hap, haq, List.map_nil, List.length_nil, hw]
    rw [if_pos (by simp; omega)]

/-- The scenario of C18 without page and par: the answer is 200 with an empty list. -/
theorem awbApi_empty_filter_witness :
    (∀ v ∈ [cachedAt "A" "70"], keptByFilter "nobody" "" v = false) ∧
    awbApi [cachedAt "A" "70"] "nobody" "" "" [] "" "" = .ok { TtlAwbs := 0, Awbno := [] } ∧
    awbApi [cachedAt "A" "70"] "nobody" "" "" [] "0" "10" = .badRequest :=
  ⟨by decide,
    (awbApi_empty_filter [cachedAt "A" "70"] "nobody" "" "" [] "" "" (by decide)).1
      (Or.inl rfl),
    (awbApi_empty_filter [cachedAt "A" "70"] "nobody" "" "" [] "0" "10" (by decide)).2
      0 10 (by decide) (by decide) (by decide) (by decide) (by decide) (by decide)⟩

/-- C19 as stated fails for bad pairs: a non-numeric page is answered with 200 and the
whole list, and a negative page makes the slice expression panic (bounds `[-2:0]`). -/
theorem awbApi_bad_page_not_400 :
    awbApi [cachedAt "A" "70", cachedAt "B" "70", cachedAt "C" "70"] "" "" "" [] "x" "2" =
      .ok { TtlAwbs := 3, Awbno := ["A", "B", "C"] } ∧
    awbApi [cachedAt "A" "70", cachedAt "B" "70", cachedAt "C" "70"] "" "" "" [] "-1" "2" =
      .panicked := by
  decide

/-- C19, amended.  Whenever page and par are both supplied as non-negative numbers with
`(page + 1) * par <= 9223372036854775807` (so that neither product wraps around),
`awbApi` answers 400 when `page * par >= n` and otherwise answers 200 with ttl `n` and
exactly the elements `page*par ... min((page+1)*par, n) - 1` of the `n` filtered
identifiers, the slice bounds being in range (no panic); when page or par is supplied
but not a number it answers 200 with ttl `n` and all `n` identifiers. -/
theorem awbApi_page_cut (values : List AwbStatus) (user sts isupdate : String)
    (laststss : List Status) (page par : String) (hpage : page ≠ "") (hpar : par ≠ "") :
    (∀ p q, Atoi page = some p → Atoi par = some q → 0 ≤ p → 0 ≤ q →
      (p + 1) * q ≤ 9223372036854775807 →
      awbApi values user sts isupdate laststss page par =
        if p * q ≥ (((filteredValues values user sts isupdate laststss).map
            fun v => v.Awbno).length : Int) then .badRequest
        else .ok
          { TtlAwbs := ((filteredValues values user sts isupdate laststss).map
              fun v => v.Awbno).length
            Awbno := (((filteredValues values user sts isupdate laststss).map
              fun v => v.Awbno).drop (p * q).toNat).take
                (min ((p + 1) * q) (((filteredValues values user sts isupdate laststss).map
                  fun v => v.Awbno).length : Int) - p * q).toNat }) ∧
    ((Atoi page = none ∨ Atoi par = none) →
      awbApi values user sts isupdate laststss page par =
        .ok { TtlAwbs := ((filteredValues values user sts isupdate laststss).map
                fun v => v.Awbno).length
              Awbno := (filteredValues values user sts isupdate laststss).map
                fun v => v.Awbno }) := by
  unfold awbApi
  generalize (filteredValues values user sts isupdate laststss).map (fun v => v.Awbno) = ids
  constructor
  · intro p q hap haq hp hq hmax
    have hpq : 0 ≤ p * q := mul_nonneg hp hq
    have hto : (p + 1) * q = p * q + q := by ring
    have hwf : wrapInt64 (p * q) = p * q := wrapInt64_of_range _ (by omega) (by omega)
    have hwt : wrapInt64 (wrapInt64 (p + 1) * q) = (p + 1) * q := by
      by_cases hq0 : q = 0
      · rw [hq0, mul_zero, mul_zero]
        decide
      · have hq1 : 1 ≤ q := by omega
        have hp1 : p + 1 ≤ (p + 1) * q := le_mul_of_one_le_right (by omega) hq1
        rw [wrapInt64_of_range (p + 1) (by omega) (by omega)]
        exact wrapInt64_of_range _ (by omega) hmax
    unfold paginate
    rw [if_pos ⟨hpage, hpar⟩]
    simp only [hap, haq, hwf, hwt]
    by_cases hbad : p * q > (ids.length : Int) - 1
    · have hr : p * q ≥ (ids.length : Int) := by omega
      rw [if_pos hbad, if_pos hr]
    · have hr : ¬ p * q ≥ (ids.length : Int) := by omega
      rw [if_neg hbad, if_neg hr]
      by_cases hclamp : (p + 1) * q > (ids.length : Int)
      · rw [if_pos hclamp, min_eq_right (le_of_lt hclamp)]
        unfold goSlice
        rw [if_pos ⟨hpq, by omega, le_refl _⟩]
      · rw [if_neg hclamp, min_eq_left (not_lt.1 hclamp)]
        unfold goSlice
        rw [if_pos ⟨hpq, by omega, not_lt.1 hclamp⟩]
  · intro h
    unfold paginate
    rw [if_pos ⟨hpage, hpar⟩]
    rcases h with h | h
    · simp [h]
    · cases hp : Atoi page with
      | none => simp
      | some p => simp [h]

/-- Three identifiers, `page=1`, `par=2`: the answer is the third identifier with
ttl 3. -/
theorem awbApi_page_cut_witness :
    awbApi [cachedAt "A" "70", cachedAt "B" "70", cachedAt "C" "70"] "" "" "" [] "1" "2" =
      .ok { TtlAwbs := 3, Awbno := ["C"] } :=
  ((awbApi_page_cut [cachedAt "A" "70", cachedAt "B" "70", cachedAt "C" "70"] "" "" "" []
    "1" "2" (by decide) (by decide)).1 1 2 (by decide) (by decide) (by decide)
    (by decide) (by decide)).trans (by decide)

/-! ## Bucket coordinates -/

/-- C15, evaluated in latest mode.  For `from = 1200000`, `to = 3600000` and one event
at `3000000` the first bucket returned has `BaseTime = 1200` seconds (20 minutes past
the hour), which is not a multiple of one hour.  (The same input as for C1: the
fillers carry `from` rounded down to the span as their base time.) -/
theorem getAwbStatuses_latest_basetime_not_hour :
    ∃ l, getAwbStatuses 1200000 3600000 "X" 10 true false [eventAt 3000000 "60"] = some l ∧
      l.head? = some (naStatus 0 "X" 1200000 2 10) ∧
      (naStatus 0 "X" 1200000 2 10).BaseTime = 1200 ∧
      ¬ (naStatus 0 "X" 1200000 2 10).BaseTime % 3600 = 0 :=
  ⟨_, rfl, by decide, by decide, by decide⟩

theorem tdiv_thousand_of_aligned (b : Int) (hb : b % hourUnit = 0) :
    Int.tdiv b 1000 % 3600 = 0 := by
  unfold hourUnit at hb
  obtain ⟨k, hk⟩ : ∃ k, b = 1000 * k := ⟨b / 1000, by omega⟩
  rw [hk, Int.mul_tdiv_cancel_left _ (by decide)]
  omega

theorem fillNA_aligned (awbno : String) (timespan hq : Int) (n : Nat) :
    ∀ w, WalkOK hq w → (∀ s ∈ w.result, alignedBucket hq s) →
      ∀ s ∈ (fillNA awbno timespan hq n w).result, alignedBucket hq s := by
  induction n with
  | zero => intro w _ h; exact h
  | succ n ih =>
    intro w hw h
    have hpush := walk_push hq w (naStatus w.statusIdx awbno w.basetime w.q timespan) hw
      rfl rfl rfl
    apply ih _ hpush
    intro s hs
    rcases List.mem_append.1 hs with h1 | h1
    · exact h s h1
    · rw [List.mem_singleton.1 h1]
      exact ⟨tdiv_thousand_of_aligned _ hw.valid.1, hw.valid.2.1, hw.valid.2.2⟩

theorem eventStep_aligned (awbno : String) (timespan : Int) (s : Loop)
    (hit : Hit) (hok : LoopOK timespan s)
    (hal : ∀ x ∈ s.result, alignedBucket (hourQuarters timespan) x) :
    ∀ x ∈ (eventStep awbno timespan (hourQuarters timespan) s hit).result,
      alignedBucket (hourQuarters timespan) x := by
  by_cases hdiff : hourOf hit.update_time ≠ s.p_basetime ∨
      quarterOf timespan hit.update_time ≠ s.p_q
  · rw [eventStep_of_ne awbno timespan _ s hit hdiff _ rfl]
    obtain ⟨wok, _, _⟩ := fillNA_ok awbno timespan (hourQuarters timespan)
      (hourQuarters timespan * Int.tdiv (hourOf hit.update_time - s.p_basetime) hourUnit +
        quarterOf timespan hit.update_time - s.p_q - 1).toNat _ hok.walk
    have hfill := fillNA_aligned awbno timespan (hourQuarters timespan)
      (hourQuarters timespan * Int.tdiv (hourOf hit.update_time - s.p_basetime) hourUnit +
        quarterOf timespan hit.update_time - s.p_q - 1).toNat _ hok.walk hal
    intro x hx
    rcases List.mem_append.1 hx with h1 | h1
    · exact hfill x h1
    · rw [List.mem_singleton.1 h1]
      exact ⟨tdiv_thousand_of_aligned _ wok.valid.1, wok.valid.2.1, wok.valid.2.2⟩
  · rw [eventStep_of_eq awbno timespan _ s hit hdiff]
    exact hal

theorem eventFold_aligned (awbno : String) (timespan : Int) (hs : 0 < timeSpanUnit timespan)
    (hits : List Hit) :
    ∀ s, LoopOK timespan s →
      List.Chain (fun a b : Hit => a.update_time ≤ b.update_time) s.p hits →
      (∀ x ∈ s.result, alignedBucket (hourQuarters timespan) x) →
      ∀ x ∈ (hits.foldl (eventStep awbno timespan (hourQuarters timespan)) s).result,
        alignedBucket (hourQuarters timespan) x := by
  induction hits with
  | nil => intro s _ _ h; exact h
  | cons h t ih =>
    intro s hok hch hal
    rw [List.chain_cons] at hch
    rw [List.foldl_cons]
    apply ih _ (eventStep_ok awbno timespan hs s h hok hch.1)
    · rw [eventStep_p]; exact hch.2
    · exact eventStep_aligned awbno timespan s h hok hal

/-- In default and update mode, for every span with a positive `timeSpanUnit`, every
`from >= 0` and every non-empty time-ascending list of events starting at or after
`from`, each bucket returned has a `BaseTime` that is a whole number of hours and a
quarter index `Q` with `0 <= Q < hourQuarters`. -/
theorem getAwbStatuses_aligned_of_not_latest (from_ to_ : Int) (awbno : String)
    (timespan : Int) (isUpdate : Bool) (h0 : Hit) (rest : List Hit)
    (hs : 0 < timeSpanUnit timespan) (hfrom : 0 ≤ from_) (hle : from_ ≤ h0.update_time)
    (hsorted : List.Chain (fun a b : Hit => a.update_time ≤ b.update_time) h0 rest) :
    ∃ l, getAwbStatuses from_ to_ awbno timespan false isUpdate (h0 :: rest) = some l ∧
      ∀ s ∈ l, alignedBucket (hourQuarters timespan) s := by
  refine ⟨_, rfl, ?_⟩
  obtain ⟨wok, e1, e2⟩ := leadWalk_ok from_ awbno timespan h0 hs hfrom hle
  have hq := hourQuarters_pos timespan hs
  have hvf := validBucket_of_time timespan from_ hs hfrom
  have hw0 : WalkOK (hourQuarters timespan)
      { result := [], statusIdx := 0, basetime := hourOf from_, q := 0 } :=
    ⟨rfl, rfl, trivial, fun last hl => by simp at hl, ⟨hvf.1, le_refl _, hq⟩⟩
  have hlead : ∀ x ∈ (leadWalk from_ awbno timespan false h0).result,
      alignedBucket (hourQuarters timespan) x :=
    fillNA_aligned awbno timespan (hourQuarters timespan) _ _ hw0 (fun x hx => by simp at hx)
  have hstart : LoopOK timespan
      (startLoop (leadWalk from_ awbno timespan false h0) timespan h0) := by
    refine ⟨?_, rfl, rfl, le_trans hfrom hle, e1, e2⟩
    have : (leadWalk from_ awbno timespan false h0) =
        { result := (leadWalk from_ awbno timespan false h0).result,
          statusIdx := (leadWalk from_ awbno timespan false h0).statusIdx,
          basetime := hourOf h0.update_time, q := quarterOf timespan h0.update_time } := by
      rw [← e1, ← e2]
    rw [this] at wok
    exact wok
  have hchain : List.Chain (fun a b : Hit => a.update_time ≤ b.update_time) h0 (h0 :: rest) :=
    List.Chain.cons (le_refl _) hsorted
  have hwalk := eventFold_aligned awbno timespan hs (h0 :: rest) _ hstart hchain hlead
  have hok := eventWalk_ok from_ awbno timespan h0 rest hs hfrom hle hsorted
  have hcl := closeWalk_ok awbno timespan _ hok
  apply fillNA_aligned awbno timespan (hourQuarters timespan) _ _ hcl
  intro x hx
  rcases List.mem_append.1 hx with h1 | h1
  · exact hwalk x h1
  · rw [List.mem_singleton.1 h1]
    exact ⟨tdiv_thousand_of_aligned _ hok.walk.valid.1, hok.walk.valid.2.1,
      hok.walk.valid.2.2⟩

/-! ## Startup pruning -/

theorem pruneLoop_deleted (zoneOffset : Int) (now : Int → Int)
    (existsStatus : String → Option Int) (hex : ∀ name, existsStatus name ≠ none) (n : Nat) :
    ∀ (minus : Int) (deleted : List String),
      pruneLoop zoneOffset now existsStatus (fun _ => false) n minus deleted =
        { deleted := deleted ++
            ((List.range n).map fun (i : Nat) =>
              prunedName zoneOffset (now (minus + (i : Int))) (minus + (i : Int))).filter
              (fun name => existsStatus name == some 200)
          failed := false } := by
  induction n with
  | zero => intro minus deleted; simp [pruneLoop]
  | succ n ih =>
    intro minus deleted
    have hshift : ∀ i : Nat, minus + 1 + (i : Int) = minus + ((i + 1 : Nat) : Int) := by
      intro i; push_cast; ring
    have hf : ((fun (i : Nat) => prunedName zoneOffset (now (minus + (i : Int))) (minus + (i : Int)))
        ∘ Nat.succ) =
        fun (i : Nat) => prunedName zoneOffset (now (minus + 1 + (i : Int))) (minus + 1 + (i : Int)) := by
      funext i
      simp only [Function.comp_apply, Nat.succ_eq_add_one, hshift]
    rw [List.range_succ_eq_map, List.map_cons, List.map_map]
    unfold pruneLoop
    cases hst : existsStatus (prunedName zoneOffset (now minus) minus) with
    | none => exact absurd hst (hex _)
    | some code =>
      by_cases hc : code = 200
      · subst hc
        simp only [↓reduceIte, Bool.false_eq_true, ih, Nat.cast_zero, add_zero,
          List.filter_cons, hst, beq_self_eq_true, List.append_assoc, List.singleton_append]
        rw [hf]
      · have hne : (some code == some (200 : Int)) = false := by
          simp [hc]
        simp only [hc, ↓reduceIte, ih, Nat.cast_zero, add_zero, List.filter_cons, hst, hne,
          Bool.false_eq_true]
        rw [hf]

theorem startInit_prunes_independent_of_setting (setting1 setting2 : String) (zoneOffset : Int)
    (now : Int → Int) (existsStatus : String → Option Int) (deleteFails : String → Bool) :
    (startInit setting1 zoneOffset now existsStatus deleteFails).1 =
      (startInit setting2 zoneOffset now existsStatus deleteFails).1 :=
  rfl

/-- C21, evaluated.  With `DeleteIndiciesfrom=7` in the settings file, a start on
2024-11-04 (UTC) at which every daily index exists requests the deletion of the
indices of 3, 2 and 1 November only: `Init` reads the package variable before
`GetSettings` has stored the configured value in it, so the count is always 3. -/
theorem startInit_ignores_retention_setting :
    startInit "7" 0 (fun _ => 1730678400000) (fun _ => some 200) (fun _ => false) =
      ({ deleted := ["sts_index_20241103", "sts_index_20241102", "sts_index_20241101"],
         failed := false }, "7") := by
  decide

/-! ## Lock acquisition -/

theorem lockLoop_no_remove (outcomes : List Bool) :
    ∀ cntr : Int, cntr + outcomes.length ≤ 30 → LockEvent.remove ∉ lockLoop cntr outcomes := by
  induction outcomes with
  | nil => intro cntr _; simp [lockLoop]
  | cons ok rest ih =>
    intro cntr h
    have hlen : cntr + 1 + (rest.length : Int) ≤ 30 := by
      simp only [List.length_cons, Nat.cast_add, Nat.cast_one] at h; omega
    have hc : ¬ cntr + 1 > 30 := by
      have : (0 : Int) ≤ rest.length := Int.ofNat_nonneg _
      omega
    cases ok with
    | true => simp [lockLoop]
    | false =>
      have := ih (cntr + 1) hlen
      simp [lockLoop, hc, this]

theorem lockLoop_failures (n : Nat) (rest : List Bool) :
    ∀ cntr : Int, cntr + n ≤ 30 →
      lockLoop cntr (List.replicate n false ++ rest) =
        (List.replicate n [LockEvent.link false, LockEvent.sleep]).flatten ++
          lockLoop (cntr + n) rest := by
  induction n with
  | zero => intro cntr _; simp
  | succ n ih =>
    intro cntr h
    have hlen : cntr + 1 + (n : Int) ≤ 30 := by push_cast at h; omega
    have hc : ¬ cntr + 1 > 30 := by
      have : (0 : Int) ≤ n := Int.ofNat_nonneg _
      omega
    have e : cntr + 1 + (n : Int) = cntr + ((n + 1 : Nat) : Int) := by push_cast; ring
    rw [List.replicate_succ, List.cons_append, lockLoop]
    simp only [Bool.false_eq_true, ↓reduceIte, hc, ih (cntr + 1) hlen, e, List.replicate_succ,
      List.flatten_cons, List.cons_append, List.nil_append]

theorem acquireLock_no_remove (outcomes : List Bool) (h : outcomes.length ≤ 31) :
    LockEvent.remove ∉ acquireLock outcomes := by
  cases outcomes with
  | nil => simp [acquireLock]
  | cons ok rest =>
    cases ok with
    | true => simp [acquireLock]
    | false =>
      have := lockLoop_no_remove rest 0 (by simp only [List.length_cons] at h; omega)
      simp [acquireLock, this]

theorem acquireLock_32_failures (rest : List Bool) :
    acquireLock (List.replicate 32 false ++ rest) =
      LockEvent.link false ::
        ((List.replicate 30 [LockEvent.link false, LockEvent.sleep]).flatten ++
          (LockEvent.link false :: LockEvent.sleep :: LockEvent.remove :: lockLoop 31 rest)) := by
  have h := lockLoop_failures 30 (false :: rest) 0 (by decide)
  have e : List.replicate 32 false ++ rest =
      false :: (List.replicate 30 false ++ false :: rest) := by
    simp [List.replicate_succ, ← List.replicate_succ']
  rw [e]
  unfold acquireLock
  simp only [Bool.false_eq_true, ↓reduceIte, h]
  rfl

/-- C22, evaluated.  When `os.Link` fails 31 times in a row (the call in the `if`
statement and 30 calls in the loop) and succeeds at the 32nd call, the lock path is not
removed at all: the counter is compared with `cntr > 30` after it has been incremented,
so the forced removal first happens after the 32nd failed call, 31 seconds in, while
the message logged with it speaks of 30 seconds. -/
theorem acquireLock_31_failures_no_remove :
    LockEvent.remove ∉ acquireLock (List.replicate 31 false ++ [true]) ∧
    (acquireLock (List.replicate 31 false ++ [true])).count (.link false) = 31 ∧
    (acquireLock (List.replicate 32 false ++ [true])).count .remove = 1 ∧
    (acquireLock (List.replicate 32 false ++ [true])).getLast? = some (.link true) := by
  decide

/-! ## The bulk requests of a cycle -/

theorem bulkLoop_spec (answer : Nat → BulkAnswer) (hok : ∀ k, sendBulk (answer k) = .done)
    (docs : List StoreDoc) :
    ∀ (i : Nat) (bbody : List StoreDoc) (issued : List (List StoreDoc)),
      bbody.length = i % 10 →
      ∃ R : List (List StoreDoc), bulkLoop answer i bbody docs issued = (issued ++ R, .done) ∧
        R.flatten = bbody ++ docs ∧ (∀ r ∈ R, r ≠ []) ∧ (∀ r ∈ R.dropLast, r.length = 10) ∧
        (∀ r ∈ R, r.length ≤ 10) := by
  induction docs with
  | nil =>
    intro i bbody issued hb
    by_cases hne : bbody = []
    · exact ⟨[], by simp [bulkLoop, hne], by simp [hne], by simp, by simp, by simp⟩
    · refine ⟨[bbody], by simp [bulkLoop, hne, hok], by simp, by simpa using hne, by simp, ?_⟩
      intro r hr
      rw [List.mem_singleton.1 hr, hb]
      omega
  | cons doc rest ih =>
    intro i bbody issued hb
    by_cases hi : i % 10 = 9
    · obtain ⟨R, hR, hflat, hne, hfull, hle⟩ := ih (i + 1) [] (issued ++ [bbody ++ [doc]])
        (by simp; omega)
      have hlen : (bbody ++ [doc]).length = 10 := by simp [hb, hi]
      refine ⟨(bbody ++ [doc]) :: R, ?_, ?_, ?_, ?_, ?_⟩
      · unfold bulkLoop
        simp only [maxUpdateSTS, hi, Nat.reduceSub, ↓reduceIte, hok, hR, List.append_assoc,
          List.singleton_append]
      · simp [hflat]
      · intro r hr
        rcases List.mem_cons.1 hr with h | h
        · rw [h]; simp
        · exact hne r h
      · intro r hr
        cases R with
        | nil => simp at hr
        | cons r0 R0 =>
          rw [List.dropLast_cons₂] at hr
          rcases List.mem_cons.1 hr with h | h
          · rw [h]; exact hlen
          · exact hfull r h
      · intro r hr
        rcases List.mem_cons.1 hr with h | h
        · rw [h, hlen]
        · exact hle r h
    · obtain ⟨R, hR, hflat, hne, hfull, hle⟩ := ih (i + 1) (bbody ++ [doc]) issued
        (by simp [hb]; omega)
      refine ⟨R, ?_, by simpa using hflat, hne, hfull, hle⟩
      unfold bulkLoop
      simp only [maxUpdateSTS, hi, Nat.reduceSub, ↓reduceIte, hR]

theorem chunks_length {α : Type} (R : List (List α)) :
    (∀ r ∈ R.dropLast, r.length = 10) →
      R.flatten.length + 10 = 10 * R.length + (R.getLast?.map List.length).getD 10 := by
  induction R with
  | nil => intro _; rfl
  | cons r R ih =>
    intro h
    cases R with
    | nil => simp; omega
    | cons r1 R1 =>
      have hr : r.length = 10 := h r (by simp [List.dropLast_cons₂])
      have := ih (fun x hx => h x (by rw [List.dropLast_cons₂]; exact List.mem_cons_of_mem _ hx))
      simp only [List.flatten_cons, List.length_append, List.length_cons,
        List.getLast?_cons_cons] at this ⊢
      omega

theorem chunks_getElem {α : Type} (R : List (List α)) :
    (∀ r ∈ R.dropLast, r.length = 10) → (∀ r ∈ R, r.length ≤ 10) →
      ∀ k, R[k]? = if k < R.length then some ((R.flatten.drop (10 * k)).take 10) else none := by
  induction R with
  | nil => intro _ _ k; simp
  | cons r R ih =>
    intro hfull hle k
    cases R with
    | nil =>
      cases k with
      | zero => simp [List.take_of_length_le (hle r (by simp))]
      | succ k => simp
    | cons r1 R1 =>
      have hr : r.length = 10 := hfull r (by simp [List.dropLast_cons₂])
      have ih' := ih
        (fun x hx => hfull x (by rw [List.dropLast_cons₂]; exact List.mem_cons_of_mem _ hx))
        (fun x hx => hle x (List.mem_cons_of_mem _ hx))
      cases k with
      | zero =>
        simp only [List.getElem?_cons_zero, List.length_cons, Nat.zero_lt_succ, ↓reduceIte,
          Nat.mul_zero, List.drop_zero, List.flatten_cons]
        rw [List.take_append_of_le_length (by omega), List.take_of_length_le (by omega)]
      | succ k =>
        have e : 10 * (k + 1) = r.length + 10 * k := by omega
        have hfl : (r :: r1 :: R1).flatten = r ++ (r1 :: R1).flatten := rfl
        rw [List.getElem?_cons_succ, ih' k, hfl, e, List.drop_append]
        simp only [List.length_cons, Nat.add_lt_add_iff_right]

/-- C27.  When every bulk request is answered without a transport error and not with
status 400, the cycle issues `ceil(n/10)` requests for `n` merged records: request
number `k` holds the documents of the records `10k, ..., 10k+9` in input order (fewer
in the last one), so every request but the last holds 10 documents, the last holds
`n mod 10` when that is not zero, the requests together hold every record's document
exactly once, and no request is issued for `n = 0`. -/
theorem bulkRequests_batches_of_ten (answer : Nat → BulkAnswer) (es_sts_idx : String)
    (igsMap : String → Option String) (update_time : Int) (rows : List FeedRow)
    (hok : ∀ k, ∃ code, answer k = .status code ∧ code ≠ 400) :
    (bulkRequests answer (cycleDocs es_sts_idx igsMap update_time rows)).2 = .done ∧
    (bulkRequests answer (cycleDocs es_sts_idx igsMap update_time rows)).1 =
      (List.range ((rows.length + 9) / 10)).map
        (fun k => cycleDocs es_sts_idx igsMap update_time ((rows.drop (10 * k)).take 10)) ∧
    (bulkRequests answer (cycleDocs es_sts_idx igsMap update_time rows)).1.flatten =
      cycleDocs es_sts_idx igsMap update_time rows ∧
    (bulkRequests answer (cycleDocs es_sts_idx igsMap update_time rows)).1.length =
      (rows.length + 9) / 10 ∧
    (∀ r ∈ (bulkRequests answer (cycleDocs es_sts_idx igsMap update_time rows)).1.dropLast,
      r.length = 10) ∧
    (∀ r ∈ (bulkRequests answer (cycleDocs es_sts_idx igsMap update_time rows)).1.getLast?,
      r.length = if rows.length % 10 = 0 then 10 else rows.length % 10) ∧
    (rows = [] → (bulkRequests answer (cycleDocs es_sts_idx igsMap update_time rows)).1 = []) := by
  have hsend : ∀ k, sendBulk (answer k) = .done := by
    intro k
    obtain ⟨code, h1, h2⟩ := hok k
    simp [sendBulk, h1, h2]
  obtain ⟨R, hR, hflat, hne, hfull, hle⟩ :=
    bulkLoop_spec answer hsend (cycleDocs es_sts_idx igsMap update_time rows) 0 [] [] rfl
  have hrun : bulkRequests answer (cycleDocs es_sts_idx igsMap update_time rows) = (R, .done) := by
    unfold bulkRequests
    rw [hR, List.nil_append]
  have hflat' : R.flatten = cycleDocs es_sts_idx igsMap update_time rows := by
    simpa using hflat
  have hn : R.flatten.length = rows.length := by
    rw [hflat']; simp [cycleDocs]
  have hcount := chunks_length R hfull
  have hlast : ∀ r ∈ R.getLast?, 1 ≤ r.length ∧ r.length ≤ 10 := by
    intro r hr
    have hmem : r ∈ R := List.mem_of_mem_getLast? hr
    have := hne r hmem
    exact ⟨List.length_pos.2 this, hle r hmem⟩
  have hlen : R.length = (rows.length + 9) / 10 := by
    cases hl : R.getLast? with
    | none =>
      rw [List.getLast?_eq_none_iff] at hl
      rw [hl] at hn
      simp only [List.flatten_nil, List.length_nil] at hn
      rw [hl, ← hn]
      rfl
    | some r =>
      have := hlast r (by rw [hl]; exact rfl)
      rw [hl] at hcount
      simp only [Option.map_some', Option.getD_some] at hcount
      omega
  rw [hrun]
  refine ⟨rfl, ?_, hflat', hlen, hfull, ?_, ?_⟩
  · apply List.ext_getElem?
    intro k
    rw [chunks_getElem R hfull hle k, hflat', hlen]
    simp only [cycleDocs, List.getElem?_map, List.map_drop, List.map_take]
    by_cases hk : k < (rows.length + 9) / 10
    · simp [hk, List.getElem?_range hk]
    · simp [hk, List.getElem?_eq_none (show (List.range ((rows.length + 9) / 10)).length ≤ k by
        simp; omega)]
  · intro r hr
    have := hlast r hr
    have hl : R.getLast? = some r := hr
    rw [hl] at hcount
    simp only [Option.map_some', Option.getD_some] at hcount
    split <;> omega
  · intro hrows
    rw [hrows] at hlen
    exact List.length_eq_zero.1 hlen

/-- The hypothesis of `bulkRequests_batches_of_ten` holds for a store that answers 200
to every request; 23 records are then written by three requests of 10, 10 and 3. -/
theorem bulkRequests_batches_of_ten_witness :
    (∀ k : Nat, ∃ code, (fun _ => BulkAnswer.status 200) k = .status code ∧ code ≠ 400) ∧
    ((bulkRequests (fun _ => .status 200)
      (cycleDocs "sts_index_20241104" (fun _ => none) 1730678400000
        ((List.range 23).map fun i => rowOf (feedRecord (toString i) "0" "75")))).1.map
      List.length = [10, 10, 3]) := by
  have hok : ∀ k : Nat, ∃ code, (fun _ => BulkAnswer.status 200) k = .status code ∧ code ≠ 400 :=
    fun _ => ⟨200, rfl, by decide⟩
  refine ⟨hok, ?_⟩
  rw [(bulkRequests_batches_of_ten (fun _ => .status 200) "sts_index_20241104" (fun _ => none)
    1730678400000 ((List.range 23).map fun i => rowOf (feedRecord (toString i) "0" "75")) hok).2.1]
  decide

/-! ## Error outcomes of a cycle -/

theorem sendBulk_errorSent (a : BulkAnswer) (r : STSResult) (h : sendBulk a = .errorSent r) :
    r.Result = none ∧ r.Error ≠ none := by
  cases a with
  | failed err =>
    simp only [sendBulk, BulkEnd.errorSent.injEq] at h
    rw [← h]
    exact ⟨rfl, by simp⟩
  | status code =>
    by_cases hc : code = 400
    · simp [sendBulk, hc] at h
    · simp [sendBulk, hc] at h

theorem bulkLoop_end (answer : Nat → BulkAnswer) (docs : List StoreDoc) :
    ∀ (i : Nat) (bbody : List StoreDoc) (issued : List (List StoreDoc)),
      (bulkLoop answer i bbody docs issued).2 = .done ∨
        ∃ k, (bulkLoop answer i bbody docs issued).2 = sendBulk (answer k) := by
  induction docs with
  | nil =>
    intro i bbody issued
    unfold bulkLoop
    split
    · exact Or.inr ⟨_, rfl⟩
    · exact Or.inl rfl
  | cons doc rest ih =>
    intro i bbody issued
    unfold bulkLoop
    simp only []
    split
    · cases hs : sendBulk (answer issued.length) with
      | done => exact ih _ _ _
      | errorSent r => exact Or.inr ⟨issued.length, by rw [hs]⟩
      | fatal => exact Or.inr ⟨issued.length, by rw [hs]⟩
    · exact ih _ _ _

theorem consumerStep_eq_none_iff (now : Int) (hitsOf : String → List Hit) (s : Consumer)
    (ressts : STSResult) :
    consumerStep now hitsOf s ressts = none ↔ ressts.Result = none ∧ ressts.Error ≠ none := by
  rcases ressts with ⟨Result, Error⟩
  cases Result <;> cases Error <;> simp [consumerStep]

/-- C23 as stated fails: a bulk request that ends in a transport error sends the
outcome `STSResult{Result: nil, Error: err}`, and the consumer loop that receives this
outcome does not keep running: `log.Fatalf` ends the process. -/
theorem bulk_failure_ends_consumer_loop :
    (bulkRequests (fun _ => .failed "connection refused") [docOf "A"]).2 =
      .errorSent { Result := none, Error := some "connection refused" } ∧
    (consumerStep 0 (fun _ => []) (initConsumer 0)
      { Result := none, Error := some "connection refused" }).isNone = true := by
  exact ⟨by decide, rfl⟩

/-- C23, amended.  When a bulk request of a cycle fails with a transport error, the
outcome sent on the result channel has no records and a non-nil error, and the consumer
loop that receives it ends the process.  The loop ends the process for exactly the
outcomes of this shape; an outcome without records and without error leaves cache,
seen sets and metrics as they were and only advances the cross-reference time stamp. -/
theorem consumerStep_error_outcome_exits (answer : Nat → BulkAnswer) (docs : List StoreDoc)
    (now : Int) (hitsOf : String → List Hit) (s : Consumer) :
    (∀ r, (bulkRequests answer docs).2 = .errorSent r →
      r.Result = none ∧ r.Error ≠ none ∧ consumerStep now hitsOf s r = none) ∧
    (∀ r : STSResult, consumerStep now hitsOf s r = none ↔ r.Result = none ∧ r.Error ≠ none) ∧
    consumerStep now hitsOf s { Result := none, Error := none } =
      some { s with DeadorAlive := { s.DeadorAlive with LastIgsUpdated := now } } := by
  refine ⟨?_, consumerStep_eq_none_iff now hitsOf s, rfl⟩
  intro r hr
  have hshape : r.Result = none ∧ r.Error ≠ none := by
    rcases bulkLoop_end answer docs 0 [] [] with h | ⟨k, h⟩
    · unfold bulkRequests at hr
      rw [h] at hr
      cases hr
    · unfold bulkRequests at hr
      rw [h] at hr
      exact sendBulk_errorSent _ r hr
  exact ⟨hshape.1, hshape.2, (consumerStep_eq_none_iff now hitsOf s r).2 hshape⟩

/-! ## Cache records against documents -/

theorem awbStatusOf_fields_shared_with_storeDoc (es_sts_idx : String)
    (igsMap : String → Option String) (update_time : Int) (r : FeedRow) :
    (awbStatusOf update_time r).Awbno = (storeDoc es_sts_idx igsMap update_time r).awb_no ∧
    (awbStatusOf update_time r).StatusCode = (storeDoc es_sts_idx igsMap update_time r).sts_code ∧
    (awbStatusOf update_time r).SectionCode =
      (storeDoc es_sts_idx igsMap update_time r).section_code ∧
    (awbStatusOf update_time r).LastUserName =
      (storeDoc es_sts_idx igsMap update_time r).last_updated_user ∧
    (awbStatusOf update_time r).LastUserId =
      (storeDoc es_sts_idx igsMap update_time r).last_updated_user_id :=
  ⟨rfl, rfl, rfl, rfl, rfl⟩

/-- C24, evaluated.  For the feed row of identifier `12345678` with company code `C001`
(column 5) and company name `ACME` (column 6), ingested at 1730678400000 ms, the
document holds `company_code = "C001"` and `company_name = "ACME"` while the cache
record holds `CompanyCode = "ACME"` and `CompanyName = "C001"`; and the cache record's
update time is the instant 1730678400000 seconds after the epoch, not the document's
1730678400000 milliseconds. -/
theorem awbStatusOf_disagrees_with_storeDoc :
    (storeDoc "sts_index_20241104" (fun _ => none) 1730678400000
      (rowOf ["", "S1", "12345678", "0", "", "C001", "ACME", "70", "", "", "", "u01",
        "Sato"])).company_code = "C001" ∧
    (storeDoc "sts_index_20241104" (fun _ => none) 1730678400000
      (rowOf ["", "S1", "12345678", "0", "", "C001", "ACME", "70", "", "", "", "u01",
        "Sato"])).company_name = "ACME" ∧
    (storeDoc "sts_index_20241104" (fun _ => none) 1730678400000
      (rowOf ["", "S1", "12345678", "0", "", "C001", "ACME", "70", "", "", "", "u01",
        "Sato"])).update_time = 1730678400000 ∧
    (awbStatusOf 1730678400000
      (rowOf ["", "S1", "12345678", "0", "", "C001", "ACME", "70", "", "", "", "u01",
        "Sato"])).CompanyCode = "ACME" ∧
    (awbStatusOf 1730678400000
      (rowOf ["", "S1", "12345678", "0", "", "C001", "ACME", "70", "", "", "", "u01",
        "Sato"])).CompanyName = "C001" ∧
    instantMillis (awbStatusOf 1730678400000
      (rowOf ["", "S1", "12345678", "0", "", "C001", "ACME", "70", "", "", "", "u01",
        "Sato"])) = 1730678400000000 := by
  decide

/-! ## Release of the lock -/

theorem readSTSfileBody_lock_removed_iff (es_sts_idx : String) (igsMap : String → Option String)
    (update_time : Int) (answer : Nat → BulkAnswer) (feed : Except String (List (List String))) :
    (readSTSfileBody es_sts_idx igsMap update_time answer feed).lockRemoved = true ↔
      (readSTSfileBody es_sts_idx igsMap update_time answer feed).ending = .returned := by
  unfold readSTSfileBody
  cases feed with
  | error err => simp
  | ok records =>
    simp only []
    cases readSTSfileScan records with
    | none => simp
    | some rows =>
      simp only []
      rcases bulkRequests answer (cycleDocs es_sts_idx igsMap update_time rows) with ⟨req, e⟩
      cases e <;> simp

/-- C29 as stated fails: when `os.Open` of the feed fails after the lock was acquired,
the cycle body sends the error outcome and never executes `os.Remove(stslockfile)`: the
consumer that receives the outcome ends the process (and the body itself, which has no
`return` after the send, would index the `nil` record of the unopened file). -/
theorem readSTSfileBody_open_failure_keeps_lock :
    readSTSfileBody "sts_index_20241104" (fun _ => none) 1730678400000 (fun _ => .status 200)
        (.error "open sts.csv: The system cannot find the file specified.") =
      { sent := [{ Result := none,
                   Error := some "open sts.csv: The system cannot find the file specified." }]
        requests := []
        lockRemoved := false
        ending := .exited } ∧
    (consumerStep 0 (fun _ => []) (initConsumer 0)
      { Result := none,
        Error := some "open sts.csv: The system cannot find the file specified." }).isNone = true ∧
    readSTSfileScan [] = none := by
  exact ⟨by decide, rfl, rfl⟩

theorem readSTSfileBody_releases_lock_on_success (es_sts_idx : String)
    (igsMap : String → Option String) (update_time : Int) (answer : Nat → BulkAnswer)
    (records : List (List String)) (rows : List FeedRow)
    (hscan : readSTSfileScan records = some rows)
    (hok : ∀ k, ∃ code, answer k = .status code ∧ code ≠ 400) :
    (readSTSfileBody es_sts_idx igsMap update_time answer (.ok records)).lockRemoved = true ∧
    (readSTSfileBody es_sts_idx igsMap update_time answer (.ok records)).ending = .returned := by
  have hsend : ∀ k, sendBulk (answer k) = .done := by
    intro k
    obtain ⟨code, h1, h2⟩ := hok k
    simp [sendBulk, h1, h2]
  obtain ⟨R, hR, _⟩ :=
    bulkLoop_spec answer hsend (cycleDocs es_sts_idx igsMap update_time rows) 0 [] [] rfl
  unfold readSTSfileBody bulkRequests
  simp [hscan, hR]

/-! ## Survey and seen sets -/

theorem markSeen_apply (l : List String) :
    ∀ (bl : String → Bool) (k : String), markSeen bl l k = true ↔ bl k = true ∨ k ∈ l := by
  induction l with
  | nil => intro bl k; simp [markSeen]
  | cons a l ih =>
    intro bl k
    have h := ih (Function.update bl a true) k
    unfold markSeen at h ⊢
    rw [List.foldl_cons, h]
    by_cases hk : k = a
    · subst hk; simp
    · simp [Function.update_noteq hk, hk]

theorem survey_eq (bl : String → Bool) (bound : String) (R : List AwbStatus) :
    survey bl bound R =
      (R.filter fun st => decide (bound.data ≤ st.StatusCode.data) && !bl st.Awbno).map
        fun st => st.Awbno := by
  unfold survey strLt
  congr 1
  apply List.filter_congr
  intro st _
  by_cases h : st.StatusCode.data < bound.data
  · simp [h, not_le.2 h]
  · simp [h, not_lt.1 h, Bool.and_comm]

theorem mem_survey (bl : String → Bool) (bound : String) (R : List AwbStatus) (awb : String) :
    awb ∈ survey bl bound R ↔
      ∃ st ∈ R, st.Awbno = awb ∧ bound.data ≤ st.StatusCode.data ∧ bl awb = false := by
  rw [survey_eq]
  simp only [List.mem_map, List.mem_filter, Bool.and_eq_true, decide_eq_true_eq,
    Bool.not_eq_eq_eq_not, Bool.not_true]
  constructor
  · rintro ⟨st, ⟨hst, hb, hbl⟩, rfl⟩
    exact ⟨st, hst, rfl, hb, hbl⟩
  · rintro ⟨st, hst, rfl, hb, hbl⟩
    exact ⟨st, ⟨hst, hb, hbl⟩, rfl⟩

theorem accumulate_eq (durs : List Minutes) :
    ∀ (mins : Minutes) (cnts : Int),
      accumulate durs mins cnts =
        (mins + (durs.filter fun d => d ≠ 0).sum, cnts + ((durs.filter fun d => d ≠ 0).length : Int)) := by
  induction durs with
  | nil => intro mins cnts; simp [accumulate]
  | cons d durs ih =>
    intro mins cnts
    have h := ih
    unfold accumulate at h ⊢
    rw [List.foldl_cons]
    by_cases hd : d = 0
    · simp only [hd, ne_eq, not_true_eq_false, ↓reduceIte, h, decide_False, Bool.false_eq_true,
        not_false_eq_true, List.filter_cons_of_neg]
    · simp only [ne_eq, hd, not_false_eq_true, ↓reduceIte, h, decide_True, List.filter_cons_of_pos,
        List.sum_cons, List.length_cons, Nat.cast_add, Nat.cast_one]
      refine Prod.ext ?_ ?_ <;> simp only [] <;> ring

theorem consumerStep_eq_some (now : Int) (hitsOf : String → List Hit) (s : Consumer)
    (ressts : STSResult) (hrun : ressts.Result ≠ none ∨ ressts.Error = none) :
    ∃ ch : (String → Option AwbStatus) × DeadorAlive,
      consumerStep now hitsOf s ressts = some
        { STS := ch.1
          SakuBlackList := markSeen s.SakuBlackList (survey s.SakuBlackList "70" (ressts.Result.getD []))
          ShinBlackList := markSeen s.ShinBlackList (survey s.ShinBlackList "72" (ressts.Result.getD []))
          Metrics :=
            { SakuAccumMins := (accumulate (getDurations hitsOf
                (survey s.SakuBlackList "70" (ressts.Result.getD [])) "50" "70")
                s.Metrics.SakuAccumMins s.Metrics.SakuAccumCnts).1
              SakuAccumCnts := (accumulate (getDurations hitsOf
                (survey s.SakuBlackList "70" (ressts.Result.getD [])) "50" "70")
                s.Metrics.SakuAccumMins s.Metrics.SakuAccumCnts).2
              ShinAccumMins := (accumulate (getDurations hitsOf
                (survey s.ShinBlackList "72" (ressts.Result.getD [])) "70" "72")
                s.Metrics.ShinAccumMins s.Metrics.ShinAccumCnts).1
              ShinAccumCnts := (accumulate (getDurations hitsOf
                (survey s.ShinBlackList "72" (ressts.Result.getD [])) "70" "72")
                s.Metrics.ShinAccumMins s.Metrics.ShinAccumCnts).2 }
          DeadorAlive := ch.2 } := by
  rcases ressts with ⟨Result, Error⟩
  cases Result with
  | some R => exact ⟨(rebuildCache R, { s.DeadorAlive with LastStsUpdated := now }), rfl⟩
  | none =>
    cases Error with
    | none => exact ⟨(s.STS, { s.DeadorAlive with LastIgsUpdated := now }), rfl⟩
    | some e => simp at hrun

theorem consumerStep_seen_mono (now : Int) (hitsOf : String → List Hit) (s s' : Consumer)
    (ressts : STSResult) (h : consumerStep now hitsOf s ressts = some s') (k : String) :
    (s.SakuBlackList k = true → s'.SakuBlackList k = true) ∧
    (s.ShinBlackList k = true → s'.ShinBlackList k = true) := by
  have hrun : ressts.Result ≠ none ∨ ressts.Error = none := by
    by_contra hc
    have : consumerStep now hitsOf s ressts = none := by
      rw [consumerStep_eq_none_iff]
      constructor
      · by_contra h1; exact hc (Or.inl h1)
      · intro h2; exact hc (Or.inr h2)
    rw [this] at h
    cases h
  obtain ⟨ch, hch⟩ := consumerStep_eq_some now hitsOf s ressts hrun
  rw [hch] at h
  cases h
  exact ⟨fun hk => (markSeen_apply _ _ k).2 (Or.inl hk),
    fun hk => (markSeen_apply _ _ k).2 (Or.inl hk)⟩

theorem consumerRun_seen_mono (steps : List (Int × (String → List Hit) × STSResult)) :
    ∀ (s s' : Consumer), consumerRun s steps = some s' → ∀ k,
      (s.SakuBlackList k = true → s'.SakuBlackList k = true) ∧
      (s.ShinBlackList k = true → s'.ShinBlackList k = true) := by
  induction steps with
  | nil =>
    intro s s' h k
    simp only [consumerRun, Option.some.injEq] at h
    rw [← h]
    exact ⟨id, id⟩
  | cons step rest ih =>
    intro s s' h k
    unfold consumerRun at h
    cases h1 : consumerStep step.1 step.2.1 s step.2.2 with
    | none => rw [h1] at h; cases h
    | some s1 =>
      rw [h1] at h
      have hm := consumerStep_seen_mono _ _ s s1 _ h1 k
      have hr := ih s1 s' h k
      exact ⟨fun hk => hr.1 (hm.1 hk), fun hk => hr.2 (hm.2 hk)⟩

theorem not_mem_survey_of_seen (bl : String → Bool) (bound : String) (R : List AwbStatus)
    (awb : String) (h : bl awb = true) : awb ∉ survey bl bound R := by
  rw [mem_survey]
  rintro ⟨_, _, _, _, hbl⟩
  rw [h] at hbl
  cases hbl

/-- C25.  In every iteration of the consumer loop that is not ended by `log.Fatalf`
(the outcome carries records or no error), the list surveyed for a threshold pair is
the identifiers of the records of the result, in order, whose status code is at or
above the pair's upper bound (`"70"`, resp. `"72"`) in lexicographic order and whose
identifier is not in the pair's seen set; `"8"` is at or above both bounds and `"100"`
below both.  After the iteration the seen set holds its previous members and the
surveyed identifiers, and nothing else. -/
theorem consumerStep_surveys_upper_bound (now : Int) (hitsOf : String → List Hit) (s : Consumer)
    (ressts : STSResult) (hrun : ressts.Result ≠ none ∨ ressts.Error = none) :
    ∃ s', consumerStep now hitsOf s ressts = some s' ∧
      survey s.SakuBlackList "70" (ressts.Result.getD []) =
        ((ressts.Result.getD []).filter fun st =>
          decide ("70".data ≤ st.StatusCode.data) && !s.SakuBlackList st.Awbno).map
          (fun st => st.Awbno) ∧
      survey s.ShinBlackList "72" (ressts.Result.getD []) =
        ((ressts.Result.getD []).filter fun st =>
          decide ("72".data ≤ st.StatusCode.data) && !s.ShinBlackList st.Awbno).map
          (fun st => st.Awbno) ∧
      ("70".data ≤ "8".data ∧ ¬ "70".data ≤ "100".data ∧
        "72".data ≤ "8".data ∧ ¬ "72".data ≤ "100".data) ∧
      (∀ awb, s'.SakuBlackList awb = true ↔
        s.SakuBlackList awb = true ∨ awb ∈ survey s.SakuBlackList "70" (ressts.Result.getD [])) ∧
      (∀ awb, s'.ShinBlackList awb = true ↔
        s.ShinBlackList awb = true ∨ awb ∈ survey s.ShinBlackList "72" (ressts.Result.getD [])) ∧
      (∀ awb, s.SakuBlackList awb = true → s'.SakuBlackList awb = true) ∧
      (∀ awb, s.ShinBlackList awb = true → s'.ShinBlackList awb = true) := by
  obtain ⟨ch, hch⟩ := consumerStep_eq_some now hitsOf s ressts hrun
  refine ⟨_, hch, survey_eq _ _ _, survey_eq _ _ _, by decide, ?_, ?_, ?_, ?_⟩
  · intro awb; exact markSeen_apply _ _ awb
  · intro awb; exact markSeen_apply _ _ awb
  · intro awb h; exact (markSeen_apply _ _ awb).2 (Or.inl h)
  · intro awb h; exact (markSeen_apply _ _ awb).2 (Or.inl h)

/-- A first result with `A` at status `"8"` and `B` at status `"100"`: `A` enters both
seen sets and `B` neither. -/
theorem consumerStep_surveys_upper_bound_witness :
    (({ Result := some [cachedAt "A" "8", cachedAt "B" "100"], Error := none } : STSResult).Result
        ≠ none ∨
      ({ Result := some [cachedAt "A" "8", cachedAt "B" "100"], Error := none } : STSResult).Error
        = none) ∧
    ∃ s', consumerStep 0 (fun _ => []) (initConsumer 0)
        { Result := some [cachedAt "A" "8", cachedAt "B" "100"], Error := none } = some s' ∧
      s'.SakuBlackList "A" = true ∧ s'.ShinBlackList "A" = true ∧
      ¬ s'.SakuBlackList "B" = true ∧ ¬ s'.ShinBlackList "B" = true := by
  have hrun : ({ Result := some [cachedAt "A" "8", cachedAt "B" "100"], Error := none } :
      STSResult).Result ≠ none ∨
      ({ Result := some [cachedAt "A" "8", cachedAt "B" "100"], Error := none } :
      STSResult).Error = none := Or.inr rfl
  obtain ⟨s', h1, _, _, _, hsaku, hshin, _, _⟩ :=
    consumerStep_surveys_upper_bound 0 (fun _ => []) (initConsumer 0) _ hrun
  refine ⟨hrun, s', h1, (hsaku "A").2 (Or.inr (by decide)), (hshin "A").2 (Or.inr (by decide)),
    ?_, ?_⟩
  · rw [hsaku "B"]; decide
  · rw [hshin "B"]; decide

theorem minutesOf_sum (l : List Minutes) : minutesOf l.sum = (l.map minutesOf).sum := by
  induction l with
  | nil => simp [minutesOf]
  | cons a l ih =>
    rw [List.sum_cons, List.map_cons, List.sum_cons, ← ih]
    unfold minutesOf
    push_cast
    ring

/-- C26.  In every iteration of the consumer loop that is not ended by `log.Fatalf`,
the count of a threshold pair grows by the number of non-zero durations among those
computed for the surveyed identifiers, and the total by the sum of these durations (a
zero duration adds to neither); every surveyed identifier is in the seen set after the
iteration, whatever its duration, and is not surveyed in any later iteration. -/
theorem consumerStep_counts_nonzero_durations (now : Int) (hitsOf : String → List Hit)
    (s : Consumer) (ressts : STSResult) (hrun : ressts.Result ≠ none ∨ ressts.Error = none) :
    ∃ s', consumerStep now hitsOf s ressts = some s' ∧
      s'.Metrics.SakuAccumCnts = s.Metrics.SakuAccumCnts +
        (((getDurations hitsOf (survey s.SakuBlackList "70" (ressts.Result.getD [])) "50" "70").filter
          fun d => d ≠ 0).length : Int) ∧
      minutesOf s'.Metrics.SakuAccumMins = minutesOf s.Metrics.SakuAccumMins +
        (((getDurations hitsOf (survey s.SakuBlackList "70" (ressts.Result.getD [])) "50" "70").filter
          fun d => d ≠ 0).map minutesOf).sum ∧
      s'.Metrics.ShinAccumCnts = s.Metrics.ShinAccumCnts +
        (((getDurations hitsOf (survey s.ShinBlackList "72" (ressts.Result.getD [])) "70" "72").filter
          fun d => d ≠ 0).length : Int) ∧
      minutesOf s'.Metrics.ShinAccumMins = minutesOf s.Metrics.ShinAccumMins +
        (((getDurations hitsOf (survey s.ShinBlackList "72" (ressts.Result.getD [])) "70" "72").filter
          fun d => d ≠ 0).map minutesOf).sum ∧
      (∀ awb ∈ survey s.SakuBlackList "70" (ressts.Result.getD []), s'.SakuBlackList awb = true) ∧
      (∀ awb ∈ survey s.ShinBlackList "72" (ressts.Result.getD []), s'.ShinBlackList awb = true) ∧
      (∀ steps s'', consumerRun s' steps = some s'' → ∀ R : List AwbStatus,
        (∀ awb ∈ survey s.SakuBlackList "70" (ressts.Result.getD []),
          awb ∉ survey s''.SakuBlackList "70" R) ∧
        (∀ awb ∈ survey s.ShinBlackList "72" (ressts.Result.getD []),
          awb ∉ survey s''.ShinBlackList "72" R)) := by
  obtain ⟨ch, hch⟩ := consumerStep_eq_some now hitsOf s ressts hrun
  have hsaku : ∀ awb ∈ survey s.SakuBlackList "70" (ressts.Result.getD []),
      markSeen s.SakuBlackList (survey s.SakuBlackList "70" (ressts.Result.getD [])) awb = true :=
    fun awb h => (markSeen_apply _ _ awb).2 (Or.inr h)
  have hshin : ∀ awb ∈ survey s.ShinBlackList "72" (ressts.Result.getD []),
      markSeen s.ShinBlackList (survey s.ShinBlackList "72" (ressts.Result.getD [])) awb = true :=
    fun awb h => (markSeen_apply _ _ awb).2 (Or.inr h)
  have hadd : ∀ a b : Minutes, minutesOf (a + b) = minutesOf a + minutesOf b := by
    intro a b; unfold minutesOf; push_cast; ring
  refine ⟨_, hch, ?_, ?_, ?_, ?_, hsaku, hshin, ?_⟩
  · simp only [accumulate_eq]
  · simp only [accumulate_eq, hadd, minutesOf_sum]
  · simp only [accumulate_eq]
  · simp only [accumulate_eq, hadd, minutesOf_sum]
  · intro steps s'' hrun' R
    constructor
    · intro awb h
      exact not_mem_survey_of_seen _ _ _ _
        ((consumerRun_seen_mono steps _ s'' hrun' awb).1 (hsaku awb h))
    · intro awb h
      exact not_mem_survey_of_seen _ _ _ _
        ((consumerRun_seen_mono steps _ s'' hrun' awb).2 (hshin awb h))

/-- A first result with `A` at `"70"` whose events give two minutes and a second
result with `A` again: the count is 1 after the first and stays 1 after the second. -/
theorem consumerStep_counts_nonzero_durations_witness :
    (({ Result := some [cachedAt "A" "70"], Error := none } : STSResult).Result ≠ none ∨
      ({ Result := some [cachedAt "A" "70"], Error := none } : STSResult).Error = none) ∧
    ∃ s', consumerStep 0 (fun _ => [eventAt 0 "40", eventAt 60000 "50", eventAt 180000 "70"])
        (initConsumer 0) { Result := some [cachedAt "A" "70"], Error := none } = some s' ∧
      s'.Metrics.SakuAccumCnts = 1 ∧ s'.SakuBlackList "A" = true ∧
      ∀ steps s'', consumerRun s' steps = some s'' → ∀ R : List AwbStatus,
        "A" ∉ survey s''.SakuBlackList "70" R := by
  have hrun : ({ Result := some [cachedAt "A" "70"], Error := none } : STSResult).Result ≠ none ∨
      ({ Result := some [cachedAt "A" "70"], Error := none } : STSResult).Error = none :=
    Or.inr rfl
  obtain ⟨s', h1, hc, _, _, _, hseen, _, hlater⟩ :=
    consumerStep_counts_nonzero_durations 0
      (fun _ => [eventAt 0 "40", eventAt 60000 "50", eventAt 180000 "70"]) (initConsumer 0) _ hrun
  refine ⟨hrun, s', h1, ?_, hseen "A" (by decide), ?_⟩
  · rw [hc]; decide
  · intro steps s'' hs R
    exact (hlater steps s'' hs R).1 "A" (by decide)

/-! ## Absent result -/

/-- C28.  For every span other than 0 (the only caller passes 10) and in every mode,
`getAwbStatuses` returns the `nil` slice exactly when the store returns no event; for a
non-empty event list it returns a non-empty bucket list, and one of its buckets carries
the status code and the fields of the last event. -/
theorem getAwbStatuses_nil_iff_no_event (from_ to_ : Int) (awbno : String) (timespan : Int)
    (isLatest isUpdate : Bool) (hits : List Hit) (_ : timespan ≠ 0) :
    (getAwbStatuses from_ to_ awbno timespan isLatest isUpdate hits = none ↔ hits = []) ∧
    (∀ last, hits.getLast? = some last →
      ∃ l, getAwbStatuses from_ to_ awbno timespan isLatest isUpdate hits = some l ∧ l ≠ [] ∧
        ∃ b ∈ l, b.Awbno = awbno ∧ b.TimespanInMinutes = timespan ∧
          b.StatusCode = last.sts_code ∧ b.SectionCode = last.section_code ∧
          b.CompanyCode = last.company_code ∧ b.CompanyName = last.company_name ∧
          b.LastUserName = last.last_updated_user ∧ b.LastUserId = last.last_updated_user_id ∧
          b.IsStocked = last.is_stocked ∧ b.IgsStatus = last.igs_status) := by
  cases hits with
  | nil => exact ⟨⟨fun _ => rfl, fun _ => rfl⟩, fun last h => by simp at h⟩
  | cons h0 rest =>
    refine ⟨⟨fun h => by simp [getAwbStatuses] at h, fun h => by simp at h⟩, ?_⟩
    intro last hlast
    obtain ⟨extra, hres, _, _⟩ := fillNA_result awbno timespan (hourQuarters timespan)
      (tailWhitespaces to_ timespan isLatest isUpdate
        (closeWalk awbno timespan (eventWalk from_ awbno timespan isLatest h0 (h0 :: rest))).basetime
        (closeWalk awbno timespan (eventWalk from_ awbno timespan isLatest h0 (h0 :: rest))).q).toNat
      (closeWalk awbno timespan (eventWalk from_ awbno timespan isLatest h0 (h0 :: rest)))
    have hp : (eventWalk from_ awbno timespan isLatest h0 (h0 :: rest)).p = last := by
      have h := eventFold_p awbno timespan (hourQuarters timespan) (h0 :: rest)
        (startLoop (leadWalk from_ awbno timespan isLatest h0) timespan h0)
      have e : (startLoop (leadWalk from_ awbno timespan isLatest h0) timespan h0).p = h0 := rfl
      rw [e, List.getLast?_cons_cons, hlast] at h
      exact Option.some.inj h
    have hmem : realStatus
        (eventWalk from_ awbno timespan isLatest h0 (h0 :: rest)).statusIdx awbno
        (eventWalk from_ awbno timespan isLatest h0 (h0 :: rest)).p_basetime
        (eventWalk from_ awbno timespan isLatest h0 (h0 :: rest)).p_q timespan last ∈
        (fillNA awbno timespan (hourQuarters timespan)
          (tailWhitespaces to_ timespan isLatest isUpdate
            (closeWalk awbno timespan
              (eventWalk from_ awbno timespan isLatest h0 (h0 :: rest))).basetime
            (closeWalk awbno timespan
              (eventWalk from_ awbno timespan isLatest h0 (h0 :: rest))).q).toNat
          (closeWalk awbno timespan
            (eventWalk from_ awbno timespan isLatest h0 (h0 :: rest)))).result := by
      rw [hres]
      apply List.mem_append_left
      unfold closeWalk
      simp only [hp]
      exact List.mem_append_right _ (List.mem_singleton.2 rfl)
    exact ⟨_, rfl, List.ne_nil_of_mem hmem, _, hmem, rfl, rfl, rfl, rfl, rfl, rfl, rfl, rfl, rfl, rfl⟩

/-- One event with status `"60"` at the span of 10 minutes: the result is present and
holds a bucket with that status. -/
theorem getAwbStatuses_nil_iff_no_event_witness :
    (10 : Int) ≠ 0 ∧
    (getAwbStatuses 0 1200000 "X" 10 false false [] = none) ∧
    ∃ l, getAwbStatuses 0 1200000 "X" 10 false false [eventAt 0 "60"] = some l ∧ l ≠ [] ∧
      ∃ b ∈ l, b.StatusCode = "60" :=
  ⟨by decide,
    (getAwbStatuses_nil_iff_no_event 0 1200000 "X" 10 false false [] (by decide)).1.2 rfl,
    by
      obtain ⟨l, h1, h2, b, hb, _, _, h3, _⟩ :=
        (getAwbStatuses_nil_iff_no_event 0 1200000 "X" 10 false false [eventAt 0 "60"]
          (by decide)).2 (eventAt 0 "60") rfl
      exact ⟨l, h1, h2, b, hb, h3⟩⟩

/-! ## The status list -/

theorem stsTable_foldl (values : List AwbStatus) :
    ∀ tbl : List String, tbl.Nodup →
      (values.foldl (fun tbl value =>
          if value.StatusCode ∈ tbl then tbl else tbl ++ [value.StatusCode]) tbl).Nodup ∧
      ∀ s, s ∈ values.foldl (fun tbl value =>
          if value.StatusCode ∈ tbl then tbl else tbl ++ [value.StatusCode]) tbl ↔
        s ∈ tbl ∨ ∃ v ∈ values, v.StatusCode = s := by
  induction values with
  | nil => intro tbl h; simp [h]
  | cons v values ih =>
    intro tbl h
    rw [List.foldl_cons]
    by_cases hv : v.StatusCode ∈ tbl
    · rw [if_pos hv]
      obtain ⟨h1, h2⟩ := ih tbl h
      refine ⟨h1, fun s => ?_⟩
      rw [h2]
      constructor
      · rintro (hs | ⟨x, hx, rfl⟩)
        · exact Or.inl hs
        · exact Or.inr ⟨x, List.mem_cons_of_mem _ hx, rfl⟩
      · rintro (hs | ⟨x, hx, rfl⟩)
        · exact Or.inl hs
        · rcases List.mem_cons.1 hx with hx | hx
          · rw [hx]; exact Or.inl hv
          · exact Or.inr ⟨x, hx, rfl⟩
    · rw [if_neg hv]
      have hnd : (tbl ++ [v.StatusCode]).Nodup := by
        rw [List.nodup_append]
        exact ⟨h, List.nodup_singleton _, by
          intro a ha hb
          rw [List.mem_singleton.1 hb] at ha
          exact hv ha⟩
      obtain ⟨h1, h2⟩ := ih _ hnd
      refine ⟨h1, fun s => ?_⟩
      rw [h2]
      constructor
      · rintro (hs | ⟨x, hx, rfl⟩)
        · rcases List.mem_append.1 hs with hs | hs
          · exact Or.inl hs
          · exact Or.inr ⟨v, List.mem_cons_self _ _, (List.mem_singleton.1 hs).symm⟩
        · exact Or.inr ⟨x, List.mem_cons_of_mem _ hx, rfl⟩
      · rintro (hs | ⟨x, hx, rfl⟩)
        · exact Or.inl (List.mem_append_left _ hs)
        · rcases List.mem_cons.1 hx with hx | hx
          · rw [hx]; exact Or.inl (List.mem_append_right _ (List.mem_singleton.2 rfl))
          · exact Or.inr ⟨x, hx, rfl⟩

theorem sortStable_spec (s : List String) (hnd : s.Nodup) :
    (sortStable s).Pairwise (fun a b => strLt a b = true) ∧ (sortStable s).Perm s := by
  haveI : IsTotal String (fun a b => a.data ≤ b.data) := ⟨fun a b => le_total a.data b.data⟩
  haveI : IsTrans String (fun a b => a.data ≤ b.data) :=
    ⟨fun a b c h1 h2 => le_trans h1 h2⟩
  have hperm : (sortStable s).Perm s := List.perm_insertionSort _ s
  have hsorted : (sortStable s).Pairwise (fun a b => a.data ≤ b.data) :=
    List.sorted_insertionSort (fun a b : String => a.data ≤ b.data) s
  have hnd' : (sortStable s).Pairwise (fun a b => a ≠ b) := (hperm.nodup_iff.2 hnd)
  refine ⟨?_, hperm⟩
  refine (hsorted.and hnd').imp ?_
  intro a b h
  have hne : a.data ≠ b.data := fun e => h.2 (String.ext e)
  simp only [strLt, decide_eq_true_eq]
  exact lt_of_le_of_ne h.1 hne

/-- C30.  Whatever the order in which the two map iterations of `stslistApi` visit
their entries, the list it answers with is strictly ascending under string comparison,
hence free of duplicates, and its elements are exactly the status codes of the cached
records. -/
theorem stslistApi_sorted_distinct_codes (values : List AwbStatus)
    (rangeOrder : List String → List String) (horder : ∀ l, (rangeOrder l).Perm l) :
    (stslistApi values rangeOrder).Pairwise (fun a b => strLt a b = true) ∧
    (stslistApi values rangeOrder).Nodup ∧
    (∀ s, s ∈ stslistApi values rangeOrder ↔ ∃ v ∈ values, v.StatusCode = s) := by
  obtain ⟨hnd, hmem⟩ := stsTable_foldl values [] List.nodup_nil
  have hnd' : (rangeOrder (stsTable values)).Nodup := (horder _).nodup_iff.2 hnd
  obtain ⟨hsorted, hperm⟩ := sortStable_spec _ hnd'
  refine ⟨hsorted, hperm.nodup_iff.2 hnd', fun s => ?_⟩
  unfold stslistApi
  rw [hperm.mem_iff, (horder _).mem_iff]
  unfold stsTable
  rw [hmem]
  simp

/-- Three cached records with the codes `"70"`, `"50"`, `"70"`, visited in reverse
order: the answer is `["50", "70"]`. -/
theorem stslistApi_sorted_distinct_codes_witness :
    (∀ l : List String, (List.reverse l).Perm l) ∧
    stslistApi [cachedAt "A" "70", cachedAt "B" "50", cachedAt "C" "70"] List.reverse =
      ["50", "70"] ∧
    (stslistApi [cachedAt "A" "70", cachedAt "B" "50", cachedAt "C" "70"] List.reverse).Nodup :=
  ⟨List.reverse_perm, by decide,
    (stslistApi_sorted_distinct_codes [cachedAt "A" "70", cachedAt "B" "50", cachedAt "C" "70"]
      List.reverse List.reverse_perm).2.1⟩

/-! ## Release of the lock in every part of a cycle -/

theorem worklistBody_lock_removed_iff (opened : Except String Unit) :
    (worklistBody opened).lockRemoved = true ↔ (worklistBody opened).ending = .returned := by
  cases opened <;> simp [worklistBody]

theorem readIgsFileBody_lock_removed_iff (igsMap : String → Option String)
    (blno igs : Except String (List (Except String (List String)))) :
    (readIgsFileBody igsMap blno igs).1.lockRemoved = true ↔
      (readIgsFileBody igsMap blno igs).1.ending = .returned := by
  unfold readIgsFileBody
  simp only []
  cases blno with
  | error err => simp
  | ok blnofiles =>
    simp only []
    split
    · simp
    · cases readAll blnofiles with
      | error err => simp
      | ok blnoPieces =>
        simp only []
        cases igs with
        | error err => simp
        | ok igsfiles =>
          simp only []
          split
          · simp
          · cases readAll igsfiles <;> simp

theorem readAll_ok (files : List (List String)) :
    readAll (files.map Except.ok) = .ok files := by
  induction files with
  | nil => rfl
  | cons f files ih => simp [readAll, ih]

theorem readIgsFileBody_returns (igsMap : String → Option String)
    (blnofiles igsfiles : List (List String)) :
    (readIgsFileBody igsMap (.ok (blnofiles.map Except.ok)) (.ok (igsfiles.map Except.ok))).1.ending
        = .returned ∧
    (readIgsFileBody igsMap (.ok (blnofiles.map Except.ok)) (.ok (igsfiles.map Except.ok))).2
        = readIgsFile igsMap blnofiles igsfiles := by
  unfold readIgsFileBody readIgsFile
  simp only [readAll_ok, List.length_map]
  by_cases h1 : blnofiles.length < 1
  · simp [h1]
  · by_cases h2 : igsfiles.length < 1
    · simp [h1, h2]
    · simp [h1, h2]

theorem sent_errors_end_consumer (now : Int) (hitsOf : String → List Hit) (s : Consumer)
    (err : String) : consumerStep now hitsOf s { Result := none, Error := some err } = none :=
  rfl

/-- C29, amended.  In the status-feed part, the worklist part and the cross-reference
cycle, each entered with its lock acquired, the lock path is deleted exactly on the
paths on which the body returns.  The body returns, with the lock path deleted, when
the feed opens and scans and every bulk request is accepted, when the worklist opens,
and when every cross-reference file found is read (also when no file of a kind is
found).  When opening the feed or the worklist fails, the error outcome is sent on the
result channel, the lock path is left in place, and the consumer that receives the
outcome ends the process. -/
theorem cycle_lock_removed_iff_returned (es_sts_idx : String) (igsMap : String → Option String)
    (update_time : Int) (answer : Nat → BulkAnswer) (feed : Except String (List (List String)))
    (opened : Except String Unit)
    (blno igs : Except String (List (Except String (List String)))) :
    ((readSTSfileBody es_sts_idx igsMap update_time answer feed).lockRemoved = true ↔
      (readSTSfileBody es_sts_idx igsMap update_time answer feed).ending = .returned) ∧
    ((worklistBody opened).lockRemoved = true ↔ (worklistBody opened).ending = .returned) ∧
    ((readIgsFileBody igsMap blno igs).1.lockRemoved = true ↔
      (readIgsFileBody igsMap blno igs).1.ending = .returned) ∧
    (∀ records rows, readSTSfileScan records = some rows →
      (∀ k, ∃ code, answer k = .status code ∧ code ≠ 400) →
      (readSTSfileBody es_sts_idx igsMap update_time answer (.ok records)).ending = .returned) ∧
    (worklistBody (.ok ())).ending = .returned ∧
    (∀ blnofiles igsfiles : List (List String),
      (readIgsFileBody igsMap (.ok (blnofiles.map Except.ok))
        (.ok (igsfiles.map Except.ok))).1.ending = .returned) ∧
    (∀ err,
      (readSTSfileBody es_sts_idx igsMap update_time answer (.error err)).lockRemoved = false ∧
      (readSTSfileBody es_sts_idx igsMap update_time answer (.error err)).ending = .exited ∧
      (readSTSfileBody es_sts_idx igsMap update_time answer (.error err)).sent =
        [{ Result := none, Error := some err }]) ∧
    (∀ err,
      (worklistBody (.error err)).lockRemoved = false ∧
      (worklistBody (.error err)).ending = .exited ∧
      (worklistBody (.error err)).sent = [{ Result := none, Error := some err }]) ∧
    (∀ err now hitsOf s,
      consumerStep now hitsOf s { Result := none, Error := some err } = none) := by
  refine ⟨readSTSfileBody_lock_removed_iff _ _ _ _ _, worklistBody_lock_removed_iff _,
    readIgsFileBody_lock_removed_iff _ _ _, ?_, rfl, ?_, ?_, ?_, ?_⟩
  · intro records rows hscan hok
    exact (readSTSfileBody_releases_lock_on_success es_sts_idx igsMap update_time answer records
      rows hscan hok).2
  · intro blnofiles igsfiles
    exact (readIgsFileBody_returns igsMap blnofiles igsfiles).1
  · intro err; exact ⟨rfl, rfl, rfl⟩
  · intro err; exact ⟨rfl, rfl, rfl⟩
  · intro err now hitsOf s; rfl

/-! ## The coordinate of an event time -/

theorem latestLoop_coordinate (timespan : Int) (aggs : List (String × List Hit)) :
    ∀ idx, ∀ s ∈ latestLoop timespan idx aggs, ∃ awb source rest, (awb, source :: rest) ∈ aggs ∧
      s.Awbno = awb ∧ s.StatusCode = source.sts_code ∧
      s.BaseTime = Int.tdiv (hourOf source.update_time) 1000 ∧
      s.Q = quarterOf timespan source.update_time := by
  induction aggs with
  | nil => intro idx s hs; simp [latestLoop] at hs
  | cons a aggs ih =>
    intro idx s hs
    obtain ⟨awb, data⟩ := a
    cases data with
    | nil =>
      simp only [latestLoop] at hs
      obtain ⟨awb', source, rest, hm, h⟩ := ih _ s hs
      exact ⟨awb', source, rest, List.mem_cons_of_mem _ hm, h⟩
    | cons source data =>
      simp only [latestLoop, List.mem_cons] at hs
      rcases hs with hs | hs
      · exact ⟨awb, source, data, List.mem_cons_self _ _, by rw [hs], by rw [hs], by rw [hs]; rfl,
          by rw [hs]; rfl⟩
      · obtain ⟨awb', source', rest, hm, h⟩ := ih _ s hs
        exact ⟨awb', source', rest, List.mem_cons_of_mem _ hm, h⟩

theorem ceil_div_eq (a b : Int) (hb : 0 < b) :
    Int.ceil ((a : ℚ) / (b : ℚ)) = (a - 1) / b + 1 := by
  have hbq : (0 : ℚ) < (b : ℚ) := by exact_mod_cast hb
  have hdm := Int.emod_add_ediv (a - 1) b
  have hmod := Int.emod_nonneg (a - 1) (ne_of_gt hb)
  have hlt := Int.emod_lt_of_pos (a - 1) hb
  rw [Int.ceil_eq_iff]
  constructor
  · rw [lt_div_iff₀ hbq]
    have : ((a - 1) / b) * b < a := by nlinarith
    have h2 : (((a - 1) / b : Int) : ℚ) * (b : ℚ) < (a : ℚ) := by exact_mod_cast this
    push_cast
    linarith
  · rw [div_le_iff₀ hbq]
    have : a ≤ ((a - 1) / b + 1) * b := by nlinarith
    exact_mod_cast this

theorem eventStep_coordinate (awbno : String) (timespan hq : Int) (s : Loop) (hit : Hit) :
    (eventStep awbno timespan hq s hit).p_basetime = hourOf hit.update_time ∧
    (eventStep awbno timespan hq s hit).p_q = quarterOf timespan hit.update_time := by
  unfold eventStep
  simp only []
  split <;> exact ⟨rfl, rfl⟩

/-- C34 as stated fails for a span whose millisecond count does not fit the machine
integer: at `s = 323432912759040805` minutes the product `s * 60 * 1000` wraps around to
`-32`, and the time 1000 gets the quarter index `-31`. -/
theorem bucket_coordinate_wraps_for_large_span :
    (1 : Int) ≤ 323432912759040805 ∧ (0 : Int) ≤ 1000 ∧
    timeSpanUnit 323432912759040805 = -32 ∧
    hourOf 1000 = 0 ∧
    quarterOf 323432912759040805 1000 = -31 ∧
    ¬ (0 ≤ quarterOf 323432912759040805 1000) := by
  decide

/-- C34, amended.  For every event time `t >= 0` and every span of `s` minutes with
`1 <= s <= 153722867280912` (the spans whose millisecond count `s * 60000` fits the
machine integer), the coordinate the event walk of `getAwbStatuses` and the loop of
`getLatestAwbs` compute for `t` is `hourStart = (t / 3600000) * 3600000` and
`q = (t - hourStart) / spanMillis`; it satisfies `0 <= q < quarters` with
`quarters = (3600000 - 1) / spanMillis + 1`, which is `3600000 / spanMillis` rounded up,
and the bucket `[hourStart + q * spanMillis, hourStart + (q + 1) * spanMillis)` contains
`t`. -/
theorem bucket_coordinate_bounds (t s : Int) (ht : 0 ≤ t) (hs : 1 ≤ s)
    (hb : s ≤ 153722867280912) :
    hourOf t = t / 3600000 * 3600000 ∧
    quarterOf s t = (t - hourOf t) / timeSpanUnit s ∧
    timeSpanUnit s = s * 60000 ∧
    hourQuarters s = (3600000 - 1) / timeSpanUnit s + 1 ∧
    hourQuarters s = Int.ceil ((3600000 : ℚ) / (timeSpanUnit s : ℚ)) ∧
    0 ≤ quarterOf s t ∧ quarterOf s t < hourQuarters s ∧
    hourOf t + quarterOf s t * timeSpanUnit s ≤ t ∧
    t < hourOf t + (quarterOf s t + 1) * timeSpanUnit s ∧
    (∀ (awbno : String) (st : Loop) (hit : Hit), hit.update_time = t →
      (eventStep awbno s (hourQuarters s) st hit).p_basetime = hourOf t ∧
      (eventStep awbno s (hourQuarters s) st hit).p_q = quarterOf s t) ∧
    (∀ (awbno : String) (from_ : Int) (isLatest : Bool) (h0 : Hit), h0.update_time = t →
      (startLoop (leadWalk from_ awbno s isLatest h0) s h0).p_basetime = hourOf t ∧
      (startLoop (leadWalk from_ awbno s isLatest h0) s h0).p_q = quarterOf s t) ∧
    (∀ (awb : String) (source : Hit) (data : List Hit), source.update_time = t →
      (getLatestAwbs s [(awb, source :: data)]).map (fun x => (x.BaseTime, x.Q)) =
        [(Int.tdiv (hourOf t) 1000, quarterOf s t)]) := by
  have hpos : 0 < s := by omega
  have hS := timeSpanUnit_pos s hpos hb
  have hv := validBucket_of_time s t hS ht
  have hH := hourOf_eq t ht
  have hsub : 0 ≤ t - hourOf t := by rw [hH]; omega
  have hQ : quarterOf s t = (t - hourOf t) / timeSpanUnit s := by
    unfold quarterOf
    rw [Int.tdiv_eq_ediv hsub (le_of_lt hS)]
  have hdm := Int.emod_add_ediv (t - hourOf t) (timeSpanUnit s)
  have hmod := Int.emod_nonneg (t - hourOf t) (ne_of_gt hS)
  have hlt := Int.emod_lt_of_pos (t - hourOf t) hS
  have hquart : hourQuarters s = (3600000 - 1) / timeSpanUnit s + 1 := hourQuarters_eq s hS
  refine ⟨hH, hQ, timeSpanUnit_eq s (le_of_lt hpos) hb, hquart, ?_, hv.2.1, hv.2.2, ?_, ?_, ?_,
    ?_, ?_⟩
  · rw [hquart]
    have := ceil_div_eq 3600000 (timeSpanUnit s) hS
    rw [← this]
    norm_num
  · rw [hQ]; nlinarith
  · rw [hQ]; nlinarith
  · intro awbno st hit hhit
    rw [← hhit]
    exact eventStep_coordinate awbno s (hourQuarters s) st hit
  · intro awbno from_ isLatest h0 hh0
    rw [← hh0]
    exact ⟨rfl, rfl⟩
  · intro awb source data hsrc
    rw [← hsrc]
    rfl

/-- The time 4000000 ms at the span of 10 minutes: hour start 3600000, quarter 0. -/
theorem bucket_coordinate_bounds_witness :
    (0 : Int) ≤ 4000000 ∧ (1 : Int) ≤ 10 ∧ (10 : Int) ≤ 153722867280912 ∧
    hourOf 4000000 = 3600000 ∧ quarterOf 10 4000000 = 0 ∧ hourQuarters 10 = 6 ∧
    hourOf 4000000 + quarterOf 10 4000000 * timeSpanUnit 10 ≤ 4000000 ∧
    4000000 < hourOf 4000000 + (quarterOf 10 4000000 + 1) * timeSpanUnit 10 :=
  ⟨by decide, by decide, by decide, by decide, by decide, by decide,
    (bucket_coordinate_bounds 4000000 10 (by decide) (by decide)
      (by decide)).2.2.2.2.2.2.2.1,
    (bucket_coordinate_bounds 4000000 10 (by decide) (by decide)
      (by decide)).2.2.2.2.2.2.2.2.1⟩

/-! ## The composite key -/

theorem append_sep_inj_left {α : Type} (c : α) :
    ∀ (l1 l2 r1 r2 : List α), c ∉ l1 → c ∉ l2 → l1 ++ c :: r1 = l2 ++ c :: r2 →
      l1 = l2 ∧ r1 = r2 := by
  intro l1
  induction l1 with
  | nil =>
    intro l2 r1 r2 _ h2 h
    cases l2 with
    | nil => exact ⟨rfl, by simpa using h⟩
    | cons y l2 =>
      simp only [List.nil_append, List.cons_append, List.cons.injEq] at h
      exact absurd (by rw [h.1]; exact List.mem_cons_self _ _) h2
  | cons x l1 ih =>
    intro l2 r1 r2 h1 h2 h
    cases l2 with
    | nil =>
      simp only [List.nil_append, List.cons_append, List.cons.injEq] at h
      exact absurd (by rw [h.1]; exact List.mem_cons_self _ _) h1
    | cons y l2 =>
      simp only [List.cons_append, List.cons.injEq] at h
      obtain ⟨e1, e2⟩ := ih l2 r1 r2 (fun hc => h1 (List.mem_cons_of_mem _ hc))
        (fun hc => h2 (List.mem_cons_of_mem _ hc)) h.2
      exact ⟨by rw [h.1, e1], e2⟩

theorem append_sep_inj_right {α : Type} (c : α) (l1 l2 r1 r2 : List α) (h1 : c ∉ r1)
    (h2 : c ∉ r2) (h : l1 ++ c :: r1 = l2 ++ c :: r2) : l1 = l2 ∧ r1 = r2 := by
  have hrev := congrArg List.reverse h
  simp only [List.reverse_append, List.reverse_cons, List.append_assoc, List.singleton_append]
    at hrev
  obtain ⟨e1, e2⟩ := append_sep_inj_left c r1.reverse r2.reverse l1.reverse l2.reverse
    (by simpa using h1) (by simpa using h2) hrev
  exact ⟨List.reverse_injective e2, List.reverse_injective e1⟩

theorem compositeKey_data (r : FeedRow) :
    (compositeKey r).data = r.awb.data ++ '-' :: r.br.data := by
  simp [compositeKey, String.data_append]

theorem compositeKey_eq_iff_of_branch (a b : FeedRow) (ha : '-' ∉ a.br.data)
    (hb : '-' ∉ b.br.data) :
    compositeKey a = compositeKey b ↔ a.awb = b.awb ∧ a.br = b.br := by
  constructor
  · intro h
    have hd := congrArg String.data h
    rw [compositeKey_data, compositeKey_data] at hd
    obtain ⟨e1, e2⟩ := append_sep_inj_right '-' _ _ _ _ ha hb hd
    exact ⟨String.ext e1, String.ext e2⟩
  · rintro ⟨e1, e2⟩
    unfold compositeKey
    rw [e1, e2]

theorem compositeKey_eq_iff_of_identifier (a b : FeedRow) (ha : '-' ∉ a.awb.data)
    (hb : '-' ∉ b.awb.data) :
    compositeKey a = compositeKey b ↔ a.awb = b.awb ∧ a.br = b.br := by
  constructor
  · intro h
    have hd := congrArg String.data h
    rw [compositeKey_data, compositeKey_data] at hd
    obtain ⟨e1, e2⟩ := append_sep_inj_left '-' _ _ _ _ ha hb hd
    exact ⟨String.ext e1, String.ext e2⟩
  · rintro ⟨e1, e2⟩
    unfold compositeKey
    rw [e1, e2]

theorem lastOfRuns_cons_cons (a b : FeedRow) (t : List FeedRow) :
    lastOfRuns (a :: b :: t) =
      if compositeKey a = compositeKey b then lastOfRuns (b :: t) else a :: lastOfRuns (b :: t) :=
  rfl

theorem lastOfRuns_of_key_ne (a b : FeedRow) (post : List FeedRow)
    (hk : compositeKey a ≠ compositeKey b) :
    ∀ pre, lastOfRuns (pre ++ a :: b :: post) =
      lastOfRuns (pre ++ [a]) ++ lastOfRuns (b :: post) := by
  intro pre
  induction pre with
  | nil => simp [lastOfRuns, hk]
  | cons x pre ih =>
    cases pre with
    | nil =>
      simp only [List.cons_append, List.nil_append] at ih ⊢
      by_cases hx : compositeKey x = compositeKey a
      · simp [lastOfRuns, hx, hk]
      · simp [lastOfRuns, hx, hk]
    | cons y pre =>
      simp only [List.cons_append] at ih ⊢
      by_cases hx : compositeKey x = compositeKey y
      · simp only [lastOfRuns, hx, ↓reduceIte]
        exact ih
      · simp only [lastOfRuns, hx, ↓reduceIte, List.cons_append]
        rw [ih]

theorem lastOfRuns_of_key_eq (a b : FeedRow) (post : List FeedRow)
    (hk : compositeKey a = compositeKey b) :
    ∀ pre, lastOfRuns (pre ++ a :: b :: post) = lastOfRuns (pre ++ b :: post) := by
  intro pre
  induction pre with
  | nil => simp [lastOfRuns, hk]
  | cons x pre ih =>
    cases pre with
    | nil =>
      simp only [List.cons_append, List.nil_append] at ih ⊢
      by_cases hx : compositeKey x = compositeKey a
      · have hxb : compositeKey x = compositeKey b := hx.trans hk
        rw [lastOfRuns_cons_cons x a, lastOfRuns_cons_cons x b, if_pos hx, if_pos hxb]
        exact ih
      · have hxb : ¬ compositeKey x = compositeKey b := fun h => hx (h.trans hk.symm)
        rw [lastOfRuns_cons_cons x a, lastOfRuns_cons_cons x b, if_neg hx, if_neg hxb, ih]
    | cons y pre =>
      simp only [List.cons_append] at ih ⊢
      by_cases hx : compositeKey x = compositeKey y
      · simp only [lastOfRuns, hx, ↓reduceIte]
        exact ih
      · simp only [lastOfRuns, hx, ↓reduceIte]
        rw [ih]

/-- C33 as stated fails: the rows with identifier `A-1`, branch `2` and with identifier
`A`, branch `1-2` differ in both fields and are collapsed into one record, because the
scan compares the concatenations `A-1-2`. -/
theorem readSTSfileScan_merges_colliding_keys :
    readSTSfileScan [feedRecord "A-1" "2" "50", feedRecord "A" "1-2" "70"] =
      some [rowOf (feedRecord "A" "1-2" "70")] ∧
    (rowOf (feedRecord "A-1" "2" "50")).awb ≠ (rowOf (feedRecord "A" "1-2" "70")).awb ∧
    (rowOf (feedRecord "A-1" "2" "50")).br ≠ (rowOf (feedRecord "A" "1-2" "70")).br := by
  decide

/-- C33, amended.  Two adjacent feed rows are collapsed into one record exactly when the
strings `identifier + "-" + branch` built from their trimmed fields are equal: then the
earlier row leaves no record of its own, and otherwise the records up to and including
the earlier row are followed by those from the later row on.  When neither trimmed
branch sequence (or neither trimmed identifier) contains `-`, the strings are equal
exactly when the identifiers are equal and the branch sequences are equal, so rows that
differ in identifier or in branch sequence are not merged. -/
theorem readSTSfileScan_merges_iff_key_equal (pre : List (List String))
    (first second : List String) (post : List (List String))
    (hwf : ∀ r ∈ pre ++ first :: second :: post, 13 ≤ r.length ∧ r[0]? ≠ some eofSentinel) :
    (compositeKey (rowOf first) = compositeKey (rowOf second) →
      readSTSfileScan (pre ++ first :: second :: post) =
        some (lastOfRuns ((pre ++ second :: post).map rowOf))) ∧
    (compositeKey (rowOf first) ≠ compositeKey (rowOf second) →
      readSTSfileScan (pre ++ first :: second :: post) =
        some (lastOfRuns ((pre ++ [first]).map rowOf) ++
          lastOfRuns ((second :: post).map rowOf)) ∧
      (lastOfRuns ((pre ++ [first]).map rowOf)).getLast? = some (rowOf first)) ∧
    (('-' ∉ (rowOf first).br.data ∧ '-' ∉ (rowOf second).br.data) ∨
      ('-' ∉ (rowOf first).awb.data ∧ '-' ∉ (rowOf second).awb.data) →
      (compositeKey (rowOf first) = compositeKey (rowOf second) ↔
        (rowOf first).awb = (rowOf second).awb ∧ (rowOf first).br = (rowOf second).br)) := by
  have hscan : readSTSfileScan (pre ++ first :: second :: post) =
      some (lastOfRuns ((pre ++ first :: second :: post).map rowOf)) := by
    cases pre with
    | nil => exact readSTSfileScan_eq first (second :: post) hwf
    | cons p pre => exact readSTSfileScan_eq p (pre ++ first :: second :: post) hwf
  refine ⟨?_, ?_, ?_⟩
  · intro hk
    rw [hscan, List.map_append, List.map_cons, List.map_cons,
      lastOfRuns_of_key_eq _ _ _ hk, List.map_append, List.map_cons]
  · intro hk
    refine ⟨?_, ?_⟩
    · rw [hscan]
      simp only [List.map_append, List.map_cons, List.map_nil]
      rw [lastOfRuns_of_key_ne _ _ _ hk]
    · rw [List.map_append, List.map_cons, List.map_nil]
      generalize pre.map rowOf = rows
      induction rows with
      | nil => rfl
      | cons x rows ih =>
        cases rows with
        | nil =>
          simp only [List.cons_append, List.nil_append] at ih ⊢
          by_cases hx : compositeKey x = compositeKey (rowOf first)
          · simp [lastOfRuns, hx]
          · simp [lastOfRuns, hx]
        | cons y rows =>
          simp only [List.cons_append] at ih ⊢
          by_cases hx : compositeKey x = compositeKey y
          · simp only [lastOfRuns, hx, ↓reduceIte]
            exact ih
          · simp only [lastOfRuns, hx, ↓reduceIte]
            have hne : lastOfRuns (y :: (rows ++ [rowOf first])) ≠ [] := by
              intro hnil
              rw [hnil] at ih
              cases ih
            rw [getLast?_cons_of_ne_nil _ _ hne, ih]
  · rintro (⟨ha, hb⟩ | ⟨ha, hb⟩)
    · exact compositeKey_eq_iff_of_branch _ _ ha hb
    · exact compositeKey_eq_iff_of_identifier _ _ ha hb

/-- Rows `100`/`0` and `100`/`1` without a hyphen in their fields: the keys `100-0` and
`100-1` differ and both rows give a record. -/
theorem readSTSfileScan_merges_iff_key_equal_witness :
    (∀ r ∈ ([] : List (List String)) ++
        feedRecord "100" "0" "50" :: feedRecord "100" "1" "70" :: [],
      13 ≤ r.length ∧ r[0]? ≠ some eofSentinel) ∧
    readSTSfileScan [feedRecord "100" "0" "50", feedRecord "100" "1" "70"] =
      some [rowOf (feedRecord "100" "0" "50"), rowOf (feedRecord "100" "1" "70")] ∧
    (compositeKey (rowOf (feedRecord "100" "0" "50")) =
        compositeKey (rowOf (feedRecord "100" "1" "70")) ↔
      (rowOf (feedRecord "100" "0" "50")).awb = (rowOf (feedRecord "100" "1" "70")).awb ∧
      (rowOf (feedRecord "100" "0" "50")).br = (rowOf (feedRecord "100" "1" "70")).br) :=
  ⟨by decide, by decide,
    (readSTSfileScan_merges_iff_key_equal [] (feedRecord "100" "0" "50")
      (feedRecord "100" "1" "70") [] (by decide)).2.2 (Or.inl ⟨by decide, by decide⟩)⟩

/-! ## Buckets against the calendar -/

theorem startsAt_push (B Q0 : Int) (l : List Status) (basetime q : Int) (s : Status)
    (h : startsAt B Q0 l basetime q) (hB : s.BaseTime = Int.tdiv basetime 1000) (hQ : s.Q = q)
    (b' q' : Int) : startsAt B Q0 (l ++ [s]) b' q' := by
  refine ⟨fun hnil => by simp at hnil, ?_⟩
  intro x hx
  cases l with
  | nil =>
    simp only [List.nil_append, List.head?_cons, Option.mem_def, Option.some.injEq] at hx
    obtain ⟨h1, h2⟩ := h.1 rfl
    rw [← hx, hB, hQ]
    exact ⟨h1, h2⟩
  | cons a l => exact h.2 x hx

theorem fillNA_startsAt (awbno : String) (timespan hq B Q0 : Int) (n : Nat) :
    ∀ w, startsAt B Q0 w.result w.basetime w.q →
      startsAt B Q0 (fillNA awbno timespan hq n w).result
        (fillNA awbno timespan hq n w).basetime (fillNA awbno timespan hq n w).q := by
  induction n with
  | zero => intro w h; exact h
  | succ n ih =>
    intro w h
    exact ih _ (startsAt_push B Q0 w.result w.basetime w.q _ h rfl rfl _ _)

theorem eventStep_startsAt (awbno : String) (timespan hq B Q0 : Int) (s : Loop) (hit : Hit)
    (h : startsAt B Q0 s.result s.p_basetime s.p_q) :
    startsAt B Q0 (eventStep awbno timespan hq s hit).result
      (eventStep awbno timespan hq s hit).p_basetime
      (eventStep awbno timespan hq s hit).p_q := by
  by_cases hdiff : hourOf hit.update_time ≠ s.p_basetime ∨
      quarterOf timespan hit.update_time ≠ s.p_q
  · rw [eventStep_of_ne awbno timespan hq s hit hdiff _ rfl]
    have hw := fillNA_startsAt awbno timespan hq B Q0
      (hq * Int.tdiv (hourOf hit.update_time - s.p_basetime) hourUnit +
        quarterOf timespan hit.update_time - s.p_q - 1).toNat
      { result := s.result, statusIdx := s.statusIdx, basetime := s.p_basetime, q := s.p_q } h
    exact startsAt_push B Q0 _ _ _ _ hw rfl rfl _ _
  · rw [eventStep_of_eq awbno timespan hq s hit hdiff]
    have e : hourOf hit.update_time = s.p_basetime ∧
        quarterOf timespan hit.update_time = s.p_q := by
      constructor
      · by_contra hc; exact hdiff (Or.inl hc)
      · by_contra hc; exact hdiff (Or.inr hc)
    simp only [e.1, e.2]
    exact h

theorem eventFold_startsAt (awbno : String) (timespan hq B Q0 : Int) (hits : List Hit) :
    ∀ s, startsAt B Q0 s.result s.p_basetime s.p_q →
      startsAt B Q0 (hits.foldl (eventStep awbno timespan hq) s).result
        (hits.foldl (eventStep awbno timespan hq) s).p_basetime
        (hits.foldl (eventStep awbno timespan hq) s).p_q := by
  induction hits with
  | nil => intro s h; exact h
  | cons hit hits ih =>
    intro s h
    rw [List.foldl_cons]
    exact ih _ (eventStep_startsAt awbno timespan hq B Q0 s hit h)

theorem getAwbStatuses_head_of_not_latest (from_ to_ : Int) (awbno : String) (timespan : Int)
    (isUpdate : Bool) (h0 : Hit) (rest : List Hit) (hs : 0 < timeSpanUnit timespan) (hfrom : 0 ≤ from_)
    (hle : from_ ≤ h0.update_time) :
    ∃ l, getAwbStatuses from_ to_ awbno timespan false isUpdate (h0 :: rest) = some l ∧
      ∀ x ∈ l.head?, x.BaseTime = Int.tdiv (hourOf from_) 1000 ∧ x.Q = 0 := by
  refine ⟨_, rfl, ?_⟩
  obtain ⟨_, e1, e2⟩ := leadWalk_ok from_ awbno timespan h0 hs hfrom hle
  have hlead : startsAt (Int.tdiv (hourOf from_) 1000) 0
      (leadWalk from_ awbno timespan false h0).result
      (leadWalk from_ awbno timespan false h0).basetime
      (leadWalk from_ awbno timespan false h0).q := by
    unfold leadWalk
    simp only []
    apply fillNA_startsAt
    exact ⟨fun _ => ⟨rfl, rfl⟩, fun x hx => by simp at hx⟩
  have hstart : startsAt (Int.tdiv (hourOf from_) 1000) 0
      (startLoop (leadWalk from_ awbno timespan false h0) timespan h0).result
      (startLoop (leadWalk from_ awbno timespan false h0) timespan h0).p_basetime
      (startLoop (leadWalk from_ awbno timespan false h0) timespan h0).p_q := by
    rw [e1, e2] at hlead
    exact hlead
  have hwalk := eventFold_startsAt awbno timespan (hourQuarters timespan) _ _ (h0 :: rest) _ hstart
  have hclose : startsAt (Int.tdiv (hourOf from_) 1000) 0
      (closeWalk awbno timespan (eventWalk from_ awbno timespan false h0 (h0 :: rest))).result
      (closeWalk awbno timespan (eventWalk from_ awbno timespan false h0 (h0 :: rest))).basetime
      (closeWalk awbno timespan (eventWalk from_ awbno timespan false h0 (h0 :: rest))).q :=
    startsAt_push _ _ _ _ _ _ hwalk rfl rfl _ _
  exact (fillNA_startsAt awbno timespan (hourQuarters timespan) _ _ _ _ hclose).2

theorem contiguous_six_time (l : List Status) (hc : contiguous 6 l) :
    ∀ (i : Nat) (x0 x : Status), l[0]? = some x0 → l[i]? = some x →
      x.BaseTime + x.Q * 600 = x0.BaseTime + x0.Q * 600 + 600 * (i : Int) := by
  induction l with
  | nil => intro i x0 x h0; simp at h0
  | cons a l ih =>
    intro i x0 x h0 hi
    simp only [List.getElem?_cons_zero, Option.some.injEq] at h0
    subst h0
    cases i with
    | zero =>
      simp only [List.getElem?_cons_zero, Option.some.injEq] at hi
      subst hi
      simp
    | succ i =>
      rw [List.getElem?_cons_succ] at hi
      cases l with
      | nil => simp at hi
      | cons b l =>
        obtain ⟨hn, hrest⟩ := hc
        have h := ih hrest i b x (List.getElem?_cons_zero) hi
        unfold nextBucket at hn
        push_cast
        split at hn <;> omega

theorem chain_le_last (l : List Hit) :
    ∀ (a last : Hit), List.Chain (fun a b : Hit => a.update_time ≤ b.update_time) a l →
      (a :: l).getLast? = some last → a.update_time ≤ last.update_time := by
  induction l with
  | nil =>
    intro a last _ h
    simp only [List.getLast?_singleton, Option.some.injEq] at h
    rw [h]
  | cons b l ih =>
    intro a last hc h
    rw [List.getLast?_cons_cons] at h
    cases hc with
    | cons hab hrest => exact le_trans hab (ih b last hrest h)

theorem tdiv_hourOf_thousand (t : Int) (ht : 0 ≤ t) :
    Int.tdiv (hourOf t) 1000 = t / 3600000 * 3600 := by
  rw [hourOf_eq t ht, Int.tdiv_eq_ediv (by omega) (by decide)]
  omega

/-- C32 as stated fails for a `to` near the top of the `int64` range: with `from=0`,
`to=9223372036854775807` and one event at time 0 (not before `from`, and below `to`
rounded up to the hour), `timeLineApi` returns no entry, because its
`to + hourUnit - 1` wraps around, while `getAwbStatuses` returns a list that holds at
least the bucket of the event; the two lists do not have the same length. -/
theorem getAwbStatuses_not_matching_for_large_to :
    Atoi "0" = some 0 ∧ Atoi "9223372036854775807" = some 9223372036854775807 ∧
    "" ≠ "true" ∧ (0 : Int) ≤ 0 ∧ (0 : Int) ≤ 9223372036854775807 ∧
    (0 : Int) ≤ (eventAt 0 "60").update_time ∧
    List.Chain (fun a b : Hit => a.update_time ≤ b.update_time) (eventAt 0 "60") [] ∧
    (eventAt 0 "60").update_time <
      Int.tdiv (9223372036854775807 + hourUnit - 1) hourUnit * hourUnit ∧
    ∃ l tl, getAwbStatuses 0 9223372036854775807 "X" 10 false false [eventAt 0 "60"] = some l ∧
      timeLineApi "0" "9223372036854775807" "10" "" = .ok tl ∧ l.length ≠ tl.length := by
  refine ⟨by decide, by decide, by decide, by decide, by decide, by decide, List.Chain.nil,
    by decide, ?_⟩
  obtain ⟨pre, fill, hpf, hreal, _, _⟩ :=
    getAwbStatuses_trailing_default 0 9223372036854775807 "X" 10 (eventAt 0 "60")
      (eventAt 0 "60") [] (by decide) (by decide) (by decide) List.Chain.nil rfl
  refine ⟨pre ++ fill, [], hpf, by decide, ?_⟩
  have hpre : pre ≠ [] := by
    intro hnil
    rw [hnil] at hreal
    cases hreal
  have := List.length_pos.2 hpre
  simp only [List.length_append, List.length_nil]
  omega

/-- C32, amended.  For every `0 <= from <= to` with `to <= 9223372036851175808`
(`2^63 - 3600000`, so that `to + hourUnit - 1` does not wrap around), in default mode
at the span of 10 minutes, and for every non-empty time-ascending event list that starts
at or after `from` and whose last event lies before `to` rounded up to the hour,
`getAwbStatuses` returns as many buckets as `timeLineApi` returns entries for the same
`from` and `to` without `islatest`, and bucket number `i` has the start time
`BaseTime + Q * 600` seconds and the index of calendar entry number `i`. -/
theorem getAwbStatuses_matches_timeLineApi (from_ to_ : Int) (awbno fs ts isl : String)
    (h0 last : Hit) (rest : List Hit)
    (hfs : Atoi fs = some from_) (hts : Atoi ts = some to_) (hisl : isl ≠ "true")
    (hfrom : 0 ≤ from_) (hft : from_ ≤ to_) (htb : to_ ≤ 9223372036851175808)
    (hle : from_ ≤ h0.update_time)
    (hsorted : List.Chain (fun a b : Hit => a.update_time ≤ b.update_time) h0 rest)
    (hlast : (h0 :: rest).getLast? = some last)
    (hbelow : last.update_time < Int.tdiv (to_ + hourUnit - 1) hourUnit * hourUnit) :
    ∃ l tl, getAwbStatuses from_ to_ awbno 10 false false (h0 :: rest) = some l ∧
      timeLineApi fs ts "10" isl = .ok tl ∧
      l.length = tl.length ∧
      ∀ (i : Nat) (b : Status) (e : Timeline), l[i]? = some b → tl[i]? = some e →
        b.BaseTime + b.Q * 600 = e.Time ∧ b.Index = e.Index := by
  have hs : 0 < timeSpanUnit 10 := by decide
  obtain ⟨l, hl, hidx, hcontig⟩ :=
    getAwbStatuses_contiguous_of_not_latest from_ to_ awbno 10 false h0 rest hs hfrom hle hsorted
  obtain ⟨l2, hl2, hhead⟩ :=
    getAwbStatuses_head_of_not_latest from_ to_ awbno 10 false h0 rest hs hfrom hle
  obtain ⟨pre, fill, hpf, hreal, _, hfill⟩ :=
    getAwbStatuses_trailing_default from_ to_ awbno 10 h0 last rest hs hfrom hle hsorted hlast
  have e2 : l2 = l := Option.some.inj (hl2.symm.trans hl)
  have e3 : l = pre ++ fill := Option.some.inj (hl.symm.trans hpf)
  rw [e2] at hhead
  rw [hourQuarters_ten] at hcontig
  have htl := timeLineApi_default fs ts "10" isl from_ to_ 10 hfs hts (by decide) (by decide)
    hfrom hft htb hisl
  have hL : 0 ≤ last.update_time :=
    le_trans (le_trans hfrom hle) (chain_le_last rest h0 last hsorted hlast)
  -- the first bucket
  have hpre : pre ≠ [] := by
    intro hnil
    rw [hnil] at hreal
    cases hreal
  obtain ⟨x0, hx0⟩ : ∃ x0, l[0]? = some x0 := by
    cases hl' : l with
    | nil =>
      rw [hl'] at e3
      exact absurd (List.append_eq_nil.1 e3.symm).1 hpre
    | cons a t => exact ⟨a, List.getElem?_cons_zero⟩
  have hx0c : x0.BaseTime = Int.tdiv (hourOf from_) 1000 ∧ x0.Q = 0 := by
    apply hhead
    rw [List.head?_eq_getElem?, hx0]
    rfl
  have hstart : x0.BaseTime + x0.Q * 600 = from_ / 3600000 * 3600 := by
    rw [hx0c.1, hx0c.2, tdiv_hourOf_thousand from_ hfrom]
    ring
  -- the real bucket of the last event
  have hn : pre.length - 1 < pre.length := by
    have := List.length_pos.2 hpre
    omega
  have hrealAt : l[pre.length - 1]? =
      some (realStatus ((pre.length : Int) - 1) awbno (hourOf last.update_time)
        (quarterOf 10 last.update_time) 10 last) := by
    rw [e3, List.getElem?_append_left hn, ← List.getLast?_eq_getElem?, hreal]
  have htime := contiguous_six_time l hcontig (pre.length - 1) x0 _ hx0 hrealAt
  have hq := quarterOf_eq 10 last.update_time hs hL
  have hbn := bucketNo_of_time 10 last.update_time hs hL
  have hunit : timeSpanUnit 10 = 600000 := by decide
  have hend : bucketNo (hourQuarters 10) (Int.tdiv (to_ + hourUnit - 1) hourUnit * hourUnit) 0 =
      6 * ((to_ + 3599999) / 3600000) := by
    unfold bucketNo hourUnit
    rw [hourQuarters_ten, Int.tdiv_eq_ediv (by omega) (by decide),
      Int.mul_ediv_cancel _ (by decide)]
    have : to_ + 3600000 - 1 = to_ + 3599999 := by ring
    rw [this]
    ring
  have hbelow' : last.update_time < (to_ + 3599999) / 3600000 * 3600000 := by
    unfold hourUnit at hbelow
    rw [Int.tdiv_eq_ediv (by omega) (by decide)] at hbelow
    have : to_ + 3600000 - 1 = to_ + 3599999 := by ring
    rw [this] at hbelow
    exact hbelow
  have hlen : l.length = (6 * ((to_ + 3599999) / 3600000 - from_ / 3600000)).toNat := by
    rw [e3, List.length_append, hfill, hend, hbn, hourQuarters_ten, hunit]
    simp only [realStatus] at htime
    rw [tdiv_hourOf_thousand _ hL, hq, hunit, hstart] at htime
    have hcast : ((pre.length - 1 : Nat) : Int) = (pre.length : Int) - 1 := by
      have := List.length_pos.2 hpre
      omega
    rw [hcast] at htime
    omega
  refine ⟨l, _, hl, htl, ?_, ?_⟩
  · rw [hlen]; simp
  · intro i b e hb he
    have hi : i < l.length := by
      by_contra hc
      rw [List.getElem?_eq_none (by omega)] at hb
      cases hb
    have hbt := contiguous_six_time l hcontig i x0 b hx0 hb
    have hbi : b.Index = (i : Int) := by
      have h1 := congrArg (fun m => m[i]?) hidx
      simp only [List.getElem?_map, hb, Option.map_some', List.getElem?_range hi] at h1
      exact Option.some.inj h1
    rw [← hlen] at he
    simp only [List.getElem?_map, List.getElem?_range hi, Option.map_some',
      Option.some.injEq] at he
    rw [← he]
    exact ⟨by rw [hbt, hstart], hbi⟩

/-- One event at 4000000 ms, `from = 0`, `to = 7200000`: twelve buckets against twelve
calendar entries. -/
theorem getAwbStatuses_matches_timeLineApi_witness :
    Atoi "0" = some 0 ∧ Atoi "7200000" = some 7200000 ∧ "" ≠ "true" ∧
    (0 : Int) ≤ 0 ∧ (0 : Int) ≤ 7200000 ∧ (7200000 : Int) ≤ 9223372036851175808 ∧
    (0 : Int) ≤ (eventAt 4000000 "60").update_time ∧
    List.Chain (fun a b : Hit => a.update_time ≤ b.update_time) (eventAt 4000000 "60") [] ∧
    [eventAt 4000000 "60"].getLast? = some (eventAt 4000000 "60") ∧
    (eventAt 4000000 "60").update_time < Int.tdiv (7200000 + hourUnit - 1) hourUnit * hourUnit ∧
    ∃ l tl, getAwbStatuses 0 7200000 "X" 10 false false [eventAt 4000000 "60"] = some l ∧
      timeLineApi "0" "7200000" "10" "" = .ok tl ∧ l.length = tl.length ∧
      ∀ (i : Nat) (b : Status) (e : Timeline), l[i]? = some b → tl[i]? = some e →
        b.BaseTime + b.Q * 600 = e.Time ∧ b.Index = e.Index :=
  ⟨by decide, by decide, by decide, by decide, by decide, by decide, by decide,
    List.Chain.nil, rfl, by decide,
    getAwbStatuses_matches_timeLineApi 0 7200000 "X" "0" "7200000" "" (eventAt 4000000 "60")
      (eventAt 4000000 "60") [] (by decide) (by decide) (by decide) (by decide) (by decide)
      (by decide) (by decide) List.Chain.nil rfl (by decide)⟩

/-! ## The shared cache map during a rebuild -/

theorem deleteStates_getLast (keys : List String) :
    ∀ STS : String → Option AwbStatus,
      (STS :: deleteStates STS keys).getLast? = some (deleteAll STS keys) := by
  induction keys with
  | nil => intro STS; rfl
  | cons k ks ih =>
    intro STS
    rw [deleteStates, List.getLast?_cons_cons, ih]
    rfl

theorem deleteAll_apply (keys : List String) :
    ∀ (STS : String → Option AwbStatus) (k : String),
      deleteAll STS keys k = if k ∈ keys then none else STS k := by
  induction keys with
  | nil => intro STS k; simp [deleteAll]
  | cons a ks ih =>
    intro STS k
    have h := ih (Function.update STS a none) k
    unfold deleteAll at h ⊢
    rw [List.foldl_cons, h]
    by_cases hk : k = a
    · subst hk; simp
    · by_cases hm : k ∈ ks
      · simp [hm]
      · simp [hm, hk, Function.update_noteq hk]

theorem deleteAll_eq_empty (STS : String → Option AwbStatus) (keys : List String)
    (hkeys : ∀ k, STS k ≠ none → k ∈ keys) : deleteAll STS keys = fun _ => none := by
  funext k
  rw [deleteAll_apply]
  by_cases hm : k ∈ keys
  · simp [hm]
  · simp only [hm, ↓reduceIte]
    by_contra hc
    exact hm (hkeys k hc)

theorem refillStates_getLast (l : List AwbStatus) :
    ∀ s : CacheLoop, (refillStates s l).getLast? = some (cacheView (l.foldl cacheStep s)) := by
  induction l with
  | nil => intro s; rfl
  | cons x l ih =>
    intro s
    have hne : refillStates (cacheStep s x) l ≠ [] := by
      intro hnil
      have := ih (cacheStep s x)
      rw [hnil] at this
      cases this
    rw [List.foldl_cons, refillStates]
    split
    · rw [getLast?_cons_of_ne_nil _ _ hne, ih]
    · exact ih _

theorem refillStates_ne_nil (l : List AwbStatus) (s : CacheLoop) : refillStates s l ≠ [] := by
  intro hnil
  have h := refillStates_getLast l s
  rw [hnil] at h
  cases h

theorem rebuildCache_isSome_of_mem (Result : List AwbStatus) (r0 : AwbStatus) (h : r0 ∈ Result) :
    rebuildCache Result r0.Awbno ≠ none := by
  rw [rebuildCache_apply]
  intro hc
  rw [List.find?_eq_none] at hc
  have := hc r0 (List.mem_reverse.2 h)
  simp at this

/-- C31 as stated fails: a rebuild from the cache `A ↦ "50"` to the result `A ↦ "70"`
takes the shared map through the emptied map, and `stslistApi` reading the map in that
state answers with no code at all, which is neither the answer for the previous map nor
the one for the new map. -/
theorem rebuildStates_expose_emptied_map :
    (rebuildStates (rebuildCache [cachedAt "A" "50"]) ["A"] [cachedAt "A" "70"]).map
      (fun m => m "A") = [some (cachedAt "A" "50"), none, some (cachedAt "A" "70")] ∧
    (rebuildStates (rebuildCache [cachedAt "A" "50"]) ["A"] [cachedAt "A" "70"]).map
      (fun m => stslistApi (valuesOf m ["A"]) id) = [["50"], [], ["70"]] := by
  decide

/-- C31, amended.  While the consumer loop rebuilds the cache it writes to the one map
the handlers read: the map starts as the previous map, ends as the new one, and in
between is the emptied map, which is neither of the two whenever the previous map and
the new result are not empty.  A read-path request that runs between two writes of the
rebuild observes the state reached by then. -/
theorem rebuildStates_pass_through_emptied_map (STS : String → Option AwbStatus)
    (keys : List String) (Result : List AwbStatus) (hkeys : ∀ k, STS k ≠ none → k ∈ keys) :
    (rebuildStates STS keys Result).head? = some STS ∧
    (rebuildStates STS keys Result).getLast? = some (rebuildCache Result) ∧
    (fun _ => none) ∈ rebuildStates STS keys Result ∧
    (∀ k0 r0, STS k0 ≠ none → r0 ∈ Result →
      (fun _ => none) ≠ STS ∧ (fun _ => none) ≠ rebuildCache Result) := by
  have hempty := deleteAll_eq_empty STS keys hkeys
  have hdel := deleteStates_getLast keys STS
  refine ⟨rfl, ?_, ?_, ?_⟩
  · cases Result with
    | nil =>
      unfold rebuildStates
      simp only [List.append_nil]
      rw [hdel, hempty]
      rfl
    | cons r0 rs =>
      have hlast := refillStates_getLast (r0 :: rs)
        { STS := deleteAll STS keys, prevawb := r0.Awbno, prevstatus := r0 }
      have hne := refillStates_ne_nil (r0 :: rs)
        { STS := deleteAll STS keys, prevawb := r0.Awbno, prevstatus := r0 }
      unfold rebuildStates
      simp only []
      rw [← List.cons_append, List.getLast?_append_of_ne_nil _ hne, hlast, hempty]
      rfl
  · have hmem : deleteAll STS keys ∈ STS :: deleteStates STS keys :=
      List.mem_of_mem_getLast? hdel
    rw [hempty] at hmem
    unfold rebuildStates
    rw [← List.cons_append]
    exact List.mem_append_left _ hmem
  · intro k0 r0 hk0 hr0
    constructor
    · intro hc
      exact hk0 (by rw [← hc])
    · intro hc
      exact rebuildCache_isSome_of_mem Result r0 hr0 (by rw [← hc])

/-- The cache `A ↦ "50"` rebuilt from the result `A ↦ "70"`. -/
theorem rebuildStates_pass_through_emptied_map_witness :
    (∀ k, rebuildCache [cachedAt "A" "50"] k ≠ none → k ∈ ["A"]) ∧
    (fun _ => none) ∈
      rebuildStates (rebuildCache [cachedAt "A" "50"]) ["A"] [cachedAt "A" "70"] ∧
    (fun _ => none) ≠ rebuildCache [cachedAt "A" "50"] ∧
    (fun _ => none) ≠ rebuildCache [cachedAt "A" "70"] := by
  have hkeys : ∀ k, rebuildCache [cachedAt "A" "50"] k ≠ none → k ∈ ["A"] := by
    intro k hk
    rw [rebuildCache_apply] at hk
    by_contra hne
    apply hk
    have : ¬ "A" = k := fun h => hne (by rw [← h]; exact List.mem_singleton.2 rfl)
    simp [cachedAt, this]
  have h := rebuildStates_pass_through_emptied_map (rebuildCache [cachedAt "A" "50"]) ["A"]
    [cachedAt "A" "70"] hkeys
  exact ⟨hkeys, h.2.2.1,
    (h.2.2.2 "A" (cachedAt "A" "70") (by decide) (List.mem_singleton.2 rfl)).1,
    (h.2.2.2 "A" (cachedAt "A" "70") (by decide) (List.mem_singleton.2 rfl)).2⟩

end STSKanri
